import Mathlib

/-!
# qdbp: quick data breakpoints

A shallow embedding of `qdbp.c` (the in-process trap table and its two signal handlers) and of
the loop of `qdbp_enable.c` (the driver), and theorems about them.

Modelling conventions.

* A pointer is a natural number below `2 ^ 64`; pointer arithmetic is done modulo `2 ^ 64`
  (`ptr_add`), the behaviour of the compiled code on the 64-bit targets the library supports.
* An `int` is an `Int`; the only arithmetic on `int` values are the `++`/`--` of a reference
  count and `pg_sz - 1`, whose operands stay far from the bounds of `int`.
* The two tables of `struct qdbp_ctx` are functions from the index to the entry; only the
  indices below `QDBP_NUM_TRAPS` belong to the arrays. An access of `range[p]` whose index is
  not guaranteed by the surrounding code to lie in `0 .. QDBP_NUM_TRAPS - 1` is checked, and an
  index outside the array ends the run with `Res.undef` (undefined behaviour in C).
* `mprotect` succeeds on the pages of `Proc.mapped` (the pages mapped in the address space) and
  fails on every other page. `lock_page`/`unlock_page` update the protection of the page they
  are given when the system call succeeds, and end the process with `exit(1)` when it fails
  (`Res.exit 1`). Diagnostics written to `stderr` are not modelled.
* A call of the interface ends in a `Res`: it returns, the process exits, or the behaviour is
  undefined. A signal handler ends in a `Handled`: it returns, it calls `exit`, or its
  behaviour is undefined. A callback is recorded as the pair `(cb, arg)` and is taken to leave
  the state of the library alone; a call through a null `cb` is undefined.
* `Reachable` are the states reached by `qdbp_set_trap` and `qdbp_del_trap` calls alone;
  `Running` are the states reached by such calls and by serviced faults (`segv_handler`, then
  `trap_handler`), the states in which no fault is in flight.
* One iteration of the loop of the driver is `driver_turn`: it maps the locals `state` and
  `inst`, the stop signal and the program counter of the tracee to the `ptrace` requests made
  and the new locals; the requests are taken to succeed.
-/

namespace Qdbp

/-! ## Data model -/

/-- Default value of the macro `QDBP_NUM_TRAPS` (`#ifndef QDBP_NUM_TRAPS`). -/
def QDBP_NUM_TRAPS : Nat := 8

/-- Value of `EINVAL` in `<errno.h>`. -/
def EINVAL : Int := 22

/-- Value of `EBUSY` in `<errno.h>`. -/
def EBUSY : Int := 16

/-- Value of `ENOSPC` in `<errno.h>`. -/
def ENOSPC : Int := 28

/-- Number of values of a `uintptr_t` (and of a pointer). -/
def PTR_MOD : Nat := 2 ^ 64

/-- The `struct qdbp_trap` of the source; `cb`, `arg` and `add` are pointers, null being `0`. -/
structure qdbp_trap where
  cb : Nat
  arg : Nat
  add : Nat
  len : Int
  range_idx : Int

/-- The `struct qdbp_range` of the source. -/
structure qdbp_range where
  page : Nat
  count : Int

/-- The `struct qdbp_ctx` of the source. -/
structure qdbp_ctx where
  trap : Nat → qdbp_trap
  range : Nat → qdbp_range
  trap_num : Int
  range_num : Int
  pg_sz : Int

/-- Protection of a page as set by `mprotect`: `PROT_READ | PROT_WRITE` or `PROT_READ`. -/
inductive Prot where
  | read_write
  | read_only
  deriving DecidableEq, Repr

/-- How a piece of the program ends: it returns a value, it terminates the process with
`exit(status)`, or its behaviour is undefined (an index outside a table). -/
inductive Res (α : Type) where
  | ret (a : α)
  | exit (status : Int)
  | undef

/-- State of the instrumented process as far as the library touches it: the static `qdbp_ctx`,
the protection of every page (keyed by the page address handed to `mprotect`), whether the two
signal handlers are installed, the value `sysconf(_SC_PAGESIZE)` yields (converted to `int`, as
the assignment to `pg_sz` does), and the pages on which `mprotect` succeeds (the pages mapped
in the address space of the process; on any other page `mprotect` fails). -/
structure Proc where
  ctx : qdbp_ctx
  prot : Nat → Prot
  handlers : Bool
  sc_pagesize : Int
  mapped : Nat → Bool

/-- The context `static struct qdbp_ctx qdbp_ctx = {}`: every field zero. -/
def ctx_zero : qdbp_ctx :=
  { trap := fun _ => ⟨0, 0, 0, 0, 0⟩
    range := fun _ => ⟨0, 0⟩
    trap_num := 0
    range_num := 0
    pg_sz := 0 }

/-- The process before its first call into the library, on a system whose page size is
`pagesize` and where `mprotect` succeeds on the pages of `mapped`: zeroed context, every page
read-write, no handler installed. -/
def initial (pagesize : Int) (mapped : Nat → Bool) : Proc :=
  { ctx := ctx_zero
    prot := fun _ => Prot.read_write
    handlers := false
    sc_pagesize := pagesize
    mapped := mapped }

/-! ## The functions of `qdbp.c` -/

/-- Pointer plus `int` (byte arithmetic on `void *`), modulo `2 ^ 64`. -/
def ptr_add (p : Nat) (n : Int) : Nat :=
  (((p : Int) + n) % (PTR_MOD : Int)).toNat

/-- The function `align_page`: `pg_msk = pg_sz - 1` converted to `uintptr_t`, result
`addr & ~pg_msk`. -/
def align_page (c : qdbp_ctx) (addr : Nat) : Nat :=
  let pg_msk : Nat := ((c.pg_sz - 1) % (PTR_MOD : Int)).toNat
  addr &&& (PTR_MOD - 1 - pg_msk)

/-- The system call `mprotect(addr, pg_sz, prot)` when it succeeds. -/
def mprotect (s : Proc) (addr : Nat) (prot : Prot) : Proc :=
  { s with prot := Function.update s.prot addr prot }

/-- The function `lock_page`: `mprotect(addr, pg_sz, PROT_READ)`, and `perror`, `exit(1)` when
the system call fails. -/
def lock_page (s : Proc) (addr : Nat) : Res Proc :=
  if s.mapped addr = true then Res.ret (mprotect s addr Prot.read_only) else Res.exit 1

/-- The function `unlock_page`: `mprotect(addr, pg_sz, PROT_READ | PROT_WRITE)`, and `perror`,
`exit(1)` when the system call fails. -/
def unlock_page (s : Proc) (addr : Nat) : Res Proc :=
  if s.mapped addr = true then Res.ret (mprotect s addr Prot.read_write) else Res.exit 1

/-- Loop of `get_free_trap`. The argument is `t + 1` for the loop variable `t`, so `0` is the
exit of the loop with `t = -1`. -/
def get_free_trap_loop (c : qdbp_ctx) : Nat → Int
  | 0 => -1
  | t + 1 => if (c.trap t).len = 0 then (t : Int) else get_free_trap_loop c t

/-- The function `get_free_trap`: scan from the last slot down for a slot with `len == 0`. -/
def get_free_trap (c : qdbp_ctx) : Int :=
  get_free_trap_loop c QDBP_NUM_TRAPS

/-- Loop of `get_trap`, argument as in `get_free_trap_loop`. -/
def get_trap_loop (c : qdbp_ctx) (a : Nat) : Nat → Int
  | 0 => -1
  | t + 1 =>
    let beg := (c.trap t).add
    let len := (c.trap t).len
    if len ≠ 0 ∧ beg ≤ a ∧ a < ptr_add beg len then (t : Int) else get_trap_loop c a t

/-- The function `get_trap`: the live trap whose bytes contain `at`, or `-1`. -/
def get_trap (c : qdbp_ctx) (a : Nat) : Int :=
  get_trap_loop c a QDBP_NUM_TRAPS

/-- The function `del_trap`: `trap[t].len = 0`. -/
def del_trap (s : Proc) (t : Nat) : Proc :=
  { s with ctx := { s.ctx with
      trap := Function.update s.ctx.trap t { s.ctx.trap t with len := 0 } } }

/-- Loop of `overlap`, argument as in `get_free_trap_loop`; `e` is the local `end`. -/
def overlap_loop (c : qdbp_ctx) (addr e : Nat) : Nat → Bool
  | 0 => false
  | t + 1 =>
    let beg := (c.trap t).add
    let len := (c.trap t).len
    if len ≠ 0 ∧ beg < e ∧ addr < ptr_add beg len then true else overlap_loop c addr e t

/-- The function `overlap`; the `int` result `1`/`0` is a `Bool`. -/
def overlap (c : qdbp_ctx) (addr : Nat) (len : Int) : Bool :=
  overlap_loop c addr (ptr_add addr len) QDBP_NUM_TRAPS

/-- Loop of `get_free_range`, argument as in `get_free_trap_loop`. -/
def get_free_range_loop (c : qdbp_ctx) : Nat → Int
  | 0 => -1
  | p + 1 => if (c.range p).count = 0 then (p : Int) else get_free_range_loop c p

/-- The function `get_free_range`. -/
def get_free_range (c : qdbp_ctx) : Int :=
  get_free_range_loop c QDBP_NUM_TRAPS

/-- Loop of `get_range`, argument as in `get_free_trap_loop`. -/
def get_range_loop (c : qdbp_ctx) (a : Nat) : Nat → Int
  | 0 => -1
  | p + 1 =>
    if (c.range p).count ≠ 0 ∧ a = (c.range p).page then (p : Int) else get_range_loop c a p

/-- The function `get_range`: the live range whose page is `at`, or `-1`. -/
def get_range (c : qdbp_ctx) (a : Nat) : Int :=
  get_range_loop c a QDBP_NUM_TRAPS

/-- Assignment `range[p].page = addr`. -/
def set_range_page (s : Proc) (p : Nat) (addr : Nat) : Proc :=
  { s with ctx := { s.ctx with
      range := Function.update s.ctx.range p { s.ctx.range p with page := addr } } }

/-- Assignment `range[p].count = n`. -/
def set_range_count (s : Proc) (p : Nat) (n : Int) : Proc :=
  { s with ctx := { s.ctx with
      range := Function.update s.ctx.range p { s.ctx.range p with count := n } } }

/-- Whether an `int` is an index of the tables. -/
def in_bounds (p : Int) : Prop := 0 ≤ p ∧ p < (QDBP_NUM_TRAPS : Int)

instance (p : Int) : Decidable (in_bounds p) := by
  unfold in_bounds
  exact inferInstance

/-- The function `new_range`. When `get_free_range` yields an index outside the table the
write `range[p].page = addr` is out of bounds and the behaviour is undefined. -/
def new_range (s : Proc) (addr : Nat) : Res (Int × Proc) :=
  let p := get_range s.ctx addr
  if p < 0 then
    let p := get_free_range s.ctx
    if in_bounds p then
      match lock_page (set_range_page s p.toNat addr) addr with
      | Res.ret s1 =>
        Res.ret (p, set_range_count s1 p.toNat ((s1.ctx.range p.toNat).count + 1))
      | Res.exit status => Res.exit status
      | Res.undef => Res.undef
    else Res.undef
  else
    Res.ret (p, set_range_count s p.toNat ((s.ctx.range p.toNat).count + 1))

/-- The function `del_range`; undefined when `p` is not an index of the table. -/
def del_range (s : Proc) (p : Int) : Res Proc :=
  if in_bounds p then
    let s1 := set_range_count s p.toNat ((s.ctx.range p.toNat).count - 1)
    if (s1.ctx.range p.toNat).count = 0 then
      unlock_page s1 (s1.ctx.range p.toNat).page
    else Res.ret s1
  else Res.undef

/-- The function `initialize` of the source: install the two handlers, cache the page size. -/
def initialise (s : Proc) : Proc :=
  { s with handlers := true, ctx := { s.ctx with pg_sz := s.sc_pagesize } }

/-- The test `if (!qdbp_ctx.pg_sz) initialize();` that opens `qdbp_set_trap`. -/
def ensure_init (s : Proc) : Proc :=
  if s.ctx.pg_sz = 0 then initialise s else s

/-- The function `qdbp_set_trap`: the returned `int` and the state after the call. -/
def qdbp_set_trap (s : Proc) (addr : Nat) (len : Int) (cb arg : Nat) : Res (Int × Proc) :=
  let s0 := ensure_init s
  let laddr := align_page s0.ctx addr
  if laddr = 0 ∨ len ≤ 0 ∨ len > s0.ctx.pg_sz ∨ cb = 0 then
    Res.ret (-EINVAL, s0)
  else if overlap s0.ctx addr len then
    Res.ret (-EBUSY, s0)
  else
    let t := get_free_trap s0.ctx
    if t < 0 then
      Res.ret (-ENOSPC, s0)
    else
      match new_range s0 laddr with
      | Res.ret (p, s1) =>
        Res.ret (t, { s1 with ctx := { s1.ctx with
          trap := Function.update s1.ctx.trap t.toNat ⟨cb, arg, addr, len, p⟩ } })
      | Res.exit status => Res.exit status
      | Res.undef => Res.undef

/-- The function `qdbp_del_trap`: the returned `int` and the state after the call. -/
def qdbp_del_trap (s : Proc) (t : Int) : Res (Int × Proc) :=
  if 0 > t ∨ t ≥ (QDBP_NUM_TRAPS : Int) ∨ (s.ctx.trap t.toNat).len = 0 then
    Res.ret (-EINVAL, s)
  else
    match del_range s (s.ctx.trap t.toNat).range_idx with
    | Res.ret s1 => Res.ret (0, del_trap s1 t.toNat)
    | Res.exit status => Res.exit status
    | Res.undef => Res.undef

/-! ## Vocabulary of the specification -/

/-- A trap slot is live when its `len` is not zero. -/
def live_trap (c : qdbp_ctx) (t : Nat) : Prop := (c.trap t).len ≠ 0

instance (c : qdbp_ctx) (t : Nat) : Decidable (live_trap c t) := by
  unfold live_trap
  exact inferInstance

/-- A range slot is live when its `count` is not zero. -/
def live_range (c : qdbp_ctx) (p : Nat) : Prop := (c.range p).count ≠ 0

instance (c : qdbp_ctx) (p : Nat) : Decidable (live_range c p) := by
  unfold live_range
  exact inferInstance

/-- A call of the public interface. -/
inductive Call where
  | set_trap (addr : Nat) (len : Int) (cb arg : Nat)
  | del_trap (id : Int)

/-- Run one call. -/
def step (s : Proc) : Call → Res (Int × Proc)
  | Call.set_trap addr len cb arg => qdbp_set_trap s addr len cb arg
  | Call.del_trap id => qdbp_del_trap s id

/-- States reachable from the initial context by any sequence of `qdbp_set_trap` and
`qdbp_del_trap` calls. -/
inductive Reachable : Proc → Prop where
  | init (pagesize : Int) (mapped : Nat → Bool) : Reachable (initial pagesize mapped)
  | step {s s1 : Proc} {r : Int} (c : Call) :
      Reachable s → step s c = Res.ret (r, s1) → Reachable s1

/-- The returned `int` of a call, when the call returns. -/
def ret_code : Res (Int × Proc) → Option Int
  | Res.ret (r, _) => some r
  | Res.exit _ => none
  | Res.undef => none

/-- The state after a call; the state before when the call does not return. -/
def state_after (s : Proc) : Res (Int × Proc) → Proc
  | Res.ret (_, s1) => s1
  | Res.exit _ => s
  | Res.undef => s

/-- What the specification lists as the global state that a failed call leaves alone: the trap
slots, the range slots, the recorded fault state and the protection of every page. -/
def same_tables (s s1 : Proc) : Prop :=
  s1.ctx.trap = s.ctx.trap ∧ s1.ctx.range = s.ctx.range ∧ s1.ctx.trap_num = s.ctx.trap_num ∧
    s1.ctx.range_num = s.ctx.range_num ∧ s1.prot = s.prot

/-- The test of `qdbp_set_trap` that leads to `-EINVAL`, on the initialised state `s0`. -/
def invalid_args (s0 : Proc) (addr : Nat) (len : Int) (cb : Nat) : Prop :=
  align_page s0.ctx addr = 0 ∨ len ≤ 0 ∨ len > s0.ctx.pg_sz ∨ cb = 0

instance (s0 : Proc) (addr : Nat) (len : Int) (cb : Nat) :
    Decidable (invalid_args s0 addr len cb) := by
  unfold invalid_args
  exact inferInstance

/-- Number of live traps whose `range_idx` is `p`. -/
def trap_refs (c : qdbp_ctx) (p : Nat) : Nat :=
  ((Finset.range QDBP_NUM_TRAPS).filter
    (fun t => live_trap c t ∧ (c.trap t).range_idx = (p : Int))).card

/-- Number of live traps whose address lies on the page `a`. -/
def traps_on_page (c : qdbp_ctx) (a : Nat) : Nat :=
  ((Finset.range QDBP_NUM_TRAPS).filter
    (fun t => live_trap c t ∧ align_page c (c.trap t).add = a)).card

/-- Number of live trap slots. -/
def live_traps (c : qdbp_ctx) : Nat :=
  ((Finset.range QDBP_NUM_TRAPS).filter (fun t => live_trap c t)).card

/-- Consistency of the two tables and of the page protections; `mprotect` succeeds on the page
of every live range (it did so when the range was created). -/
structure Inv (s : Proc) : Prop where
  len_pos : ∀ t, t < QDBP_NUM_TRAPS → live_trap s.ctx t → 0 < (s.ctx.trap t).len
  pg : ∀ t, t < QDBP_NUM_TRAPS → live_trap s.ctx t → s.ctx.pg_sz ≠ 0
  idx : ∀ t, t < QDBP_NUM_TRAPS → live_trap s.ctx t →
    ∃ p, p < QDBP_NUM_TRAPS ∧ (s.ctx.trap t).range_idx = (p : Int) ∧ live_range s.ctx p ∧
      (s.ctx.range p).page = align_page s.ctx (s.ctx.trap t).add
  uniq : ∀ p q, p < QDBP_NUM_TRAPS → q < QDBP_NUM_TRAPS → live_range s.ctx p →
    live_range s.ctx q → (s.ctx.range p).page = (s.ctx.range q).page → p = q
  cnt : ∀ p, p < QDBP_NUM_TRAPS → (s.ctx.range p).count = (trap_refs s.ctx p : Int)
  prot : ∀ a, s.prot a = Prot.read_only ↔
    ∃ p, p < QDBP_NUM_TRAPS ∧ live_range s.ctx p ∧ (s.ctx.range p).page = a
  mp : ∀ p, p < QDBP_NUM_TRAPS → live_range s.ctx p → s.mapped (s.ctx.range p).page = true

/-- The bytes of trap `t` lie inside the address space: `add + len` does not wrap. -/
def in_space (c : qdbp_ctx) (t : Nat) : Prop :=
  ((c.trap t).add : Int) + (c.trap t).len < (PTR_MOD : Int)

/-- The test of `overlap` fails for the byte ranges of the slots `t` and `u`. -/
def ranges_apart (c : qdbp_ctx) (t u : Nat) : Prop :=
  ¬ (((c.trap t).add : Int) < ((c.trap u).add : Int) + (c.trap u).len ∧
    ((c.trap u).add : Int) < ((c.trap t).add : Int) + (c.trap t).len)

/-- Live traps whose bytes lie inside the address space are pairwise apart. -/
def PairInv (s : Proc) : Prop :=
  ∀ t u, t < QDBP_NUM_TRAPS → u < QDBP_NUM_TRAPS → t ≠ u → live_trap s.ctx t →
    live_trap s.ctx u → in_space s.ctx t → in_space s.ctx u → ranges_apart s.ctx t u

/-! ## Runs and example states -/

/-- Whether a call is a `qdbp_set_trap`. -/
def is_set_trap : Call → Bool
  | Call.set_trap _ _ _ _ => true
  | Call.del_trap _ => false

/-- Run a sequence of calls: the returned values in order, and the final state; `none` when a
call of the sequence does not return. -/
def run_calls : Proc → List Call → Option (List Int × Proc)
  | s, [] => some ([], s)
  | s, c :: cs =>
    match step s c with
    | Res.ret (r, s1) =>
      match run_calls s1 cs with
      | none => none
      | some (rs, s2) => some (r :: rs, s2)
    | Res.exit _ => none
    | Res.undef => none

/-- Number of successful calls among the returned values. -/
def successes (rs : List Int) : Nat :=
  (rs.filter (fun r => decide (0 ≤ r))).length

/-- Example: the pages on which `mprotect` succeeds are those from 65536 up to the top of the
user half of a 48-bit address space. -/
def user_pages (a : Nat) : Bool :=
  decide (65536 ≤ a ∧ a < 2 ^ 47)

/-- Example: a system with 4096-byte pages on which one 4-byte trap at address 65536 has been
set. -/
def one_trap : Proc :=
  state_after (initial 4096 user_pages) (qdbp_set_trap (initial 4096 user_pages) 65536 4 1 0)

/-- Example: `one_trap` with a second 4-byte trap, at address 73728. -/
def two_traps : Proc :=
  state_after one_trap (qdbp_set_trap one_trap 73728 4 1 0)

/-- Example: a system with 65536-byte pages on which one 4-byte trap has been set at address
65536, the first byte of the second page. -/
def low_trap : Proc :=
  state_after (initial 65536 user_pages) (qdbp_set_trap (initial 65536 user_pages) 65536 4 1 0)

/-- Example: a fresh process on a system with 4096-byte pages after
`qdbp_set_trap(69630, 4, cb, arg)`, a trap whose four bytes cross the page boundary at
69632. -/
def crossing_trap : Proc :=
  state_after (initial 4096 user_pages) (qdbp_set_trap (initial 4096 user_pages) 69630 4 1 0)

/-- Example: eight traps of 4 bytes on the page at 65536. -/
def eight_calls : List Call :=
  [Call.set_trap 65536 4 1 0, Call.set_trap 65544 4 1 0, Call.set_trap 65552 4 1 0,
   Call.set_trap 65560 4 1 0, Call.set_trap 65568 4 1 0, Call.set_trap 65576 4 1 0,
   Call.set_trap 65584 4 1 0, Call.set_trap 65592 4 1 0]

/-- Example: the state after `eight_calls` on a system with 4096-byte pages. -/
def full_table : Proc :=
  match run_calls (initial 4096 user_pages) eight_calls with
  | some (_, s) => s
  | none => initial 4096 user_pages

/-! ## The signal handlers of `qdbp.c` -/

/-- How a signal handler ends: it returns, or it terminates the process with `exit(status)`
(the state is the one at the call of `exit`), or its behaviour is undefined (an index outside a
table, a call through a null `cb`). The callbacks invoked on the way are listed in order as
pairs `(cb, arg)`; a callback is user code and is taken not to touch the state of the
library. -/
inductive Handled where
  | returned (s : Proc) (calls : List (Nat × Nat))
  | exited (status : Int) (s : Proc) (calls : List (Nat × Nat))
  | undefined

/-- The function `segv_handler`, for the fault address `info->si_addr`. -/
def segv_handler (s : Proc) (si_addr : Nat) : Handled :=
  let laddr := align_page s.ctx si_addr
  let s1 : Proc := { s with ctx := { s.ctx with range_num := get_range s.ctx laddr } }
  if s1.ctx.range_num < 0 then
    Handled.exited 1 s1 []
  else
    let s2 : Proc := { s1 with ctx := { s1.ctx with trap_num := get_trap s1.ctx si_addr } }
    match unlock_page s2 laddr with
    | Res.ret s3 => Handled.returned s3 []
    | Res.exit status => Handled.exited status s2 []
    | Res.undef => Handled.undefined

/-- The tail `lock_page(qdbp_ctx.range[p].page)` of `trap_handler`. -/
def relock (s : Proc) (p : Int) (calls : List (Nat × Nat)) : Handled :=
  if in_bounds p then
    match lock_page s (s.ctx.range p.toNat).page with
    | Res.ret s1 => Handled.returned s1 calls
    | Res.exit status => Handled.exited status s calls
    | Res.undef => Handled.undefined
  else Handled.undefined

/-- The function `trap_handler`. -/
def trap_handler (s : Proc) : Handled :=
  let t := s.ctx.trap_num
  let p := s.ctx.range_num
  let s1 : Proc := { s with ctx := { s.ctx with trap_num := -1, range_num := -1 } }
  if p < 0 then
    Handled.exited 1 s1 []
  else if t ≥ 0 then
    if in_bounds t ∧ (s1.ctx.trap t.toNat).cb ≠ 0 then
      relock s1 p [((s1.ctx.trap t.toNat).cb, (s1.ctx.trap t.toNat).arg)]
    else Handled.undefined
  else
    relock s1 p []

/-- One fault serviced: the fault handler runs at the fault address, the faulting instruction
is retired, and the notify handler runs. -/
def fault_notify (s : Proc) (si_addr : Nat) : Handled :=
  match segv_handler s si_addr with
  | Handled.returned s1 calls =>
    match trap_handler s1 with
    | Handled.returned s2 calls2 => Handled.returned s2 (calls ++ calls2)
    | Handled.exited status s2 calls2 => Handled.exited status s2 (calls ++ calls2)
    | Handled.undefined => Handled.undefined
  | Handled.exited status s1 calls => Handled.exited status s1 calls
  | Handled.undefined => Handled.undefined

/-- States the process is in between two operations: reached from the initial context by
`qdbp_set_trap` and `qdbp_del_trap` calls that return and by faults that are serviced (the
fault handler, then the notify handler, both returning). No fault is in flight in such a
state. -/
inductive Running : Proc → Prop where
  | init (pagesize : Int) (mapped : Nat → Bool) : Running (initial pagesize mapped)
  | call {s s1 : Proc} {r : Int} (c : Call) :
      Running s → step s c = Res.ret (r, s1) → Running s1
  | fault {s s1 : Proc} {calls : List (Nat × Nat)} (si_addr : Nat) :
      Running s → fault_notify s si_addr = Handled.returned s1 calls → Running s1

/-- The callback of every live trap is not null. -/
def CbInv (s : Proc) : Prop :=
  ∀ t, t < QDBP_NUM_TRAPS → live_trap s.ctx t → (s.ctx.trap t).cb ≠ 0

/-- The test of `get_trap` for slot `t` and address `a`. -/
def hits (c : qdbp_ctx) (t : Nat) (a : Nat) : Prop :=
  (c.trap t).len ≠ 0 ∧ (c.trap t).add ≤ a ∧ a < ptr_add (c.trap t).add (c.trap t).len

/-- The byte at address `a` is one of the bytes `[add, add + len)` of slot `t`. -/
def contains_byte (c : qdbp_ctx) (t : Nat) (a : Nat) : Prop :=
  ((c.trap t).add : Int) ≤ (a : Int) ∧ (a : Int) < ((c.trap t).add : Int) + (c.trap t).len

/-- The recorded fault state cleared: `trap_num = -1`, `range_num = -1`. -/
def clear_fault (s : Proc) : Proc :=
  { s with ctx := { s.ctx with trap_num := -1, range_num := -1 } }

/-- Number of live range slots. -/
def live_ranges (c : qdbp_ctx) : Nat :=
  ((Finset.range QDBP_NUM_TRAPS).filter (fun p => live_range c p)).card

/-- Example: `one_trap` with a second 4-byte trap on the same page, at address 65544, whose
callback is `2`. -/
def same_page_traps : Proc :=
  state_after one_trap (qdbp_set_trap one_trap 65544 4 2 0)

instance (c : qdbp_ctx) (t : Nat) : Decidable (in_space c t) := by
  unfold in_space
  exact inferInstance

instance (c : qdbp_ctx) (t a : Nat) : Decidable (hits c t a) := by
  unfold hits
  exact inferInstance

instance (c : qdbp_ctx) (t a : Nat) : Decidable (contains_byte c t a) := by
  unfold contains_byte
  exact inferInstance

/-- No `qdbp_set_trap` of the run returned `id`: `calls` and `rs` are the calls of a run and
the values they returned. -/
def never_returned (id : Int) (calls : List Call) (rs : List Int) : Prop :=
  ∀ p ∈ calls.zip rs, is_set_trap p.1 = true → p.2 ≠ id

/-- Example: `two_traps` after `qdbp_del_trap(7)`: slot 6 is live, slot 7 and the slots below 6
are free. -/
def slot6_only : Proc :=
  state_after two_traps (qdbp_del_trap two_traps 7)

/-- The callbacks a handler invoked, when its behaviour is defined. -/
def calls_of : Handled → Option (List (Nat × Nat))
  | Handled.returned _ calls => some calls
  | Handled.exited _ _ calls => some calls
  | Handled.undefined => none

/-- The status with which a handler terminated the process, if it did. -/
def exit_status : Handled → Option Int
  | Handled.returned _ _ => none
  | Handled.exited status _ _ => some status
  | Handled.undefined => none

/-- Example: `same_page_traps` after a write to the byte 65537 was serviced. -/
def after_fault : Proc :=
  match fault_notify same_page_traps 65537 with
  | Handled.returned s _ => s
  | Handled.exited _ _ _ => same_page_traps
  | Handled.undefined => same_page_traps

/-- The state in which a handler returned, if it did. -/
def return_state : Handled → Option Proc
  | Handled.returned s _ => some s
  | Handled.exited _ _ _ => none
  | Handled.undefined => none

/-! ## The driver of `qdbp_enable.c` -/

/-- The `enum state` of the driver. -/
inductive state where
  | start_up
  | wait_segv
  | single_step
  | signal_trap
  | wait_trap
  deriving DecidableEq, Repr

/-- Value of `SIGTRAP` on Linux x86-64. -/
def SIGTRAP : Nat := 5

/-- Value of `SIGUSR1` on Linux x86-64. -/
def SIGUSR1 : Nat := 10

/-- Value of `SIGSEGV` on Linux x86-64. -/
def SIGSEGV : Nat := 11

/-- What the driver does to the tracee, in order: the `ptrace` requests with the signal they
inject, the `kill(pid, SIGUSR1)` of `send_signal`, and the `kill(pid, SIGTERM)` of
`expect_sigtrap`. The requests are taken to succeed. -/
inductive Action where
  | ptrace_cont (signo : Nat)
  | ptrace_singlestep (signo : Nat)
  | ptrace_getregs
  | send_signal
  | kill_sigterm
  deriving DecidableEq, Repr

/-- The locals `state` and `inst` of `main`. -/
structure Driver where
  state : Qdbp.state
  inst : Nat
  deriving DecidableEq, Repr

/-- One iteration of the loop of `main`: the loop goes on with new locals, or the driver
exits. -/
inductive Turn where
  | next (acts : List Action) (d : Driver)
  | exit (acts : List Action) (status : Int)
  deriving DecidableEq, Repr

/-- The body of the loop of `main` for one stop of the tracee: `sig` is `WSTOPSIG(wait_status)`
and `rip` is what `ptrace_getregs` reads as `regs.rip` at this stop. -/
def driver_turn (d : Driver) (sig rip : Nat) : Turn :=
  match d.state with
  | state.start_up =>
    if sig ≠ SIGTRAP then Turn.exit [Action.kill_sigterm] 1
    else Turn.next [Action.ptrace_cont 0] { d with state := state.wait_segv }
  | state.wait_segv =>
    if sig ≠ SIGSEGV then Turn.next [Action.ptrace_cont sig] d
    else Turn.next [Action.ptrace_getregs, Action.ptrace_singlestep sig]
      { state := state.single_step, inst := rip }
  | state.single_step =>
    if sig ≠ SIGTRAP then Turn.exit [Action.kill_sigterm] 1
    else Turn.next [Action.ptrace_getregs, Action.ptrace_singlestep 0]
      { d with state := if d.inst = rip then state.signal_trap else d.state }
  | state.signal_trap =>
    if sig ≠ SIGTRAP then Turn.exit [Action.kill_sigterm] 1
    else Turn.next [Action.send_signal, Action.ptrace_cont 0] { d with state := state.wait_trap }
  | state.wait_trap =>
    Turn.next [Action.ptrace_cont sig]
      { d with state := if sig = SIGUSR1 then state.wait_segv else d.state }

/-! ## Scans -/

theorem get_free_trap_loop_spec (c : qdbp_ctx) (n : Nat) :
    (get_free_trap_loop c n = -1 ∧ ∀ t, t < n → live_trap c t) ∨
    (∃ k, k < n ∧ get_free_trap_loop c n = (k : Int) ∧ ¬ live_trap c k ∧
      ∀ t, k < t → t < n → live_trap c t) := by
  induction n with
  | zero => left; simp [get_free_trap_loop]
  | succ n ih =>
    by_cases h : (c.trap n).len = 0
    · right
      refine ⟨n, Nat.lt_succ_self n, by simp [get_free_trap_loop, h], by simp [live_trap, h], ?_⟩
      intro t h1 h2; omega
    · rcases ih with ⟨h1, h2⟩ | ⟨k, hk, h1, h2, h3⟩
      · left
        refine ⟨by simp [get_free_trap_loop, h, h1], ?_⟩
        intro t ht
        rcases Nat.lt_succ_iff_lt_or_eq.mp ht with h4 | h4
        · exact h2 t h4
        · subst h4; exact h
      · right
        refine ⟨k, Nat.lt_succ_of_lt hk, by simp [get_free_trap_loop, h, h1], h2, ?_⟩
        intro t h4 h5
        rcases Nat.lt_succ_iff_lt_or_eq.mp h5 with h6 | h6
        · exact h3 t h4 h6
        · subst h6; exact h

theorem get_free_range_loop_spec (c : qdbp_ctx) (n : Nat) :
    (get_free_range_loop c n = -1 ∧ ∀ p, p < n → live_range c p) ∨
    (∃ k, k < n ∧ get_free_range_loop c n = (k : Int) ∧ ¬ live_range c k ∧
      ∀ p, k < p → p < n → live_range c p) := by
  induction n with
  | zero => left; simp [get_free_range_loop]
  | succ n ih =>
    by_cases h : (c.range n).count = 0
    · right
      refine ⟨n, Nat.lt_succ_self n, by simp [get_free_range_loop, h], by simp [live_range, h], ?_⟩
      intro t h1 h2; omega
    · rcases ih with ⟨h1, h2⟩ | ⟨k, hk, h1, h2, h3⟩
      · left
        refine ⟨by simp [get_free_range_loop, h, h1], ?_⟩
        intro t ht
        rcases Nat.lt_succ_iff_lt_or_eq.mp ht with h4 | h4
        · exact h2 t h4
        · subst h4; exact h
      · right
        refine ⟨k, Nat.lt_succ_of_lt hk, by simp [get_free_range_loop, h, h1], h2, ?_⟩
        intro t h4 h5
        rcases Nat.lt_succ_iff_lt_or_eq.mp h5 with h6 | h6
        · exact h3 t h4 h6
        · subst h6; exact h

theorem get_range_loop_spec (c : qdbp_ctx) (a : Nat) (n : Nat) :
    (get_range_loop c a n = -1 ∧ ∀ p, p < n → ¬ (live_range c p ∧ (c.range p).page = a)) ∨
    (∃ k, k < n ∧ get_range_loop c a n = (k : Int) ∧ live_range c k ∧ (c.range k).page = a ∧
      ∀ p, k < p → p < n → ¬ (live_range c p ∧ (c.range p).page = a)) := by
  induction n with
  | zero => left; simp [get_range_loop]
  | succ n ih =>
    by_cases h : (c.range n).count ≠ 0 ∧ a = (c.range n).page
    · right
      refine ⟨n, Nat.lt_succ_self n, by simp [get_range_loop, h.1, ← h.2], h.1, h.2.symm, ?_⟩
      intro t h1 h2; omega
    · have h' : ¬ (live_range c n ∧ (c.range n).page = a) := by
        intro h0; exact h ⟨h0.1, h0.2.symm⟩
      have hstep : get_range_loop c a (n + 1) = get_range_loop c a n := by
        simp only [get_range_loop]
        rw [if_neg h]
      rcases ih with ⟨h1, h2⟩ | ⟨k, hk, h1, h2, h3, h4⟩
      · left
        refine ⟨by rw [hstep, h1], ?_⟩
        intro t ht
        rcases Nat.lt_succ_iff_lt_or_eq.mp ht with h4 | h4
        · exact h2 t h4
        · subst h4; exact h'
      · right
        refine ⟨k, Nat.lt_succ_of_lt hk, by rw [hstep, h1], h2, h3, ?_⟩
        intro t h5 h6
        rcases Nat.lt_succ_iff_lt_or_eq.mp h6 with h7 | h7
        · exact h4 t h5 h7
        · subst h7; exact h'

theorem overlap_loop_iff (c : qdbp_ctx) (addr e : Nat) (n : Nat) :
    overlap_loop c addr e n = true ↔
      ∃ t, t < n ∧ live_trap c t ∧ (c.trap t).add < e ∧
        addr < ptr_add (c.trap t).add (c.trap t).len := by
  induction n with
  | zero => simp [overlap_loop]
  | succ n ih =>
    by_cases h : (c.trap n).len ≠ 0 ∧ (c.trap n).add < e ∧
        addr < ptr_add (c.trap n).add (c.trap n).len
    · have hstep : overlap_loop c addr e (n + 1) = true := by
        simp only [overlap_loop]
        rw [if_pos h]
      rw [hstep]
      simp only [true_iff]
      exact ⟨n, Nat.lt_succ_self n, h.1, h.2.1, h.2.2⟩
    · have hstep : overlap_loop c addr e (n + 1) = overlap_loop c addr e n := by
        simp only [overlap_loop]
        rw [if_neg h]
      rw [hstep, ih]
      constructor
      · rintro ⟨t, ht, h1⟩
        exact ⟨t, Nat.lt_succ_of_lt ht, h1⟩
      · rintro ⟨t, ht, h1, h2, h3⟩
        rcases Nat.lt_succ_iff_lt_or_eq.mp ht with h4 | h4
        · exact ⟨t, h4, h1, h2, h3⟩
        · subst h4; exact absurd ⟨h1, h2, h3⟩ h

/-! ## Argument validation -/

theorem align_page_null (c : qdbp_ctx) : align_page c 0 = 0 := by
  simp [align_page]

/-- Claim C1: whatever the tables hold, `qdbp_set_trap` returns `-EINVAL` when `addr` is null,
when `len` is zero or negative, when `len` exceeds the page size, or when `cb` is null. -/
theorem set_trap_invalid_argument (s : Proc) (addr : Nat) (len : Int) (cb arg : Nat)
    (h : addr = 0 ∨ len ≤ 0 ∨ len > (ensure_init s).ctx.pg_sz ∨ cb = 0) :
    qdbp_set_trap s addr len cb arg = Res.ret (-EINVAL, ensure_init s) := by
  have hl : align_page (ensure_init s).ctx addr = 0 ∨ len ≤ 0 ∨
      len > (ensure_init s).ctx.pg_sz ∨ cb = 0 := by
    rcases h with h | h
    · left; rw [h]; exact align_page_null _
    · right; exact h
  unfold qdbp_set_trap
  simp only
  rw [if_pos hl]

theorem set_trap_invalid_argument_witness :
    ((0 : Nat) = 0 ∨ (4 : Int) ≤ 0 ∨ (4 : Int) > (ensure_init one_trap).ctx.pg_sz ∨ (1 : Nat) = 0) ∧
      qdbp_set_trap one_trap 0 4 1 0 = Res.ret (-EINVAL, ensure_init one_trap) :=
  ⟨Or.inl rfl, set_trap_invalid_argument one_trap 0 4 1 0 (Or.inl rfl)⟩

/-! ## Shape of the results -/

theorem get_free_trap_spec (c : qdbp_ctx) :
    (get_free_trap c = -1 ∧ ∀ t, t < QDBP_NUM_TRAPS → live_trap c t) ∨
    (∃ k, k < QDBP_NUM_TRAPS ∧ get_free_trap c = (k : Int) ∧ ¬ live_trap c k ∧
      ∀ t, k < t → t < QDBP_NUM_TRAPS → live_trap c t) :=
  get_free_trap_loop_spec c QDBP_NUM_TRAPS

theorem overlap_iff (c : qdbp_ctx) (addr : Nat) (len : Int) :
    overlap c addr len = true ↔
      ∃ t, t < QDBP_NUM_TRAPS ∧ live_trap c t ∧ (c.trap t).add < ptr_add addr len ∧
        addr < ptr_add (c.trap t).add (c.trap t).len :=
  overlap_loop_iff c addr (ptr_add addr len) QDBP_NUM_TRAPS

theorem lock_page_mapped (s : Proc) (a : Nat) (h : s.mapped a = true) :
    lock_page s a = Res.ret (mprotect s a Prot.read_only) := by
  unfold lock_page
  rw [if_pos h]

theorem lock_page_unmapped (s : Proc) (a : Nat) (h : ¬ s.mapped a = true) :
    lock_page s a = Res.exit 1 := by
  unfold lock_page
  rw [if_neg h]

theorem unlock_page_mapped (s : Proc) (a : Nat) (h : s.mapped a = true) :
    unlock_page s a = Res.ret (mprotect s a Prot.read_write) := by
  unfold unlock_page
  rw [if_pos h]

theorem unlock_page_unmapped (s : Proc) (a : Nat) (h : ¬ s.mapped a = true) :
    unlock_page s a = Res.exit 1 := by
  unfold unlock_page
  rw [if_neg h]

/-- What `new_range` does: it either finds the live range of the page, or takes the free range
slot of greatest index and locks the page (terminating the process when `mprotect` fails), or
there is neither and the write is out of bounds. -/
theorem new_range_outcome (s : Proc) (a : Nat) :
    (∃ k, k < QDBP_NUM_TRAPS ∧ live_range s.ctx k ∧ (s.ctx.range k).page = a ∧
      get_range s.ctx a = (k : Int) ∧
      new_range s a = Res.ret ((k : Int), set_range_count s k ((s.ctx.range k).count + 1))) ∨
    ((∀ p, p < QDBP_NUM_TRAPS → ¬ (live_range s.ctx p ∧ (s.ctx.range p).page = a)) ∧
      ((∃ k, k < QDBP_NUM_TRAPS ∧ ¬ live_range s.ctx k ∧
          (∀ p, k < p → p < QDBP_NUM_TRAPS → live_range s.ctx p) ∧
          get_free_range s.ctx = (k : Int) ∧
          ((s.mapped a = true ∧ new_range s a = Res.ret ((k : Int),
              set_range_count (mprotect (set_range_page s k a) a Prot.read_only) k 1)) ∨
            (¬ s.mapped a = true ∧ new_range s a = Res.exit 1))) ∨
        ((∀ p, p < QDBP_NUM_TRAPS → live_range s.ctx p) ∧ new_range s a = Res.undef))) := by
  rcases get_range_loop_spec s.ctx a QDBP_NUM_TRAPS with ⟨h1, h2⟩ | ⟨k, hk, h1, h2, h3, _⟩
  · right
    refine ⟨h2, ?_⟩
    have hg : get_range s.ctx a = -1 := h1
    rcases get_free_range_loop_spec s.ctx QDBP_NUM_TRAPS with ⟨f1, f2⟩ | ⟨k, hk, f1, f2, f3⟩
    · right
      refine ⟨f2, ?_⟩
      have hf : get_free_range s.ctx = -1 := f1
      simp [new_range, hg, hf, in_bounds]
    · left
      have hf : get_free_range s.ctx = (k : Int) := f1
      refine ⟨k, hk, f2, f3, hf, ?_⟩
      have hb : in_bounds (k : Int) := ⟨Int.natCast_nonneg k, by exact_mod_cast hk⟩
      have hc : (s.ctx.range k).count = 0 := by
        simpa [live_range] using f2
      by_cases hm : s.mapped a = true
      · left
        refine ⟨hm, ?_⟩
        have hl : lock_page (set_range_page s k a) a =
            Res.ret (mprotect (set_range_page s k a) a Prot.read_only) :=
          lock_page_mapped _ a hm
        have hneg : ((-1 : Int) < 0) := by decide
        simp only [new_range, hg, hneg, if_true, hf, hb, Int.toNat_ofNat, hl]
        simp [mprotect, set_range_page, set_range_count, hc]
      · right
        refine ⟨hm, ?_⟩
        have hl : lock_page (set_range_page s k a) a = Res.exit 1 :=
          lock_page_unmapped _ a hm
        have hneg : ((-1 : Int) < 0) := by decide
        simp only [new_range, hg, hneg, if_true, hf, hb, Int.toNat_ofNat, hl]
  · left
    have hg : get_range s.ctx a = (k : Int) := h1
    refine ⟨k, hk, h2, h3, hg, ?_⟩
    have hn : ¬ ((k : Int) < 0) := by
      have := Int.natCast_nonneg k
      omega
    simp [new_range, hg, hn]

/-- The ways out of `qdbp_set_trap`. -/
theorem set_trap_outcome (s : Proc) (addr : Nat) (len : Int) (cb arg : Nat) :
    (invalid_args (ensure_init s) addr len cb ∧
      qdbp_set_trap s addr len cb arg = Res.ret (-EINVAL, ensure_init s)) ∨
    (¬ invalid_args (ensure_init s) addr len cb ∧ overlap (ensure_init s).ctx addr len = true ∧
      qdbp_set_trap s addr len cb arg = Res.ret (-EBUSY, ensure_init s)) ∨
    (¬ invalid_args (ensure_init s) addr len cb ∧ overlap (ensure_init s).ctx addr len = false ∧
      (∀ t, t < QDBP_NUM_TRAPS → live_trap (ensure_init s).ctx t) ∧
      qdbp_set_trap s addr len cb arg = Res.ret (-ENOSPC, ensure_init s)) ∨
    (¬ invalid_args (ensure_init s) addr len cb ∧ overlap (ensure_init s).ctx addr len = false ∧
      ∃ k, k < QDBP_NUM_TRAPS ∧ ¬ live_trap (ensure_init s).ctx k ∧
        (∀ t, k < t → t < QDBP_NUM_TRAPS → live_trap (ensure_init s).ctx t) ∧
        (((new_range (ensure_init s) (align_page (ensure_init s).ctx addr) = Res.undef ∧
              qdbp_set_trap s addr len cb arg = Res.undef) ∨
            ∃ status, new_range (ensure_init s) (align_page (ensure_init s).ctx addr) =
                Res.exit status ∧
              qdbp_set_trap s addr len cb arg = Res.exit status) ∨
          ∃ p s1, new_range (ensure_init s) (align_page (ensure_init s).ctx addr) = Res.ret (p, s1) ∧
            qdbp_set_trap s addr len cb arg = Res.ret ((k : Int), { s1 with ctx := { s1.ctx with
              trap := Function.update s1.ctx.trap k ⟨cb, arg, addr, len, p⟩ } }))) := by
  by_cases hi : invalid_args (ensure_init s) addr len cb
  · left
    refine ⟨hi, ?_⟩
    have hi' := hi
    unfold invalid_args at hi'
    unfold qdbp_set_trap
    simp only
    rw [if_pos hi']
  · right
    have hi' := hi
    unfold invalid_args at hi'
    by_cases ho : overlap (ensure_init s).ctx addr len = true
    · left
      refine ⟨hi, ho, ?_⟩
      unfold qdbp_set_trap
      simp only
      rw [if_neg hi', if_pos ho]
    · right
      have ho' : overlap (ensure_init s).ctx addr len = false := by
        simpa using ho
      rcases get_free_trap_spec (ensure_init s).ctx with ⟨h1, h2⟩ | ⟨k, hk, h1, h2, h3⟩
      · left
        refine ⟨hi, ho', h2, ?_⟩
        unfold qdbp_set_trap
        simp only
        rw [if_neg hi', if_neg ho, h1]
        simp
      · right
        refine ⟨hi, ho', k, hk, h2, h3, ?_⟩
        have hn : ¬ ((k : Int) < 0) := by
          have := Int.natCast_nonneg k
          omega
        cases hnr : new_range (ensure_init s) (align_page (ensure_init s).ctx addr) with
        | undef =>
          left
          left
          refine ⟨rfl, ?_⟩
          unfold qdbp_set_trap
          simp only
          rw [if_neg hi', if_neg ho, h1, if_neg hn, hnr]
        | exit status =>
          left
          right
          refine ⟨status, rfl, ?_⟩
          unfold qdbp_set_trap
          simp only
          rw [if_neg hi', if_neg ho, h1, if_neg hn, hnr]
        | ret ps =>
          right
          obtain ⟨p, s1⟩ := ps
          refine ⟨p, s1, rfl, ?_⟩
          unfold qdbp_set_trap
          simp only
          rw [if_neg hi', if_neg ho, h1, if_neg hn, hnr]
          simp

/-- The ways out of `qdbp_del_trap`. -/
theorem del_trap_outcome (s : Proc) (t : Int) :
    ((t < 0 ∨ (QDBP_NUM_TRAPS : Int) ≤ t ∨ ¬ live_trap s.ctx t.toNat) ∧
      qdbp_del_trap s t = Res.ret (-EINVAL, s)) ∨
    (∃ k, k < QDBP_NUM_TRAPS ∧ t = (k : Int) ∧ live_trap s.ctx k ∧
      (((del_range s (s.ctx.trap k).range_idx = Res.undef ∧ qdbp_del_trap s t = Res.undef) ∨
          ∃ status, del_range s (s.ctx.trap k).range_idx = Res.exit status ∧
            qdbp_del_trap s t = Res.exit status) ∨
        ∃ s1, del_range s (s.ctx.trap k).range_idx = Res.ret s1 ∧
          qdbp_del_trap s t = Res.ret (0, del_trap s1 k))) := by
  by_cases h : 0 > t ∨ t ≥ (QDBP_NUM_TRAPS : Int) ∨ (s.ctx.trap t.toNat).len = 0
  · left
    refine ⟨?_, ?_⟩
    · rcases h with h | h | h
      · exact Or.inl h
      · exact Or.inr (Or.inl h)
      · exact Or.inr (Or.inr (by simp [live_trap, h]))
    · unfold qdbp_del_trap
      rw [if_pos h]
  · right
    have h0 : 0 ≤ t := by
      by_contra hc; exact h (Or.inl (by omega))
    have h1 : t < (QDBP_NUM_TRAPS : Int) := by
      by_contra hc; exact h (Or.inr (Or.inl (by omega)))
    have h2 : live_trap s.ctx t.toNat := by
      intro hc; exact h (Or.inr (Or.inr hc))
    have hk : (t.toNat : Int) = t := Int.toNat_of_nonneg h0
    refine ⟨t.toNat, by omega, hk.symm, h2, ?_⟩
    cases hd : del_range s (s.ctx.trap t.toNat).range_idx with
    | undef =>
      left
      left
      refine ⟨rfl, ?_⟩
      unfold qdbp_del_trap
      rw [if_neg h, hd]
    | exit status =>
      left
      right
      refine ⟨status, rfl, ?_⟩
      unfold qdbp_del_trap
      rw [if_neg h, hd]
    | ret s1 =>
      right
      refine ⟨s1, rfl, ?_⟩
      unfold qdbp_del_trap
      rw [if_neg h, hd]

theorem same_tables_ensure_init (s : Proc) : same_tables s (ensure_init s) := by
  unfold ensure_init
  split <;> simp [same_tables, initialise]

/-! ## Failed calls -/

/-- Claim C5: when `qdbp_set_trap` or `qdbp_del_trap` returns a negative value, every trap
slot, every range slot, the recorded fault state (`trap_num`, `range_num`) and the protection
of every page are what they were before the call. -/
theorem failed_call_changes_nothing (s : Proc) :
    (∀ addr len cb arg r s1, qdbp_set_trap s addr len cb arg = Res.ret (r, s1) → r < 0 →
      same_tables s s1) ∧
    (∀ id r s1, qdbp_del_trap s id = Res.ret (r, s1) → r < 0 → same_tables s s1) := by
  constructor
  · intro addr len cb arg r s1 h hr
    rcases set_trap_outcome s addr len cb arg with ⟨_, h1⟩ | ⟨_, _, h1⟩ | ⟨_, _, _, h1⟩ |
      ⟨_, _, k, _, _, _, h1⟩
    · rw [h1] at h
      cases h
      exact same_tables_ensure_init s
    · rw [h1] at h
      cases h
      exact same_tables_ensure_init s
    · rw [h1] at h
      cases h
      exact same_tables_ensure_init s
    · rcases h1 with (⟨_, h1⟩ | ⟨_, _, h1⟩) | ⟨p, s2, _, h1⟩
      · rw [h1] at h
        cases h
      · rw [h1] at h
        cases h
      · rw [h1] at h
        cases h
        have := Int.natCast_nonneg k
        omega
  · intro id r s1 h hr
    rcases del_trap_outcome s id with ⟨_, h1⟩ | ⟨k, _, _, _, h1⟩
    · rw [h1] at h
      cases h
      simp [same_tables]
    · rcases h1 with (⟨_, h1⟩ | ⟨_, _, h1⟩) | ⟨s2, _, h1⟩
      · rw [h1] at h
        cases h
      · rw [h1] at h
        cases h
      · rw [h1] at h
        cases h
        omega

theorem failed_call_changes_nothing_witness :
    same_tables one_trap (ensure_init one_trap) ∧ same_tables one_trap one_trap :=
  ⟨(failed_call_changes_nothing one_trap).1 65537 2 1 0 (-EBUSY) (ensure_init one_trap)
      (by rfl) (by decide),
    (failed_call_changes_nothing one_trap).2 3 (-EINVAL) one_trap (by rfl) (by decide)⟩

/-! ## What the helpers leave alone -/

theorem ensure_init_trap (s : Proc) : (ensure_init s).ctx.trap = s.ctx.trap := by
  unfold ensure_init
  split <;> simp [initialise]

theorem ensure_init_range (s : Proc) : (ensure_init s).ctx.range = s.ctx.range := by
  unfold ensure_init
  split <;> simp [initialise]

theorem ensure_init_prot (s : Proc) : (ensure_init s).prot = s.prot := by
  unfold ensure_init
  split <;> simp [initialise]

theorem ensure_init_live_trap (s : Proc) (t : Nat) :
    live_trap (ensure_init s).ctx t ↔ live_trap s.ctx t := by
  unfold live_trap
  rw [ensure_init_trap]

theorem ensure_init_live_range (s : Proc) (p : Nat) :
    live_range (ensure_init s).ctx p ↔ live_range s.ctx p := by
  unfold live_range
  rw [ensure_init_range]

theorem new_range_trap (s s1 : Proc) (a : Nat) (p : Int) (h : new_range s a = Res.ret (p, s1)) :
    s1.ctx.trap = s.ctx.trap ∧ s1.ctx.pg_sz = s.ctx.pg_sz ∧ s1.ctx.trap_num = s.ctx.trap_num ∧
      s1.ctx.range_num = s.ctx.range_num ∧ s1.handlers = s.handlers ∧
      s1.sc_pagesize = s.sc_pagesize ∧ s1.mapped = s.mapped := by
  rcases new_range_outcome s a with ⟨k, _, _, _, _, h1⟩ |
    ⟨_, ⟨k, _, _, _, _, ⟨_, h1⟩ | ⟨_, h1⟩⟩ | ⟨_, h1⟩⟩
  · rw [h1] at h
    cases h
    simp [set_range_count]
  · rw [h1] at h
    cases h
    simp [set_range_count, mprotect, set_range_page]
  · rw [h1] at h
    cases h
  · rw [h1] at h
    cases h

/-- What `del_range` does: it drops one reference, and unlocks the page with the last one
(terminating the process when `mprotect` fails). -/
theorem del_range_outcome (s : Proc) (p : Int) :
    (¬ in_bounds p ∧ del_range s p = Res.undef) ∨
    (∃ k, k < QDBP_NUM_TRAPS ∧ p = (k : Int) ∧
      (((s.ctx.range k).count - 1 = 0 ∧ s.mapped (s.ctx.range k).page = true ∧
          del_range s p = Res.ret (mprotect (set_range_count s k ((s.ctx.range k).count - 1))
            (s.ctx.range k).page Prot.read_write)) ∨
        ((s.ctx.range k).count - 1 = 0 ∧ ¬ s.mapped (s.ctx.range k).page = true ∧
          del_range s p = Res.exit 1) ∨
        ((s.ctx.range k).count - 1 ≠ 0 ∧
          del_range s p = Res.ret (set_range_count s k ((s.ctx.range k).count - 1))))) := by
  by_cases hb : in_bounds p
  · right
    have h0 : 0 ≤ p := hb.1
    have hk : (p.toNat : Int) = p := Int.toNat_of_nonneg h0
    have hlt : p.toNat < QDBP_NUM_TRAPS := by
      have := hb.2
      omega
    refine ⟨p.toNat, hlt, hk.symm, ?_⟩
    by_cases hc : (s.ctx.range p.toNat).count - 1 = 0
    · by_cases hm : s.mapped (s.ctx.range p.toNat).page = true
      · left
        refine ⟨hc, hm, ?_⟩
        simp [del_range, hb, set_range_count, hc, unlock_page, hm, mprotect]
      · right
        left
        refine ⟨hc, hm, ?_⟩
        simp [del_range, hb, set_range_count, hc, unlock_page, hm]
    · right
      right
      refine ⟨hc, ?_⟩
      simp [del_range, hb, set_range_count, hc]
  · left
    exact ⟨hb, by simp [del_range, hb]⟩

theorem del_range_trap (s s1 : Proc) (p : Int) (h : del_range s p = Res.ret s1) :
    s1.ctx.trap = s.ctx.trap ∧ s1.ctx.pg_sz = s.ctx.pg_sz ∧ s1.ctx.trap_num = s.ctx.trap_num ∧
      s1.ctx.range_num = s.ctx.range_num ∧ s1.handlers = s.handlers ∧
      s1.sc_pagesize = s.sc_pagesize ∧ s1.mapped = s.mapped := by
  rcases del_range_outcome s p with ⟨_, h1⟩ | ⟨k, _, _, ⟨_, _, h1⟩ | ⟨_, _, h1⟩ | ⟨_, h1⟩⟩
  · rw [h1] at h
    cases h
  · rw [h1] at h
    cases h
    simp [mprotect, set_range_count]
  · rw [h1] at h
    cases h
  · rw [h1] at h
    cases h
    simp [set_range_count]

/-! ## Trap ids -/

/-- Claim C6: the id returned by a successful `qdbp_set_trap` lies in `0 .. capacity - 1` and
names a slot that was not live before the call, so it is the id of no live trap; when a single
slot is free (for instance a full table from which one trap was deleted) it is that slot. -/
theorem set_trap_id_fresh (s : Proc) (addr : Nat) (len : Int) (cb arg : Nat) (t : Int)
    (s1 : Proc) (h : qdbp_set_trap s addr len cb arg = Res.ret (t, s1)) (ht : 0 ≤ t) :
    t < (QDBP_NUM_TRAPS : Int) ∧ ¬ live_trap s.ctx t.toNat ∧
    (∀ k, k < QDBP_NUM_TRAPS → live_trap s.ctx k → (k : Int) ≠ t) ∧
    (∀ k, k < QDBP_NUM_TRAPS → (∀ j, j < QDBP_NUM_TRAPS → j ≠ k → live_trap s.ctx j) →
      t = (k : Int)) ∧
    (∀ s0 id, (∀ j, j < QDBP_NUM_TRAPS → live_trap s0.ctx j) →
      qdbp_del_trap s0 id = Res.ret (0, s) → t = id) := by
  have key : ∃ k, k < QDBP_NUM_TRAPS ∧ t = (k : Int) ∧ ¬ live_trap s.ctx k := by
    rcases set_trap_outcome s addr len cb arg with ⟨_, h1⟩ | ⟨_, _, h1⟩ | ⟨_, _, _, h1⟩ |
      ⟨_, _, k, hk, hfree, _, h1⟩
    · rw [h1] at h
      cases h
      simp [EINVAL] at ht
    · rw [h1] at h
      cases h
      simp [EBUSY] at ht
    · rw [h1] at h
      cases h
      simp [ENOSPC] at ht
    · rcases h1 with (⟨_, h1⟩ | ⟨_, _, h1⟩) | ⟨p, s2, _, h1⟩
      · rw [h1] at h
        cases h
      · rw [h1] at h
        cases h
      · rw [h1] at h
        cases h
        exact ⟨k, hk, rfl, fun hl => hfree ((ensure_init_live_trap s k).mpr hl)⟩
  obtain ⟨k, hk, rfl, hfree⟩ := key
  have hfresh : ∀ j, j < QDBP_NUM_TRAPS → (∀ i, i < QDBP_NUM_TRAPS → i ≠ j → live_trap s.ctx i) →
      ((k : Nat) : Int) = (j : Int) := by
    intro j _ hall
    by_contra hne
    have hkj : k ≠ j := fun e => hne (by rw [e])
    exact hfree (hall k hk hkj)
  refine ⟨by exact_mod_cast hk, by simpa using hfree, ?_, hfresh, ?_⟩
  · intro j _ hj e
    have : j = k := by exact_mod_cast e
    subst this
    exact hfree hj
  · intro s0 id hall hdel
    rcases del_trap_outcome s0 id with ⟨_, h1⟩ | ⟨j, hj, hid, _, h1⟩
    · rw [h1] at hdel
      cases hdel
    · rcases h1 with (⟨_, h1⟩ | ⟨_, _, h1⟩) | ⟨s2, hs2, h1⟩
      · rw [h1] at hdel
        cases hdel
      · rw [h1] at hdel
        cases hdel
      · rw [h1] at hdel
        cases hdel
        rw [hid]
        apply hfresh j hj
        intro i hi hij
        have h3 := (del_range_trap s0 s2 _ hs2).1
        have h4 := hall i hi
        unfold live_trap at h4 ⊢
        simp only [del_trap]
        rw [Function.update_noteq hij, h3]
        exact h4

theorem set_trap_id_fresh_witness :
    (0 : Int) ≤ 6 ∧ ((6 : Int) < (QDBP_NUM_TRAPS : Int) ∧ ¬ live_trap one_trap.ctx (6 : Int).toNat ∧
    (∀ k, k < QDBP_NUM_TRAPS → live_trap one_trap.ctx k → (k : Int) ≠ 6) ∧
    (∀ k, k < QDBP_NUM_TRAPS → (∀ j, j < QDBP_NUM_TRAPS → j ≠ k → live_trap one_trap.ctx j) →
      (6 : Int) = (k : Int)) ∧
    (∀ s0 id, (∀ j, j < QDBP_NUM_TRAPS → live_trap s0.ctx j) →
      qdbp_del_trap s0 id = Res.ret (0, one_trap) → (6 : Int) = id)) :=
  ⟨by decide, set_trap_id_fresh one_trap 73728 4 1 0 6
    (state_after one_trap (qdbp_set_trap one_trap 73728 4 1 0)) (by rfl) (by decide)⟩

/-! ## Overlap -/

theorem ptr_add_exact (p : Nat) (n : Int) (h0 : 0 ≤ (p : Int) + n)
    (h1 : (p : Int) + n < (PTR_MOD : Int)) : ((ptr_add p n : Nat) : Int) = (p : Int) + n := by
  unfold ptr_add
  rw [Int.emod_eq_of_lt h0 h1]
  exact Int.toNat_of_nonneg h0

theorem ret_code_some (r : Int) (s1 : Proc) : ret_code (Res.ret (r, s1)) = some r := rfl

/-- The result `-EBUSY` is exactly the case in which `overlap` finds a trap. -/
theorem set_trap_busy_iff (s : Proc) (addr : Nat) (len : Int) (cb arg : Nat)
    (hv : ¬ invalid_args (ensure_init s) addr len cb) :
    ret_code (qdbp_set_trap s addr len cb arg) = some (-EBUSY) ↔
      overlap (ensure_init s).ctx addr len = true := by
  rcases set_trap_outcome s addr len cb arg with ⟨hi, _⟩ | ⟨_, ho, h1⟩ | ⟨_, ho, _, h1⟩ |
    ⟨_, ho, k, _, _, _, h1⟩
  · exact absurd hi hv
  · rw [h1, ret_code_some]
    simp [ho]
  · rw [h1, ret_code_some, ho]
    simp [ENOSPC, EBUSY]
  · rcases h1 with (⟨_, h1⟩ | ⟨_, _, h1⟩) | ⟨p, s2, _, h1⟩
    · rw [h1, ho]
      simp [ret_code]
    · rw [h1, ho]
      simp [ret_code]
    · rw [h1, ret_code_some, ho]
      have := Int.natCast_nonneg k
      simp only [EBUSY, Option.some.injEq, Bool.false_eq_true, iff_false]
      omega

/-- Claim C3, amended: when the arguments pass the validation of the code (`align_page(addr)`
not null, `1 <= len <= page_size`, `cb` not null), `qdbp_set_trap` returns `-EBUSY` if and only
if some live trap `t` has `trap[t].add < addr + len` and `addr < trap[t].add + trap[t].len`,
whether or not the table is full; when no sum leaves the address space this says that the two
ranges have a byte in common. -/
theorem set_trap_overlap_iff (s : Proc) (addr : Nat) (len : Int) (cb arg : Nat)
    (ha : align_page (ensure_init s).ctx addr ≠ 0) (h1 : 1 ≤ len)
    (h2 : len ≤ (ensure_init s).ctx.pg_sz) (hcb : cb ≠ 0) :
    (ret_code (qdbp_set_trap s addr len cb arg) = some (-EBUSY) ↔
      ∃ t, t < QDBP_NUM_TRAPS ∧ live_trap s.ctx t ∧ (s.ctx.trap t).add < ptr_add addr len ∧
        addr < ptr_add (s.ctx.trap t).add (s.ctx.trap t).len) ∧
    ((addr : Int) + len < (PTR_MOD : Int) →
      (∀ t, t < QDBP_NUM_TRAPS → live_trap s.ctx t →
        0 < (s.ctx.trap t).len ∧ ((s.ctx.trap t).add : Int) + (s.ctx.trap t).len < PTR_MOD) →
      (ret_code (qdbp_set_trap s addr len cb arg) = some (-EBUSY) ↔
        ∃ t, t < QDBP_NUM_TRAPS ∧ live_trap s.ctx t ∧
          ∃ b : Int, ((s.ctx.trap t).add : Int) ≤ b ∧
            b < ((s.ctx.trap t).add : Int) + (s.ctx.trap t).len ∧
            (addr : Int) ≤ b ∧ b < (addr : Int) + len)) := by
  have hv : ¬ invalid_args (ensure_init s) addr len cb := by
    unfold invalid_args
    push_neg
    exact ⟨ha, by omega, by omega, hcb⟩
  have hmain : ret_code (qdbp_set_trap s addr len cb arg) = some (-EBUSY) ↔
      ∃ t, t < QDBP_NUM_TRAPS ∧ live_trap s.ctx t ∧ (s.ctx.trap t).add < ptr_add addr len ∧
        addr < ptr_add (s.ctx.trap t).add (s.ctx.trap t).len := by
    rw [set_trap_busy_iff s addr len cb arg hv, overlap_iff]
    simp only [ensure_init_live_trap, ensure_init_trap]
  refine ⟨hmain, ?_⟩
  intro hw htab
  rw [hmain]
  have hA : ((ptr_add addr len : Nat) : Int) = (addr : Int) + len :=
    ptr_add_exact addr len (by have := Int.natCast_nonneg addr; omega) hw
  constructor
  · rintro ⟨t, ht, hl, c1, c2⟩
    refine ⟨t, ht, hl, ?_⟩
    obtain ⟨hpos, hlt⟩ := htab t ht hl
    have hB := ptr_add_exact (s.ctx.trap t).add (s.ctx.trap t).len
      (by have := Int.natCast_nonneg (s.ctx.trap t).add; omega) hlt
    have c1' : ((s.ctx.trap t).add : Int) < (addr : Int) + len := by
      rw [← hA]; exact_mod_cast c1
    have c2' : (addr : Int) < ((s.ctx.trap t).add : Int) + (s.ctx.trap t).len := by
      rw [← hB]; exact_mod_cast c2
    refine ⟨max ((s.ctx.trap t).add : Int) (addr : Int), le_max_left _ _, ?_, le_max_right _ _, ?_⟩
    · rcases max_cases ((s.ctx.trap t).add : Int) (addr : Int) with ⟨e, _⟩ | ⟨e, _⟩ <;>
        rw [e] <;> omega
    · rcases max_cases ((s.ctx.trap t).add : Int) (addr : Int) with ⟨e, _⟩ | ⟨e, _⟩ <;>
        rw [e] <;> omega
  · rintro ⟨t, ht, hl, b, b1, b2, b3, b4⟩
    refine ⟨t, ht, hl, ?_, ?_⟩
    · have : ((s.ctx.trap t).add : Int) < ((ptr_add addr len : Nat) : Int) := by
        rw [hA]; omega
      exact_mod_cast this
    · obtain ⟨hpos, hlt⟩ := htab t ht hl
      have hB := ptr_add_exact (s.ctx.trap t).add (s.ctx.trap t).len
        (by have := Int.natCast_nonneg (s.ctx.trap t).add; omega) hlt
      have : (addr : Int) < ((ptr_add (s.ctx.trap t).add (s.ctx.trap t).len : Nat) : Int) := by
        rw [hB]; omega
      exact_mod_cast this

theorem set_trap_overlap_iff_witness :
    (align_page (ensure_init one_trap).ctx 65537 ≠ 0 ∧ (1 : Int) ≤ 2 ∧
      (2 : Int) ≤ (ensure_init one_trap).ctx.pg_sz ∧ (1 : Nat) ≠ 0) ∧
    ret_code (qdbp_set_trap one_trap 65537 2 1 0) = some (-EBUSY) :=
  ⟨⟨by decide, by decide, by decide, by decide⟩,
    (set_trap_overlap_iff one_trap 65537 2 1 0 (by decide) (by decide) (by decide)
      (by decide)).1.mpr ⟨7, by decide, by decide, by decide, by decide⟩⟩

/-- Claim C3 as stated fails: on a system with 65536-byte pages, with a live 4-byte trap at
address 65536, the call `qdbp_set_trap(65535, 2, cb, arg)` has a non-null `addr`, a `len`
within `1 .. page_size` and a non-null `cb`, its bytes 65535 and 65536 meet the live trap, and
yet the call returns `-EINVAL`, not `-EBUSY`, because `align_page(65535)` is null. -/
theorem set_trap_overlap_counterexample :
    Reachable low_trap ∧
    ((65535 : Nat) ≠ 0 ∧ (1 : Int) ≤ 2 ∧ (2 : Int) ≤ (ensure_init low_trap).ctx.pg_sz ∧
      (1 : Nat) ≠ 0) ∧
    (live_trap low_trap.ctx 7 ∧ ((low_trap.ctx.trap 7).add : Int) < 65535 + 2 ∧
      (65535 : Int) < ((low_trap.ctx.trap 7).add : Int) + (low_trap.ctx.trap 7).len) ∧
    ret_code (qdbp_set_trap low_trap 65535 2 1 0) = some (-EINVAL) ∧
    ret_code (qdbp_set_trap low_trap 65535 2 1 0) ≠ some (-EBUSY) := by
  refine ⟨?_, ⟨by decide, by decide, by decide, by decide⟩, ⟨by decide, by decide, by decide⟩,
    by rfl, by decide⟩
  exact Reachable.step (Call.set_trap 65536 4 1 0) (Reachable.init 65536 user_pages) (by rfl)

/-! ## Reference counts -/

theorem trap_refs_set (c c1 : qdbp_ctx) (k : Nat) (tr : qdbp_trap) (hk : k < QDBP_NUM_TRAPS)
    (hfree : ¬ live_trap c k) (hlen : tr.len ≠ 0) (ht : c1.trap = Function.update c.trap k tr)
    (q : Nat) :
    trap_refs c1 q = trap_refs c q + (if tr.range_idx = (q : Int) then 1 else 0) := by
  unfold trap_refs
  by_cases hq : tr.range_idx = (q : Int)
  · rw [if_pos hq]
    have : (Finset.range QDBP_NUM_TRAPS).filter
        (fun t => live_trap c1 t ∧ (c1.trap t).range_idx = (q : Int)) =
        insert k ((Finset.range QDBP_NUM_TRAPS).filter
          (fun t => live_trap c t ∧ (c.trap t).range_idx = (q : Int))) := by
      ext t
      simp only [Finset.mem_filter, Finset.mem_range, Finset.mem_insert, live_trap, ht]
      by_cases e : t = k
      · subst e
        simp [hk, hlen, hq]
      · simp [Function.update_noteq e, e]
    rw [this, Finset.card_insert_of_not_mem]
    simp only [Finset.mem_filter, not_and]
    intro _ hl
    exact absurd hl hfree
  · rw [if_neg hq, Nat.add_zero]
    congr 1
    ext t
    simp only [Finset.mem_filter, Finset.mem_range, live_trap, ht]
    by_cases e : t = k
    · subst e
      simp only [Function.update_same]
      unfold live_trap at hfree
      simp [hq, hfree]
    · simp [Function.update_noteq e]

theorem trap_refs_del (c c1 : qdbp_ctx) (k : Nat) (hk : k < QDBP_NUM_TRAPS)
    (hlive : live_trap c k)
    (ht : c1.trap = Function.update c.trap k { c.trap k with len := 0 }) (q : Nat) :
    trap_refs c1 q + (if (c.trap k).range_idx = (q : Int) then 1 else 0) = trap_refs c q := by
  unfold trap_refs
  by_cases hq : (c.trap k).range_idx = (q : Int)
  · rw [if_pos hq]
    have : (Finset.range QDBP_NUM_TRAPS).filter
        (fun t => live_trap c t ∧ (c.trap t).range_idx = (q : Int)) =
        insert k ((Finset.range QDBP_NUM_TRAPS).filter
          (fun t => live_trap c1 t ∧ (c1.trap t).range_idx = (q : Int))) := by
      ext t
      simp only [Finset.mem_filter, Finset.mem_range, Finset.mem_insert, live_trap, ht]
      by_cases e : t = k
      · subst e
        unfold live_trap at hlive
        simp [hk, hlive, hq]
      · simp [Function.update_noteq e, e]
    rw [this, Finset.card_insert_of_not_mem]
    simp only [Finset.mem_filter, not_and, live_trap, ht, Function.update_same]
    intro _ hl
    exact absurd rfl hl
  · rw [if_neg hq, Nat.add_zero]
    congr 1
    ext t
    simp only [Finset.mem_filter, Finset.mem_range, live_trap, ht]
    by_cases e : t = k
    · subst e
      simp [hq]
    · simp [Function.update_noteq e]

theorem trap_refs_pos_iff (c : qdbp_ctx) (q : Nat) :
    trap_refs c q ≠ 0 ↔
      ∃ t, t < QDBP_NUM_TRAPS ∧ live_trap c t ∧ (c.trap t).range_idx = (q : Int) := by
  unfold trap_refs
  rw [Finset.card_ne_zero]
  constructor
  · rintro ⟨t, ht⟩
    simp only [Finset.mem_filter, Finset.mem_range] at ht
    exact ⟨t, ht.1, ht.2.1, ht.2.2⟩
  · rintro ⟨t, h1, h2, h3⟩
    exact ⟨t, by simp only [Finset.mem_filter, Finset.mem_range]; exact ⟨h1, h2, h3⟩⟩

theorem trap_refs_congr (c c1 : qdbp_ctx) (h : c1.trap = c.trap) (q : Nat) :
    trap_refs c1 q = trap_refs c q := by
  unfold trap_refs
  congr 1
  ext t
  simp only [Finset.mem_filter, Finset.mem_range, live_trap, h]

/-! ## The invariant -/

theorem inv_initial (pagesize : Int) (mapped : Nat → Bool) :
    Inv (initial pagesize mapped) where
  len_pos := by intro t _ h; exact absurd rfl h
  pg := by intro t _ h; exact absurd rfl h
  idx := by intro t _ h; exact absurd rfl h
  uniq := by intro p q _ _ h; exact absurd rfl h
  cnt := by
    intro p _
    have : trap_refs (initial pagesize mapped).ctx p = 0 := by
      by_contra hne
      obtain ⟨t, _, hl, _⟩ := (trap_refs_pos_iff _ _).mp hne
      exact hl rfl
    rw [this]
    rfl
  prot := by
    intro a
    constructor
    · intro h
      simp [initial] at h
    · rintro ⟨p, _, h, _⟩
      exact absurd rfl h
  mp := by intro p _ h; exact absurd rfl h

theorem inv_ensure_init (s : Proc) (h : Inv s) : Inv (ensure_init s) := by
  by_cases hz : s.ctx.pg_sz = 0
  · have hdead : ∀ t, t < QDBP_NUM_TRAPS → ¬ live_trap s.ctx t := by
      intro t ht hl
      exact h.pg t ht hl hz
    have he : ensure_init s = initialise s := by
      unfold ensure_init
      rw [if_pos hz]
    rw [he]
    exact
      { len_pos := fun t ht hl => absurd hl (hdead t ht)
        pg := fun t ht hl => absurd hl (hdead t ht)
        idx := fun t ht hl => absurd hl (hdead t ht)
        uniq := h.uniq
        cnt := fun p hp => by
          rw [trap_refs_congr s.ctx (initialise s).ctx rfl p]
          exact h.cnt p hp
        prot := h.prot
        mp := h.mp }
  · have he : ensure_init s = s := by
      unfold ensure_init
      rw [if_neg hz]
    rw [he]
    exact h

theorem valid_args_pos (s0 : Proc) (addr : Nat) (len : Int) (cb : Nat)
    (hv : ¬ invalid_args s0 addr len cb) :
    align_page s0.ctx addr ≠ 0 ∧ 0 < len ∧ len ≤ s0.ctx.pg_sz ∧ cb ≠ 0 ∧ s0.ctx.pg_sz ≠ 0 := by
  unfold invalid_args at hv
  push_neg at hv
  obtain ⟨h1, h2, h3, h4⟩ := hv
  exact ⟨h1, h2, h3, h4, by omega⟩

/-- State after a successful `qdbp_set_trap`, from a consistent state: the slot `k` of greatest
index among the free ones holds the new trap, the range `kp` of its page has one more
reference, and the page is read-only. -/
theorem set_trap_success_shape (s : Proc) (hinv : Inv s) (addr : Nat) (len : Int) (cb arg : Nat)
    (r : Int) (s1 : Proc) (h : qdbp_set_trap s addr len cb arg = Res.ret (r, s1)) (hr : 0 ≤ r) :
    ¬ invalid_args (ensure_init s) addr len cb ∧ overlap (ensure_init s).ctx addr len = false ∧
    ∃ k kp, k < QDBP_NUM_TRAPS ∧ kp < QDBP_NUM_TRAPS ∧ r = (k : Int) ∧
      ¬ live_trap (ensure_init s).ctx k ∧
      (∀ t, k < t → t < QDBP_NUM_TRAPS → live_trap (ensure_init s).ctx t) ∧
      s1.ctx.trap = Function.update (ensure_init s).ctx.trap k ⟨cb, arg, addr, len, (kp : Int)⟩ ∧
      s1.ctx.range = Function.update (ensure_init s).ctx.range kp
        ⟨align_page (ensure_init s).ctx addr, ((ensure_init s).ctx.range kp).count + 1⟩ ∧
      s1.prot = Function.update (ensure_init s).prot (align_page (ensure_init s).ctx addr)
        Prot.read_only ∧
      s1.ctx.pg_sz = (ensure_init s).ctx.pg_sz ∧
      s1.ctx.trap_num = (ensure_init s).ctx.trap_num ∧
      s1.ctx.range_num = (ensure_init s).ctx.range_num ∧
      ((live_range (ensure_init s).ctx kp ∧
          ((ensure_init s).ctx.range kp).page = align_page (ensure_init s).ctx addr) ∨
        (¬ live_range (ensure_init s).ctx kp ∧
          (∀ q, kp < q → q < QDBP_NUM_TRAPS → live_range (ensure_init s).ctx q) ∧
          ∀ q, q < QDBP_NUM_TRAPS → ¬ (live_range (ensure_init s).ctx q ∧
            ((ensure_init s).ctx.range q).page = align_page (ensure_init s).ctx addr))) := by
  have hinv0 := inv_ensure_init s hinv
  generalize hs0 : ensure_init s = s0 at *
  rcases set_trap_outcome s addr len cb arg with ⟨_, h1⟩ | ⟨_, _, h1⟩ | ⟨_, _, _, h1⟩ |
    ⟨hv, ho, k, hk, hfree, hmax, h1⟩
  · rw [h1] at h
    cases h
    simp [EINVAL] at hr
  · rw [h1] at h
    cases h
    simp [EBUSY] at hr
  · rw [h1] at h
    cases h
    simp [ENOSPC] at hr
  · rw [hs0] at hv ho hfree hmax h1
    refine ⟨hv, ho, ?_⟩
    rcases h1 with (⟨_, h1⟩ | ⟨_, _, h1⟩) | ⟨p, s2, hnr, h1⟩
    · rw [h1] at h
      cases h
    · rw [h1] at h
      cases h
    · rw [h1] at h
      cases h
      rcases new_range_outcome s0 (align_page s0.ctx addr) with
        ⟨kp, hkp, hlive, hpage, _, h2⟩ |
        ⟨hnone, ⟨kp, hkp, hdead, hgt, _, ⟨_, h2⟩ | ⟨_, h2⟩⟩ | ⟨_, h2⟩⟩
      · rw [h2] at hnr
        cases hnr
        refine ⟨k, kp, hk, hkp, rfl, hfree, hmax, ?_, ?_, ?_, ?_, ?_, ?_, Or.inl ⟨hlive, hpage⟩⟩
        · simp [set_range_count]
        · simp [set_range_count, hpage]
        · have hro : s0.prot (align_page s0.ctx addr) = Prot.read_only :=
            (hinv0.prot _).mpr ⟨kp, hkp, hlive, hpage⟩
          have e := Function.update_eq_self (align_page s0.ctx addr) s0.prot
          rw [hro] at e
          simp only [set_range_count]
          exact e.symm
        · simp [set_range_count]
        · simp [set_range_count]
        · simp [set_range_count]
      · rw [h2] at hnr
        cases hnr
        have hc : (s0.ctx.range kp).count = 0 := by
          simpa [live_range] using hdead
        refine ⟨k, kp, hk, hkp, rfl, hfree, hmax, ?_, ?_, ?_, ?_, ?_, ?_,
          Or.inr ⟨hdead, hgt, hnone⟩⟩
        · simp [set_range_count, mprotect, set_range_page]
        · simp [set_range_count, mprotect, set_range_page, hc]
        · simp [set_range_count, mprotect, set_range_page]
        · simp [set_range_count, mprotect, set_range_page]
        · simp [set_range_count, mprotect, set_range_page]
        · simp [set_range_count, mprotect, set_range_page]
      · rw [h2] at hnr
        cases hnr
      · rw [h2] at hnr
        cases hnr

theorem ensure_init_mapped (s : Proc) : (ensure_init s).mapped = s.mapped := by
  unfold ensure_init
  split <;> simp [initialise]

/-- After a successful `qdbp_set_trap` from a consistent state the page of `addr` is one on
which `mprotect` succeeds. -/
theorem set_trap_success_mapped (s : Proc) (hinv : Inv s) (addr : Nat) (len : Int)
    (cb arg : Nat) (r : Int) (s1 : Proc)
    (h : qdbp_set_trap s addr len cb arg = Res.ret (r, s1)) (hr : 0 ≤ r) :
    s1.mapped = s.mapped ∧ s.mapped (align_page (ensure_init s).ctx addr) = true := by
  have hinv0 := inv_ensure_init s hinv
  have hm0 := ensure_init_mapped s
  rcases set_trap_outcome s addr len cb arg with ⟨_, h1⟩ | ⟨_, _, h1⟩ | ⟨_, _, _, h1⟩ |
    ⟨_, _, k, _, _, _, h1⟩
  · rw [h1] at h
    cases h
    simp [EINVAL] at hr
  · rw [h1] at h
    cases h
    simp [EBUSY] at hr
  · rw [h1] at h
    cases h
    simp [ENOSPC] at hr
  · rcases h1 with (⟨_, h1⟩ | ⟨_, _, h1⟩) | ⟨p, s2, hnr, h1⟩
    · rw [h1] at h
      cases h
    · rw [h1] at h
      cases h
    · rw [h1] at h
      cases h
      constructor
      · show s2.mapped = s.mapped
        rw [(new_range_trap _ s2 _ p hnr).2.2.2.2.2.2, hm0]
      · rw [← hm0]
        rcases new_range_outcome (ensure_init s) (align_page (ensure_init s).ctx addr) with
          ⟨kp, hkp, hlive, hpage, _, _⟩ |
          ⟨_, ⟨kp, _, _, _, _, ⟨hm, _⟩ | ⟨_, h2⟩⟩ | ⟨_, h2⟩⟩
        · rw [← hpage]
          exact hinv0.mp kp hkp hlive
        · exact hm
        · rw [h2] at hnr
          cases hnr
        · rw [h2] at hnr
          cases hnr

theorem align_page_congr (c c1 : qdbp_ctx) (h : c1.pg_sz = c.pg_sz) (a : Nat) :
    align_page c1 a = align_page c a := by
  unfold align_page
  rw [h]

theorem set_trap_failed_state (s : Proc) (addr : Nat) (len : Int) (cb arg : Nat) (r : Int)
    (s1 : Proc) (h : qdbp_set_trap s addr len cb arg = Res.ret (r, s1)) (hr : r < 0) :
    s1 = ensure_init s := by
  rcases set_trap_outcome s addr len cb arg with ⟨_, h1⟩ | ⟨_, _, h1⟩ | ⟨_, _, _, h1⟩ |
    ⟨_, _, k, _, _, _, h1⟩
  · rw [h1] at h
    cases h
    rfl
  · rw [h1] at h
    cases h
    rfl
  · rw [h1] at h
    cases h
    rfl
  · rcases h1 with (⟨_, h1⟩ | ⟨_, _, h1⟩) | ⟨p, s2, _, h1⟩
    · rw [h1] at h
      cases h
    · rw [h1] at h
      cases h
    · rw [h1] at h
      cases h
      have := Int.natCast_nonneg k
      omega

theorem inv_set_trap (s : Proc) (hinv : Inv s) (addr : Nat) (len : Int) (cb arg : Nat)
    (r : Int) (s1 : Proc) (h : qdbp_set_trap s addr len cb arg = Res.ret (r, s1)) : Inv s1 := by
  by_cases hr : r < 0
  · rw [set_trap_failed_state s addr len cb arg r s1 h hr]
    exact inv_ensure_init s hinv
  · obtain ⟨hv, _, k, kp, hk, hkp, _, hfree, _, htrap, hrange, hprot, hpg, _, _, hcase⟩ :=
      set_trap_success_shape s hinv addr len cb arg r s1 h (by omega)
    obtain ⟨hmeq, hmaddr⟩ := set_trap_success_mapped s hinv addr len cb arg r s1 h (by omega)
    have hm0 := ensure_init_mapped s
    have hinv0 := inv_ensure_init s hinv
    generalize ensure_init s = s0 at *
    obtain ⟨_, hlen, _, _, hpgnz⟩ := valid_args_pos s0 addr len cb hv
    have hal : ∀ a, align_page s1.ctx a = align_page s0.ctx a :=
      fun a => align_page_congr s0.ctx s1.ctx hpg a
    have hcnt0 : 0 ≤ (s0.ctx.range kp).count := by
      rw [hinv0.cnt kp hkp]
      exact Int.natCast_nonneg _
    have hlt : ∀ t, live_trap s1.ctx t ↔ t = k ∨ live_trap s0.ctx t := by
      intro t
      unfold live_trap
      rw [htrap]
      by_cases e : t = k
      · subst e
        simp only [Function.update_same, true_or, iff_true]
        omega
      · simp [Function.update_noteq e, e]
    have hlr : ∀ q, live_range s1.ctx q ↔ q = kp ∨ live_range s0.ctx q := by
      intro q
      unfold live_range
      rw [hrange]
      by_cases e : q = kp
      · subst e
        simp only [Function.update_same, true_or, iff_true]
        omega
      · simp [Function.update_noteq e, e]
    have hpage_kp : (s1.ctx.range kp).page = align_page s0.ctx addr := by
      rw [hrange]
      simp
    have hpage_ne : ∀ q, q ≠ kp → (s1.ctx.range q).page = (s0.ctx.range q).page := by
      intro q e
      rw [hrange, Function.update_noteq e]
    have hpage_live : ∀ q, live_range s0.ctx q →
        (s1.ctx.range q).page = (s0.ctx.range q).page := by
      intro q hl
      by_cases e : q = kp
      · subst e
        rcases hcase with ⟨_, hp⟩ | ⟨hd, _⟩
        · rw [hpage_kp, hp]
        · exact absurd hl hd
      · exact hpage_ne q e
    have hnew_page : ∀ q, q < QDBP_NUM_TRAPS → q ≠ kp → live_range s0.ctx q →
        (s0.ctx.range q).page = align_page s0.ctx addr → False := by
      intro q hq e hl hp
      rcases hcase with ⟨hl2, hp2⟩ | ⟨_, _, hnone⟩
      · exact e (hinv0.uniq q kp hq hkp hl hl2 (by rw [hp, hp2]))
      · exact hnone q hq ⟨hl, hp⟩
    exact
      { len_pos := by
          intro t ht hl
          rw [htrap]
          by_cases e : t = k
          · subst e
            simpa using hlen
          · rw [Function.update_noteq e]
            rcases (hlt t).mp hl with h1 | h1
            · exact absurd h1 e
            · exact hinv0.len_pos t ht h1
        pg := by
          intro t _ _
          rw [hpg]
          exact hpgnz
        idx := by
          intro t ht hl
          by_cases e : t = k
          · subst e
            refine ⟨kp, hkp, by rw [htrap]; simp, (hlr kp).mpr (Or.inl rfl), ?_⟩
            rw [hpage_kp, hal, htrap]
            simp
          · rcases (hlt t).mp hl with h1 | h1
            · exact absurd h1 e
            · obtain ⟨p, hp, h2, h3, h4⟩ := hinv0.idx t ht h1
              refine ⟨p, hp, ?_, (hlr p).mpr (Or.inr h3), ?_⟩
              · rw [htrap, Function.update_noteq e]
                exact h2
              · rw [hpage_live p h3, hal, htrap, Function.update_noteq e]
                exact h4
        uniq := by
          intro p q hp hq hlp hlq hpq
          by_cases e1 : p = kp
          · by_cases e2 : q = kp
            · rw [e1, e2]
            · exfalso
              rcases (hlr q).mp hlq with h1 | h1
              · exact e2 h1
              · apply hnew_page q hq e2 h1
                rw [← hpage_ne q e2, ← hpq, e1, hpage_kp]
          · by_cases e2 : q = kp
            · exfalso
              rcases (hlr p).mp hlp with h1 | h1
              · exact e1 h1
              · apply hnew_page p hp e1 h1
                rw [← hpage_ne p e1, hpq, e2, hpage_kp]
            · rcases (hlr p).mp hlp with h1 | h1
              · exact absurd h1 e1
              · rcases (hlr q).mp hlq with h2 | h2
                · exact absurd h2 e2
                · apply hinv0.uniq p q hp hq h1 h2
                  rw [← hpage_ne p e1, ← hpage_ne q e2]
                  exact hpq
        cnt := by
          intro q hq
          rw [trap_refs_set s0.ctx s1.ctx k ⟨cb, arg, addr, len, (kp : Int)⟩ hk hfree
            (by simp only; omega) htrap q, hrange]
          by_cases e : q = kp
          · subst e
            simp only [Function.update_same, if_true]
            rw [hinv0.cnt q hq]
            push_cast
            rfl
          · have e' : ¬ ((kp : Int) = (q : Int)) := by
              intro h0
              exact e (by exact_mod_cast h0.symm)
            rw [Function.update_noteq e]
            simp only [if_neg e']
            rw [hinv0.cnt q hq]
            simp
        prot := by
          intro a
          rw [hprot]
          by_cases e : a = align_page s0.ctx addr
          · subst e
            simp only [Function.update_same, true_iff]
            exact ⟨kp, hkp, (hlr kp).mpr (Or.inl rfl), hpage_kp⟩
          · rw [Function.update_noteq e, hinv0.prot a]
            constructor
            · rintro ⟨p, hp, h1, h2⟩
              exact ⟨p, hp, (hlr p).mpr (Or.inr h1), by rw [hpage_live p h1]; exact h2⟩
            · rintro ⟨p, hp, h1, h2⟩
              by_cases e1 : p = kp
              · exfalso
                apply e
                rw [← h2, e1, hpage_kp]
              · rcases (hlr p).mp h1 with h3 | h3
                · exact absurd h3 e1
                · exact ⟨p, hp, h3, by rw [← hpage_ne p e1]; exact h2⟩
        mp := by
          intro q hq hl
          rw [hmeq]
          by_cases e : q = kp
          · rw [e, hpage_kp]
            exact hmaddr
          · rcases (hlr q).mp hl with h1 | h1
            · exact absurd h1 e
            · rw [hpage_ne q e, ← hm0]
              exact hinv0.mp q hq h1 }

/-- State after `qdbp_del_trap` of a live slot `k`, from a consistent state: the call returns
`0`, the slot is cleared, its range `kp` loses one reference, and the page is read-write again
when that was the last reference. -/
theorem del_trap_success_shape (s : Proc) (hinv : Inv s) (k : Nat) (hk : k < QDBP_NUM_TRAPS)
    (hlive : live_trap s.ctx k) :
    ∃ kp s1, kp < QDBP_NUM_TRAPS ∧ (s.ctx.trap k).range_idx = (kp : Int) ∧
      live_range s.ctx kp ∧ (s.ctx.range kp).page = align_page s.ctx (s.ctx.trap k).add ∧
      qdbp_del_trap s (k : Int) = Res.ret (0, s1) ∧
      s1.ctx.trap = Function.update s.ctx.trap k { s.ctx.trap k with len := 0 } ∧
      s1.ctx.range = Function.update s.ctx.range kp
        { s.ctx.range kp with count := (s.ctx.range kp).count - 1 } ∧
      s1.prot = (if (s.ctx.range kp).count - 1 = 0 then
        Function.update s.prot (s.ctx.range kp).page Prot.read_write else s.prot) ∧
      s1.ctx.pg_sz = s.ctx.pg_sz ∧ s1.ctx.trap_num = s.ctx.trap_num ∧
      s1.ctx.range_num = s.ctx.range_num := by
  obtain ⟨kp, hkp, hidx, hlr, hpage⟩ := hinv.idx k hk hlive
  have hm : s.mapped (s.ctx.range kp).page = true := hinv.mp kp hkp hlr
  rcases del_trap_outcome s (k : Int) with ⟨hbad, _⟩ | ⟨j, _, hj, _, h1⟩
  · exfalso
    rcases hbad with h0 | h0 | h0
    · have := Int.natCast_nonneg k
      omega
    · have : (k : Int) < (QDBP_NUM_TRAPS : Int) := by exact_mod_cast hk
      omega
    · exact h0 (by simpa using hlive)
  · have hjk : j = k := by exact_mod_cast hj.symm
    subst hjk
    rw [hidx] at h1
    rcases del_range_outcome s (kp : Int) with ⟨hnb, _⟩ | ⟨q, _, hq, hd⟩
    · exfalso
      exact hnb ⟨Int.natCast_nonneg kp, by exact_mod_cast hkp⟩
    · have hqk : q = kp := by exact_mod_cast hq.symm
      subst hqk
      rcases hd with ⟨hz, _, hd⟩ | ⟨_, hnm, _⟩ | ⟨hnz, hd⟩
      · rcases h1 with (⟨h2, _⟩ | ⟨_, h2, _⟩) | ⟨s2, h2, h3⟩
        · rw [hd] at h2
          cases h2
        · rw [hd] at h2
          cases h2
        · rw [hd] at h2
          cases h2
          refine ⟨q, _, hkp, hidx, hlr, hpage, h3, ?_, ?_, ?_, ?_, ?_, ?_⟩
          · simp [del_trap, mprotect, set_range_count]
          · simp [del_trap, mprotect, set_range_count]
          · simp [del_trap, mprotect, set_range_count, hz]
          · simp [del_trap, mprotect, set_range_count]
          · simp [del_trap, mprotect, set_range_count]
          · simp [del_trap, mprotect, set_range_count]
      · exact absurd hm hnm
      · rcases h1 with (⟨h2, _⟩ | ⟨_, h2, _⟩) | ⟨s2, h2, h3⟩
        · rw [hd] at h2
          cases h2
        · rw [hd] at h2
          cases h2
        · rw [hd] at h2
          cases h2
          refine ⟨q, _, hkp, hidx, hlr, hpage, h3, ?_, ?_, ?_, ?_, ?_, ?_⟩
          · simp [del_trap, set_range_count]
          · simp [del_trap, set_range_count]
          · simp [del_trap, set_range_count, hnz]
          · simp [del_trap, set_range_count]
          · simp [del_trap, set_range_count]
          · simp [del_trap, set_range_count]

theorem del_trap_mapped (s : Proc) (id r : Int) (s1 : Proc)
    (h : qdbp_del_trap s id = Res.ret (r, s1)) : s1.mapped = s.mapped := by
  rcases del_trap_outcome s id with ⟨_, h1⟩ | ⟨k, _, _, _, h1⟩
  · rw [h1] at h
    cases h
    rfl
  · rcases h1 with (⟨_, h1⟩ | ⟨_, _, h1⟩) | ⟨s2, hs2, h1⟩
    · rw [h1] at h
      cases h
    · rw [h1] at h
      cases h
    · rw [h1] at h
      cases h
      exact (del_range_trap s s2 _ hs2).2.2.2.2.2.2

theorem inv_del_trap (s : Proc) (hinv : Inv s) (id : Int) (r : Int) (s1 : Proc)
    (h : qdbp_del_trap s id = Res.ret (r, s1)) : Inv s1 := by
  rcases del_trap_outcome s id with ⟨_, h1⟩ | ⟨k, hk, hid, hlive, _⟩
  · rw [h1] at h
    cases h
    exact hinv
  · subst hid
    obtain ⟨kp, s2, hkp, hidx, hlkp, _, hres, htrap, hrange, hprot, hpg, _, _⟩ :=
      del_trap_success_shape s hinv k hk hlive
    rw [hres] at h
    cases h
    have hal : ∀ a, align_page s1.ctx a = align_page s.ctx a :=
      fun a => align_page_congr s.ctx s1.ctx hpg a
    have hlt : ∀ t, live_trap s1.ctx t ↔ t ≠ k ∧ live_trap s.ctx t := by
      intro t
      unfold live_trap
      rw [htrap]
      by_cases e : t = k
      · subst e
        simp
      · simp [Function.update_noteq e, e]
    have hrefs : ∀ q, trap_refs s1.ctx q +
        (if (s.ctx.trap k).range_idx = (q : Int) then 1 else 0) = trap_refs s.ctx q :=
      fun q => trap_refs_del s.ctx s1.ctx k hk hlive htrap q
    have hpage : ∀ q, (s1.ctx.range q).page = (s.ctx.range q).page := by
      intro q
      rw [hrange]
      by_cases e : q = kp
      · subst e
        simp
      · rw [Function.update_noteq e]
    have hcnt : ∀ q, q < QDBP_NUM_TRAPS → (s1.ctx.range q).count = (trap_refs s1.ctx q : Int) := by
      intro q hq
      have h1 := hrefs q
      have h2 := hinv.cnt q hq
      rw [hrange]
      by_cases e : q = kp
      · subst e
        rw [if_pos hidx] at h1
        simp only [Function.update_same]
        omega
      · have e' : ¬ ((s.ctx.trap k).range_idx = (q : Int)) := by
          rw [hidx]
          intro h0
          exact e (by exact_mod_cast h0.symm)
        rw [if_neg e'] at h1
        rw [Function.update_noteq e]
        omega
    have hlr_ne : ∀ q, q ≠ kp → (live_range s1.ctx q ↔ live_range s.ctx q) := by
      intro q e
      unfold live_range
      rw [hrange, Function.update_noteq e]
    have hlr_kp : live_range s1.ctx kp ↔ (s.ctx.range kp).count - 1 ≠ 0 := by
      unfold live_range
      rw [hrange]
      simp
    have hlr_imp : ∀ q, live_range s1.ctx q → live_range s.ctx q := by
      intro q hl
      by_cases e : q = kp
      · rw [e]; exact hlkp
      · exact (hlr_ne q e).mp hl
    exact
      { len_pos := by
          intro t ht hl
          obtain ⟨e, h1⟩ := (hlt t).mp hl
          rw [htrap, Function.update_noteq e]
          exact hinv.len_pos t ht h1
        pg := by
          intro t ht hl
          rw [hpg]
          exact hinv.pg t ht ((hlt t).mp hl).2
        idx := by
          intro t ht hl
          obtain ⟨e, h1⟩ := (hlt t).mp hl
          obtain ⟨p, hp, h2, _, h4⟩ := hinv.idx t ht h1
          have hidx1 : (s1.ctx.trap t).range_idx = (p : Int) := by
            rw [htrap, Function.update_noteq e]
            exact h2
          refine ⟨p, hp, hidx1, ?_, ?_⟩
          · unfold live_range
            rw [hcnt p hp]
            have := (trap_refs_pos_iff s1.ctx p).mpr ⟨t, ht, hl, hidx1⟩
            exact_mod_cast this
          · rw [hpage, hal, htrap, Function.update_noteq e]
            exact h4
        uniq := by
          intro p q hp hq hlp hlq hpq
          apply hinv.uniq p q hp hq (hlr_imp p hlp) (hlr_imp q hlq)
          rw [← hpage p, ← hpage q]
          exact hpq
        cnt := hcnt
        prot := by
          intro a
          rw [hprot]
          by_cases hz : (s.ctx.range kp).count - 1 = 0
          · rw [if_pos hz]
            have hdead : ¬ live_range s1.ctx kp := by
              rw [hlr_kp]
              exact fun h0 => h0 hz
            by_cases e : a = (s.ctx.range kp).page
            · subst e
              simp only [Function.update_same]
              constructor
              · intro h0
                cases h0
              · rintro ⟨p, hp, h1, h2⟩
                exfalso
                have h3 : p = kp := hinv.uniq p kp hp hkp (hlr_imp p h1) hlkp (by rw [← hpage p, h2])
                rw [h3] at h1
                exact hdead h1
            · rw [Function.update_noteq e, hinv.prot a]
              constructor
              · rintro ⟨p, hp, h1, h2⟩
                have e1 : p ≠ kp := by
                  intro h0
                  rw [h0] at h2
                  exact e h2.symm
                exact ⟨p, hp, (hlr_ne p e1).mpr h1, by rw [hpage]; exact h2⟩
              · rintro ⟨p, hp, h1, h2⟩
                exact ⟨p, hp, hlr_imp p h1, by rw [← hpage]; exact h2⟩
          · rw [if_neg hz, hinv.prot a]
            constructor
            · rintro ⟨p, hp, h1, h2⟩
              refine ⟨p, hp, ?_, by rw [hpage]; exact h2⟩
              by_cases e1 : p = kp
              · rw [e1, hlr_kp]
                exact hz
              · exact (hlr_ne p e1).mpr h1
            · rintro ⟨p, hp, h1, h2⟩
              exact ⟨p, hp, hlr_imp p h1, by rw [← hpage]; exact h2⟩
        mp := by
          intro p hp hl
          rw [del_trap_mapped s _ _ s1 hres, hpage]
          exact hinv.mp p hp (hlr_imp p hl) }

theorem inv_step (s : Proc) (hinv : Inv s) (c : Call) (r : Int) (s1 : Proc)
    (h : step s c = Res.ret (r, s1)) : Inv s1 := by
  cases c with
  | set_trap addr len cb arg => exact inv_set_trap s hinv addr len cb arg r s1 h
  | del_trap id => exact inv_del_trap s hinv id r s1 h

theorem reachable_inv (s : Proc) (h : Reachable s) : Inv s := by
  induction h with
  | init pagesize mapped => exact inv_initial pagesize mapped
  | step c _ hstep ih => exact inv_step _ ih c _ _ hstep

/-! ## Example states -/

theorem reachable_one_trap : Reachable one_trap :=
  Reachable.step (Call.set_trap 65536 4 1 0) (Reachable.init 4096 user_pages) (by rfl)

theorem reachable_two_traps : Reachable two_traps :=
  Reachable.step (Call.set_trap 73728 4 1 0) reachable_one_trap (by rfl)

/-! ## Invariants of the reachable states -/

/-- Claim C8: in every state reachable from the zeroed context by `qdbp_set_trap` and
`qdbp_del_trap` calls, the `range_idx` of every live trap names a live range whose page is
`align_page` of the trap's address, no two live ranges have the same page, and the count of
every range is the number of live traps whose `range_idx` points at it; so the count of a live
range is the number of live traps on its page, and a page without live range carries no live
trap. -/
theorem tables_consistent (s : Proc) (hr : Reachable s) :
    (∀ t, t < QDBP_NUM_TRAPS → live_trap s.ctx t →
      ∃ p, p < QDBP_NUM_TRAPS ∧ (s.ctx.trap t).range_idx = (p : Int) ∧ live_range s.ctx p ∧
        (s.ctx.range p).page = align_page s.ctx (s.ctx.trap t).add) ∧
    (∀ p q, p < QDBP_NUM_TRAPS → q < QDBP_NUM_TRAPS → live_range s.ctx p → live_range s.ctx q →
      (s.ctx.range p).page = (s.ctx.range q).page → p = q) ∧
    (∀ p, p < QDBP_NUM_TRAPS → (s.ctx.range p).count = (trap_refs s.ctx p : Int)) ∧
    (∀ p, p < QDBP_NUM_TRAPS → live_range s.ctx p →
      (s.ctx.range p).count = (traps_on_page s.ctx (s.ctx.range p).page : Int)) ∧
    (∀ a, (∀ p, p < QDBP_NUM_TRAPS → live_range s.ctx p → (s.ctx.range p).page ≠ a) →
      traps_on_page s.ctx a = 0) := by
  have hinv := reachable_inv s hr
  refine ⟨hinv.idx, hinv.uniq, hinv.cnt, ?_, ?_⟩
  · intro p hp hl
    rw [hinv.cnt p hp]
    congr 1
    unfold trap_refs traps_on_page
    congr 1
    ext t
    simp only [Finset.mem_filter, Finset.mem_range]
    constructor
    · rintro ⟨ht, hlt, hidx⟩
      obtain ⟨q, _, h2, _, h4⟩ := hinv.idx t ht hlt
      have : q = p := by
        rw [h2] at hidx
        exact_mod_cast hidx
      subst this
      exact ⟨ht, hlt, h4.symm⟩
    · rintro ⟨ht, hlt, hpage⟩
      obtain ⟨q, hq, h2, h3, h4⟩ := hinv.idx t ht hlt
      have : q = p := hinv.uniq q p hq hp h3 hl (by rw [h4, hpage])
      subst this
      exact ⟨ht, hlt, h2⟩
  · intro a ha
    unfold traps_on_page
    rw [Finset.card_eq_zero, Finset.filter_eq_empty_iff]
    intro t ht
    simp only [Finset.mem_range] at ht
    rintro ⟨hlt, hpage⟩
    obtain ⟨q, hq, _, h3, h4⟩ := hinv.idx t ht hlt
    exact ha q hq h3 (by rw [h4, hpage])

theorem tables_consistent_witness :
    Reachable two_traps ∧
    (∀ p, p < QDBP_NUM_TRAPS → (two_traps.ctx.range p).count = (trap_refs two_traps.ctx p : Int)) :=
  ⟨reachable_two_traps,
    (tables_consistent two_traps reachable_two_traps).2.2.1⟩

theorem locked_iff_trap (s : Proc) (hinv : Inv s) (a : Nat) :
    s.prot a = Prot.read_only ↔
      ∃ t, t < QDBP_NUM_TRAPS ∧ live_trap s.ctx t ∧ align_page s.ctx (s.ctx.trap t).add = a := by
  rw [hinv.prot a]
  constructor
  · rintro ⟨p, hp, hl, hpage⟩
    have hne : trap_refs s.ctx p ≠ 0 := by
      have h1 := hinv.cnt p hp
      unfold live_range at hl
      intro h0
      rw [h0] at h1
      exact hl (by simpa using h1)
    obtain ⟨t, ht, hlt, hidx⟩ := (trap_refs_pos_iff s.ctx p).mp hne
    obtain ⟨q, _, h2, _, h4⟩ := hinv.idx t ht hlt
    have : q = p := by
      rw [h2] at hidx
      exact_mod_cast hidx
    subst this
    exact ⟨t, ht, hlt, by rw [← h4, hpage]⟩
  · rintro ⟨t, ht, hlt, hpage⟩
    obtain ⟨q, hq, _, h3, h4⟩ := hinv.idx t ht hlt
    exact ⟨q, hq, h3, by rw [h4, hpage]⟩

theorem prot_cases (x : Prot) : x = Prot.read_write ↔ x ≠ Prot.read_only := by
  cases x <;> simp

/-- Claim C9: with the protection of the pages a map that starts all read-write, in every
state reachable by `qdbp_set_trap` and `qdbp_del_trap` calls a page is read-only if and only if
the address of some live trap lies on it. So after a successful `qdbp_set_trap` the page of
`addr` is read-only; after a successful `qdbp_del_trap` the page of the deleted trap is
read-write when no other live trap lies on it and read-only when one does; and either call
leaves the protection of every other page as it was. -/
theorem page_protection (s : Proc) (hr : Reachable s) :
    (∀ a, s.prot a = Prot.read_only ↔
      ∃ t, t < QDBP_NUM_TRAPS ∧ live_trap s.ctx t ∧ align_page s.ctx (s.ctx.trap t).add = a) ∧
    (∀ addr len cb arg r s1, qdbp_set_trap s addr len cb arg = Res.ret (r, s1) → 0 ≤ r →
      s1.prot (align_page s1.ctx addr) = Prot.read_only ∧
      ∀ a, a ≠ align_page s1.ctx addr → s1.prot a = s.prot a) ∧
    (∀ id s1, qdbp_del_trap s id = Res.ret (0, s1) →
      ((∀ t, t < QDBP_NUM_TRAPS → t ≠ id.toNat → live_trap s.ctx t →
          align_page s.ctx (s.ctx.trap t).add ≠ align_page s.ctx (s.ctx.trap id.toNat).add) →
        s1.prot (align_page s.ctx (s.ctx.trap id.toNat).add) = Prot.read_write) ∧
      ((∃ t, t < QDBP_NUM_TRAPS ∧ t ≠ id.toNat ∧ live_trap s.ctx t ∧
          align_page s.ctx (s.ctx.trap t).add = align_page s.ctx (s.ctx.trap id.toNat).add) →
        s1.prot (align_page s.ctx (s.ctx.trap id.toNat).add) = Prot.read_only) ∧
      ∀ a, a ≠ align_page s.ctx (s.ctx.trap id.toNat).add → s1.prot a = s.prot a) := by
  have hinv := reachable_inv s hr
  refine ⟨locked_iff_trap s hinv, ?_, ?_⟩
  · intro addr len cb arg r s1 h hr0
    obtain ⟨_, _, k, kp, _, _, _, _, _, _, _, hprot, hpg, _⟩ :=
      set_trap_success_shape s hinv addr len cb arg r s1 h hr0
    rw [align_page_congr (ensure_init s).ctx s1.ctx hpg addr, hprot]
    refine ⟨by simp, ?_⟩
    intro a ha
    rw [Function.update_noteq ha, ensure_init_prot]
  · intro id s1 h
    rcases del_trap_outcome s id with ⟨_, h1⟩ | ⟨k, hk, hid, hlive, _⟩
    · rw [h1] at h
      cases h
    · subst hid
      have hinv1 : Inv s1 := inv_del_trap s hinv _ _ s1 h
      obtain ⟨kp, s2, _, _, _, hpage, hres, htrap, _, hprot, hpg, _, _⟩ :=
        del_trap_success_shape s hinv k hk hlive
      rw [hres] at h
      cases h
      have hk' : ((k : Int)).toNat = k := Int.toNat_ofNat k
      rw [hk']
      have hiff := locked_iff_trap s1 hinv1 (align_page s.ctx (s.ctx.trap k).add)
      have hlt : ∀ t, live_trap s1.ctx t ↔ t ≠ k ∧ live_trap s.ctx t := by
        intro t
        unfold live_trap
        rw [htrap]
        by_cases e : t = k
        · subst e
          simp
        · simp [Function.update_noteq e, e]
      have hadd : ∀ t, t ≠ k →
          align_page s1.ctx (s1.ctx.trap t).add = align_page s.ctx (s.ctx.trap t).add := by
        intro t e
        rw [align_page_congr s.ctx s1.ctx hpg, htrap, Function.update_noteq e]
      refine ⟨?_, ?_, ?_⟩
      · intro hlast
        rw [prot_cases]
        intro hro
        obtain ⟨t, ht, h1, h2⟩ := hiff.mp hro
        obtain ⟨e, h3⟩ := (hlt t).mp h1
        rw [hadd t e] at h2
        exact hlast t ht e h3 h2
      · rintro ⟨t, ht, e, h3, h2⟩
        rw [hiff]
        exact ⟨t, ht, (hlt t).mpr ⟨e, h3⟩, by rw [hadd t e]; exact h2⟩
      · intro a ha
        rw [hprot]
        split
        · rw [Function.update_noteq]
          rw [hpage]
          exact ha
        · rfl

theorem page_protection_witness :
    Reachable one_trap ∧
    (∀ a, one_trap.prot a = Prot.read_only ↔
      ∃ t, t < QDBP_NUM_TRAPS ∧ live_trap one_trap.ctx t ∧
        align_page one_trap.ctx (one_trap.ctx.trap t).add = a) :=
  ⟨reachable_one_trap, (page_protection one_trap reachable_one_trap).1⟩

/-! ## Live traps do not overlap -/

theorem ranges_apart_symm (c : qdbp_ctx) (t u : Nat) (h : ranges_apart c t u) :
    ranges_apart c u t := by
  unfold ranges_apart at h ⊢
  intro h0
  exact h ⟨h0.2, h0.1⟩

theorem pair_inv_congr (s s1 : Proc) (h : s1.ctx.trap = s.ctx.trap) (hp : PairInv s) :
    PairInv s1 := by
  unfold PairInv live_trap in_space ranges_apart at *
  rw [h]
  exact hp

theorem pair_inv_set_trap (s : Proc) (hinv : Inv s) (hp : PairInv s) (addr : Nat) (len : Int)
    (cb arg : Nat) (r : Int) (s1 : Proc) (h : qdbp_set_trap s addr len cb arg = Res.ret (r, s1)) :
    PairInv s1 := by
  by_cases hr : r < 0
  · rw [set_trap_failed_state s addr len cb arg r s1 h hr]
    exact pair_inv_congr s _ (ensure_init_trap s) hp
  · obtain ⟨hv, ho, k, kp, hk, _, _, hfree, _, htrap, _⟩ :=
      set_trap_success_shape s hinv addr len cb arg r s1 h (by omega)
    have hinv0 := inv_ensure_init s hinv
    have hp0 : PairInv (ensure_init s) := pair_inv_congr s _ (ensure_init_trap s) hp
    generalize ensure_init s = s0 at *
    obtain ⟨_, hlen, _, _, _⟩ := valid_args_pos s0 addr len cb hv
    have hold : ∀ t, t ≠ k → s1.ctx.trap t = s0.ctx.trap t := by
      intro t e
      rw [htrap, Function.update_noteq e]
    have hnew : s1.ctx.trap k = ⟨cb, arg, addr, len, (kp : Int)⟩ := by
      rw [htrap]
      simp
    have hno : ∀ u, u < QDBP_NUM_TRAPS → live_trap s0.ctx u → in_space s0.ctx u →
        (addr : Int) + len < (PTR_MOD : Int) →
        ¬ (((s0.ctx.trap u).add : Int) < (addr : Int) + len ∧
          (addr : Int) < ((s0.ctx.trap u).add : Int) + (s0.ctx.trap u).len) := by
      intro u hu hl hsu hsa hc
      have hpos := hinv0.len_pos u hu hl
      have hA := ptr_add_exact addr len (by have := Int.natCast_nonneg addr; omega) hsa
      have hB := ptr_add_exact (s0.ctx.trap u).add (s0.ctx.trap u).len
        (by have := Int.natCast_nonneg (s0.ctx.trap u).add; omega) hsu
      have hov : overlap s0.ctx addr len = true := by
        rw [overlap_iff]
        refine ⟨u, hu, hl, ?_, ?_⟩
        · have : ((s0.ctx.trap u).add : Int) < ((ptr_add addr len : Nat) : Int) := by
            rw [hA]; exact hc.1
          exact_mod_cast this
        · have : (addr : Int) <
              ((ptr_add (s0.ctx.trap u).add (s0.ctx.trap u).len : Nat) : Int) := by
            rw [hB]; exact hc.2
          exact_mod_cast this
      rw [ho] at hov
      cases hov
    intro t u ht hu hne hlt hlu hst hsu
    unfold live_trap at hlt hlu
    unfold in_space at hst hsu
    unfold ranges_apart
    by_cases e1 : t = k
    · have e2 : u ≠ k := fun e => hne (by rw [e1, e])
      rw [e1] at hst ⊢
      rw [hnew] at hst ⊢
      rw [hold u e2] at hlu hsu ⊢
      intro hc
      exact hno u hu hlu hsu hst ⟨hc.2, hc.1⟩
    · by_cases e2 : u = k
      · rw [e2] at hsu ⊢
        rw [hnew] at hsu ⊢
        rw [hold t e1] at hlt hst ⊢
        exact hno t ht hlt hst hsu
      · rw [hold t e1] at hlt hst ⊢
        rw [hold u e2] at hlu hsu ⊢
        exact hp0 t u ht hu hne hlt hlu hst hsu

theorem pair_inv_del_trap (s : Proc) (hinv : Inv s) (hp : PairInv s) (id : Int) (r : Int)
    (s1 : Proc) (h : qdbp_del_trap s id = Res.ret (r, s1)) : PairInv s1 := by
  rcases del_trap_outcome s id with ⟨_, h1⟩ | ⟨k, hk, hid, hlive, _⟩
  · rw [h1] at h
    cases h
    exact hp
  · subst hid
    obtain ⟨kp, s2, _, _, _, _, hres, htrap, _⟩ := del_trap_success_shape s hinv k hk hlive
    rw [hres] at h
    cases h
    have hdead : ¬ live_trap s1.ctx k := by
      unfold live_trap
      rw [htrap]
      simp
    have hold : ∀ t, t ≠ k → s1.ctx.trap t = s.ctx.trap t := by
      intro t e
      rw [htrap, Function.update_noteq e]
    intro t u ht hu hne hlt hlu hst hsu
    have e1 : t ≠ k := fun e => hdead (by rw [← e]; exact hlt)
    have e2 : u ≠ k := fun e => hdead (by rw [← e]; exact hlu)
    unfold live_trap at hlt hlu
    unfold in_space at hst hsu
    unfold ranges_apart
    rw [hold t e1] at hlt hst ⊢
    rw [hold u e2] at hlu hsu ⊢
    exact hp t u ht hu hne hlt hlu hst hsu

theorem reachable_pair_inv (s : Proc) (h : Reachable s) : PairInv s := by
  induction h with
  | init pagesize mapped =>
    intro t u _ _ _ hl
    exact absurd rfl hl
  | step c hprev hstep ih =>
    have hinv := reachable_inv _ hprev
    cases c with
    | set_trap addr len cb arg => exact pair_inv_set_trap _ hinv ih addr len cb arg _ _ hstep
    | del_trap id => exact pair_inv_del_trap _ hinv ih id _ _ hstep

/-- Claim C10: in every state reachable from the zeroed context by `qdbp_set_trap` and
`qdbp_del_trap` calls, two distinct live traps (whose bytes lie inside the address space, as
the bytes of every object do) have no byte in common. -/
theorem live_traps_disjoint (s : Proc) (hr : Reachable s) (t u : Nat)
    (ht : t < QDBP_NUM_TRAPS) (hu : u < QDBP_NUM_TRAPS) (hne : t ≠ u)
    (hlt : live_trap s.ctx t) (hlu : live_trap s.ctx u)
    (hst : ((s.ctx.trap t).add : Int) + (s.ctx.trap t).len < (PTR_MOD : Int))
    (hsu : ((s.ctx.trap u).add : Int) + (s.ctx.trap u).len < (PTR_MOD : Int)) :
    ∀ b : Int, ¬ (((s.ctx.trap t).add : Int) ≤ b ∧
      b < ((s.ctx.trap t).add : Int) + (s.ctx.trap t).len ∧
      ((s.ctx.trap u).add : Int) ≤ b ∧ b < ((s.ctx.trap u).add : Int) + (s.ctx.trap u).len) := by
  have h := reachable_pair_inv s hr t u ht hu hne hlt hlu hst hsu
  unfold ranges_apart at h
  rintro b ⟨b1, b2, b3, b4⟩
  apply h
  constructor <;> omega

theorem live_traps_disjoint_witness :
    (Reachable two_traps ∧ (6 : Nat) < QDBP_NUM_TRAPS ∧ (7 : Nat) < QDBP_NUM_TRAPS ∧
      (6 : Nat) ≠ 7 ∧ live_trap two_traps.ctx 6 ∧ live_trap two_traps.ctx 7 ∧
      ((two_traps.ctx.trap 6).add : Int) + (two_traps.ctx.trap 6).len < (PTR_MOD : Int) ∧
      ((two_traps.ctx.trap 7).add : Int) + (two_traps.ctx.trap 7).len < (PTR_MOD : Int)) ∧
    ∀ b : Int, ¬ (((two_traps.ctx.trap 6).add : Int) ≤ b ∧
      b < ((two_traps.ctx.trap 6).add : Int) + (two_traps.ctx.trap 6).len ∧
      ((two_traps.ctx.trap 7).add : Int) ≤ b ∧
      b < ((two_traps.ctx.trap 7).add : Int) + (two_traps.ctx.trap 7).len) :=
  ⟨⟨reachable_two_traps, by decide, by decide, by decide, by decide,
      by decide, by decide, by decide⟩,
    live_traps_disjoint two_traps reachable_two_traps 6 7 (by decide)
      (by decide) (by decide) (by decide) (by decide) (by decide) (by decide)⟩

/-! ## Room in the range table -/

theorem live_traps_eq_sum (s : Proc) (hinv : Inv s) :
    live_traps s.ctx = ∑ p ∈ Finset.range QDBP_NUM_TRAPS, trap_refs s.ctx p := by
  unfold live_traps trap_refs
  have hmaps : ∀ x ∈ (Finset.range QDBP_NUM_TRAPS).filter (fun t => live_trap s.ctx t),
      (fun t => ((s.ctx.trap t).range_idx).toNat) x ∈ Finset.range QDBP_NUM_TRAPS := by
    intro x hx
    simp only [Finset.mem_filter, Finset.mem_range] at hx
    obtain ⟨p, hp, h2, _, _⟩ := hinv.idx x hx.1 hx.2
    simp only [Finset.mem_range, h2, Int.toNat_ofNat]
    exact hp
  rw [Finset.card_eq_sum_card_fiberwise hmaps]
  apply Finset.sum_congr rfl
  intro p _
  congr 1
  ext t
  simp only [Finset.mem_filter, Finset.mem_range]
  constructor
  · rintro ⟨⟨ht, hl⟩, h3⟩
    obtain ⟨q, _, h2, _, _⟩ := hinv.idx t ht hl
    refine ⟨ht, hl, ?_⟩
    rw [h2] at h3 ⊢
    simp only [Int.toNat_ofNat] at h3
    rw [h3]
  · rintro ⟨ht, hl, h3⟩
    refine ⟨⟨ht, hl⟩, ?_⟩
    rw [h3]
    simp

/-- While a trap slot is free, a range slot is free: there are no more live ranges than live
traps. -/
theorem free_range_exists (s : Proc) (hinv : Inv s) (k : Nat) (hk : k < QDBP_NUM_TRAPS)
    (hfree : ¬ live_trap s.ctx k) : ∃ p, p < QDBP_NUM_TRAPS ∧ ¬ live_range s.ctx p := by
  by_contra hcon
  push_neg at hcon
  have h1 : ∀ p ∈ Finset.range QDBP_NUM_TRAPS, 1 ≤ trap_refs s.ctx p := by
    intro p hp
    simp only [Finset.mem_range] at hp
    have h2 := hcon p hp
    unfold live_range at h2
    rw [hinv.cnt p hp] at h2
    have : trap_refs s.ctx p ≠ 0 := by exact_mod_cast h2
    omega
  have h2 : QDBP_NUM_TRAPS ≤ ∑ p ∈ Finset.range QDBP_NUM_TRAPS, trap_refs s.ctx p := by
    have := Finset.sum_le_sum h1
    simpa using this
  have h3 : live_traps s.ctx ≤ QDBP_NUM_TRAPS - 1 := by
    unfold live_traps
    have hsub : (Finset.range QDBP_NUM_TRAPS).filter (fun t => live_trap s.ctx t) ⊆
        (Finset.range QDBP_NUM_TRAPS).erase k := by
      intro t ht
      simp only [Finset.mem_filter, Finset.mem_range] at ht
      simp only [Finset.mem_erase, Finset.mem_range]
      refine ⟨?_, ht.1⟩
      intro e
      rw [e] at ht
      exact hfree ht.2
    have := Finset.card_le_card hsub
    rw [Finset.card_erase_of_mem (Finset.mem_range.mpr hk), Finset.card_range] at this
    exact this
  rw [live_traps_eq_sum s hinv] at h3
  omega

/-- From a consistent state with a free trap slot, `new_range` never writes outside the range
table. -/
theorem new_range_defined (s : Proc) (hinv : Inv s) (a : Nat) (k : Nat)
    (hk : k < QDBP_NUM_TRAPS) (hfree : ¬ live_trap s.ctx k) : new_range s a ≠ Res.undef := by
  intro hu
  rcases new_range_outcome s a with ⟨_, _, _, _, _, h2⟩ |
    ⟨_, ⟨_, _, _, _, _, ⟨_, h2⟩ | ⟨_, h2⟩⟩ | ⟨hall, _⟩⟩
  · rw [h2] at hu
    cases hu
  · rw [h2] at hu
    cases hu
  · rw [h2] at hu
    cases hu
  · obtain ⟨p, hp, hdead⟩ := free_range_exists s hinv k hk hfree
    exact hdead (hall p hp)

/-- From a consistent state, a call with valid arguments that overlap no live trap succeeds as
soon as a trap slot is free and `mprotect` succeeds on the page of `addr`. -/
theorem set_trap_progress (s : Proc) (hinv : Inv s) (addr : Nat) (len : Int) (cb arg : Nat)
    (hv : ¬ invalid_args (ensure_init s) addr len cb)
    (ho : overlap (ensure_init s).ctx addr len = false)
    (hfree : ∃ k, k < QDBP_NUM_TRAPS ∧ ¬ live_trap s.ctx k)
    (hm : s.mapped (align_page (ensure_init s).ctx addr) = true) :
    ∃ k s1, k < QDBP_NUM_TRAPS ∧ qdbp_set_trap s addr len cb arg = Res.ret ((k : Int), s1) := by
  have hinv0 := inv_ensure_init s hinv
  obtain ⟨j, hj, hjfree⟩ := hfree
  rcases set_trap_outcome s addr len cb arg with ⟨hi, _⟩ | ⟨_, ho1, _⟩ | ⟨_, _, hall, _⟩ |
    ⟨_, _, k, hk, hkfree, _, h1⟩
  · exact absurd hi hv
  · rw [ho] at ho1
    cases ho1
  · exact absurd ((ensure_init_live_trap s j).mp (hall j hj)) hjfree
  · rcases h1 with (⟨hnone, _⟩ | ⟨st, hexit, _⟩) | ⟨p, s2, _, h1⟩
    · exact absurd hnone (new_range_defined (ensure_init s) hinv0 _ k hk hkfree)
    · exfalso
      rcases new_range_outcome (ensure_init s) (align_page (ensure_init s).ctx addr) with
        ⟨_, _, _, _, _, h2⟩ | ⟨_, ⟨_, _, _, _, _, ⟨_, h2⟩ | ⟨hnm, _⟩⟩ | ⟨_, h2⟩⟩
      · rw [h2] at hexit
        cases hexit
      · rw [h2] at hexit
        cases hexit
      · rw [ensure_init_mapped] at hnm
        exact hnm hm
      · rw [h2] at hexit
        cases hexit
    · exact ⟨k, _, hk, h1⟩

/-! ## Ranges that cross a page boundary -/

/-- Claim C2 fails on the code. `qdbp_set_trap` bounds `len` by the page size and locks the one
page of `addr`, but it does not look at the page of the last byte. On a system with 4096-byte
pages the four bytes at 69630 end on the next page (`align_page` gives 65536 for the first byte
and 69632 for the last); the first call `qdbp_set_trap(69630, 4, cb, arg)` of a process is not
rejected: it returns the id 7 and installs the trap. Afterwards the page 65536 is read-only,
while the bytes 69632 and 69633 of the trap lie on the page 69632, which is still read-write
and has no live range: a write to them raises no fault and fires no callback. -/
theorem page_crossing_accepted :
    ((1 : Int) ≤ 4 ∧ (4 : Int) ≤ (ensure_init (initial 4096 user_pages)).ctx.pg_sz ∧
      align_page (ensure_init (initial 4096 user_pages)).ctx 69630 = 65536 ∧
      align_page (ensure_init (initial 4096 user_pages)).ctx (ptr_add 69630 (4 - 1)) = 69632) ∧
    ret_code (qdbp_set_trap (initial 4096 user_pages) 69630 4 1 0) = some 7 ∧
    live_trap crossing_trap.ctx 7 ∧ (crossing_trap.ctx.trap 7).add = 69630 ∧
    (crossing_trap.ctx.trap 7).len = 4 ∧
    contains_byte crossing_trap.ctx 7 69632 ∧ contains_byte crossing_trap.ctx 7 69633 ∧
    align_page crossing_trap.ctx 69632 = 69632 ∧ align_page crossing_trap.ctx 69633 = 69632 ∧
    crossing_trap.prot 65536 = Prot.read_only ∧ crossing_trap.prot 69632 = Prot.read_write ∧
    get_range crossing_trap.ctx 69632 = -1 := by
  refine ⟨⟨by decide, by decide, by decide, by decide⟩, by rfl, by decide, by rfl, by rfl,
    by decide, by decide, by decide, by decide, by decide, by decide, by decide⟩

/-! ## Capacity -/

theorem live_traps_set (c c1 : qdbp_ctx) (k : Nat) (tr : qdbp_trap) (hk : k < QDBP_NUM_TRAPS)
    (hfree : ¬ live_trap c k) (hlen : tr.len ≠ 0) (ht : c1.trap = Function.update c.trap k tr) :
    live_traps c1 = live_traps c + 1 := by
  unfold live_traps
  have : (Finset.range QDBP_NUM_TRAPS).filter (fun t => live_trap c1 t) =
      insert k ((Finset.range QDBP_NUM_TRAPS).filter (fun t => live_trap c t)) := by
    ext t
    simp only [Finset.mem_filter, Finset.mem_range, Finset.mem_insert, live_trap, ht]
    by_cases e : t = k
    · subst e
      simp [hk, hlen]
    · simp [Function.update_noteq e, e]
  rw [this, Finset.card_insert_of_not_mem]
  simp only [Finset.mem_filter, not_and]
  intro _ hl
  exact absurd hl hfree

theorem live_traps_congr (c c1 : qdbp_ctx) (h : c1.trap = c.trap) :
    live_traps c1 = live_traps c := by
  unfold live_traps
  congr 1
  ext t
  simp only [Finset.mem_filter, Finset.mem_range, live_trap, h]

theorem live_traps_after_set_trap (s : Proc) (hinv : Inv s) (addr : Nat) (len : Int)
    (cb arg : Nat) (r : Int) (s1 : Proc) (h : qdbp_set_trap s addr len cb arg = Res.ret (r, s1)) :
    live_traps s1.ctx = live_traps s.ctx + (if 0 ≤ r then 1 else 0) := by
  by_cases hr : 0 ≤ r
  · rw [if_pos hr]
    obtain ⟨hv, _, k, kp, hk, _, _, hfree, _, htrap, _⟩ :=
      set_trap_success_shape s hinv addr len cb arg r s1 h hr
    obtain ⟨_, hlen, _⟩ := valid_args_pos _ addr len cb hv
    rw [live_traps_set (ensure_init s).ctx s1.ctx k _ hk hfree (by simp only; omega) htrap,
      live_traps_congr s.ctx (ensure_init s).ctx (ensure_init_trap s)]
  · rw [if_neg hr, set_trap_failed_state s addr len cb arg r s1 h (by omega),
      live_traps_congr s.ctx (ensure_init s).ctx (ensure_init_trap s)]
    rfl

theorem run_calls_cons (s : Proc) (c : Call) (cs : List Call) (rs : List Int) (s1 : Proc)
    (h : run_calls s (c :: cs) = some (rs, s1)) :
    ∃ r s2 rs2, step s c = Res.ret (r, s2) ∧ run_calls s2 cs = some (rs2, s1) ∧
      rs = r :: rs2 := by
  unfold run_calls at h
  cases hst : step s c with
  | undef =>
    rw [hst] at h
    cases h
  | exit status =>
    rw [hst] at h
    cases h
  | ret p1 =>
    obtain ⟨r, s2⟩ := p1
    rw [hst] at h
    simp only at h
    cases hrun : run_calls s2 cs with
    | none =>
      rw [hrun] at h
      cases h
    | some p2 =>
      obtain ⟨rs2, s3⟩ := p2
      rw [hrun] at h
      simp only [Option.some.injEq, Prod.mk.injEq] at h
      obtain ⟨h1, h2⟩ := h
      subst h1 h2
      exact ⟨r, s2, rs2, rfl, hrun, rfl⟩

theorem live_traps_after_run (calls : List Call) :
    ∀ (s : Proc) (rs : List Int) (s1 : Proc), Inv s →
      (∀ c ∈ calls, is_set_trap c = true) → run_calls s calls = some (rs, s1) →
      live_traps s1.ctx = live_traps s.ctx + successes rs := by
  induction calls with
  | nil =>
    intro s rs s1 _ _ h
    simp only [run_calls, Option.some.injEq, Prod.mk.injEq] at h
    obtain ⟨h1, h2⟩ := h
    subst h1 h2
    rfl
  | cons c cs ih =>
    intro s rs s1 hinv hall h
    have hc : is_set_trap c = true := hall c (List.mem_cons_self c cs)
    have hcs : ∀ d ∈ cs, is_set_trap d = true := fun d hd => hall d (List.mem_cons_of_mem c hd)
    cases c with
    | del_trap id => cases hc
    | set_trap addr len cb arg =>
      obtain ⟨r, s2, rs2, hst, hrun, rfl⟩ := run_calls_cons s _ cs rs s1 h
      have hinv2 : Inv s2 := inv_step s hinv _ r s2 hst
      rw [ih s2 rs2 s1 hinv2 hcs hrun,
        live_traps_after_set_trap s hinv addr len cb arg r s2 hst]
      unfold successes
      by_cases hr : 0 ≤ r
      · simp [hr]
        omega
      · simp [hr]

theorem all_live_of_count (c : qdbp_ctx) (h : live_traps c = QDBP_NUM_TRAPS) :
    ∀ t, t < QDBP_NUM_TRAPS → live_trap c t := by
  intro t ht
  unfold live_traps at h
  have h1 : ((Finset.range QDBP_NUM_TRAPS).filter (fun t => live_trap c t)).card =
      (Finset.range QDBP_NUM_TRAPS).card := by
    rw [h, Finset.card_range]
  exact (Finset.card_filter_eq_iff.mp h1) t (Finset.mem_range.mpr ht)

theorem live_traps_initial (pagesize : Int) (mapped : Nat → Bool) :
    live_traps (initial pagesize mapped).ctx = 0 := by
  unfold live_traps
  rw [Finset.card_eq_zero, Finset.filter_eq_empty_iff]
  intro t _ hl
  exact hl rfl

/-- Claim C4: for a call of `qdbp_set_trap` whose arguments are valid and overlap no live
trap, the result is `-ENOSPC` if and only if all `QDBP_NUM_TRAPS` slots are live; so after a
sequence of `qdbp_set_trap` calls from the start of which `QDBP_NUM_TRAPS` succeeded, and no
`qdbp_del_trap`, the next such call returns `-ENOSPC`. -/
theorem set_trap_no_space_iff (s : Proc) (addr : Nat) (len : Int) (cb arg : Nat)
    (ha : align_page (ensure_init s).ctx addr ≠ 0) (h1 : 1 ≤ len)
    (h2 : len ≤ (ensure_init s).ctx.pg_sz) (hcb : cb ≠ 0)
    (ho : overlap (ensure_init s).ctx addr len = false) :
    (ret_code (qdbp_set_trap s addr len cb arg) = some (-ENOSPC) ↔
      ∀ t, t < QDBP_NUM_TRAPS → live_trap s.ctx t) ∧
    (∀ pagesize mapped calls rs, (∀ c ∈ calls, is_set_trap c = true) →
      run_calls (initial pagesize mapped) calls = some (rs, s) →
      successes rs = QDBP_NUM_TRAPS →
      ret_code (qdbp_set_trap s addr len cb arg) = some (-ENOSPC)) := by
  have hv : ¬ invalid_args (ensure_init s) addr len cb := by
    unfold invalid_args
    push_neg
    exact ⟨ha, by omega, by omega, hcb⟩
  have hiff : ret_code (qdbp_set_trap s addr len cb arg) = some (-ENOSPC) ↔
      ∀ t, t < QDBP_NUM_TRAPS → live_trap s.ctx t := by
    rcases set_trap_outcome s addr len cb arg with ⟨hi, _⟩ | ⟨_, ho1, _⟩ | ⟨_, _, hall, h3⟩ |
      ⟨_, _, k, hk, hkfree, _, h3⟩
    · exact absurd hi hv
    · rw [ho] at ho1
      cases ho1
    · rw [h3, ret_code_some]
      simp only [true_iff]
      intro t ht
      exact (ensure_init_live_trap s t).mp (hall t ht)
    · have hnot : ¬ ∀ t, t < QDBP_NUM_TRAPS → live_trap s.ctx t :=
        fun hall => hkfree ((ensure_init_live_trap s k).mpr (hall k hk))
      rcases h3 with (⟨_, h3⟩ | ⟨_, _, h3⟩) | ⟨p, s2, _, h3⟩
      · rw [h3]
        simp only [ret_code, hnot, iff_false]
        exact fun h => nomatch h
      · rw [h3]
        simp only [ret_code, hnot, iff_false]
        exact fun h => nomatch h
      · rw [h3, ret_code_some]
        simp only [hnot, iff_false, ENOSPC, Option.some.injEq]
        have := Int.natCast_nonneg k
        omega
  refine ⟨hiff, ?_⟩
  intro pagesize mapped calls rs hall hrun hsucc
  rw [hiff]
  apply all_live_of_count
  rw [live_traps_after_run calls (initial pagesize mapped) rs s (inv_initial pagesize mapped)
    hall hrun, live_traps_initial, hsucc]
  simp

theorem eight_calls_run :
    run_calls (initial 4096 user_pages) eight_calls =
      some ([7, 6, 5, 4, 3, 2, 1, 0], full_table) := by
  have h1 : (run_calls (initial 4096 user_pages) eight_calls).map Prod.fst =
      some [7, 6, 5, 4, 3, 2, 1, 0] := by decide!
  unfold full_table
  cases h : run_calls (initial 4096 user_pages) eight_calls with
  | none =>
    rw [h] at h1
    cases h1
  | some p =>
    obtain ⟨rs, s⟩ := p
    rw [h] at h1
    simp only [Option.map_some', Option.some.injEq] at h1
    rw [h1]

theorem set_trap_no_space_iff_witness :
    (align_page (ensure_init full_table).ctx 69632 ≠ 0 ∧ (1 : Int) ≤ 4 ∧
      (4 : Int) ≤ (ensure_init full_table).ctx.pg_sz ∧ (1 : Nat) ≠ 0 ∧
      overlap (ensure_init full_table).ctx 69632 4 = false) ∧
    ret_code (qdbp_set_trap full_table 69632 4 1 0) = some (-ENOSPC) :=
  ⟨⟨by decide!, by decide, by decide!, by decide, by decide!⟩,
    (set_trap_no_space_iff full_table 69632 4 1 0 (by decide!) (by decide) (by decide!)
      (by decide) (by decide!)).2 4096 user_pages eight_calls [7, 6, 5, 4, 3, 2, 1, 0] (by decide)
      eight_calls_run (by decide)⟩

/-! ## Lookup of a trap -/

theorem get_trap_loop_spec (c : qdbp_ctx) (a : Nat) (n : Nat) :
    (get_trap_loop c a n = -1 ∧ ∀ t, t < n → ¬ hits c t a) ∨
    (∃ k, k < n ∧ get_trap_loop c a n = (k : Int) ∧ hits c k a ∧
      ∀ t, k < t → t < n → ¬ hits c t a) := by
  induction n with
  | zero => left; simp [get_trap_loop]
  | succ n ih =>
    by_cases h : (c.trap n).len ≠ 0 ∧ (c.trap n).add ≤ a ∧
        a < ptr_add (c.trap n).add (c.trap n).len
    · right
      have hstep : get_trap_loop c a (n + 1) = (n : Int) := by
        simp only [get_trap_loop]
        rw [if_pos h]
      refine ⟨n, Nat.lt_succ_self n, hstep, h, ?_⟩
      intro t h1 h2; omega
    · have hstep : get_trap_loop c a (n + 1) = get_trap_loop c a n := by
        simp only [get_trap_loop]
        rw [if_neg h]
      rcases ih with ⟨h1, h2⟩ | ⟨k, hk, h1, h2, h3⟩
      · left
        refine ⟨by rw [hstep, h1], ?_⟩
        intro t ht
        rcases Nat.lt_succ_iff_lt_or_eq.mp ht with h4 | h4
        · exact h2 t h4
        · subst h4; exact h
      · right
        refine ⟨k, Nat.lt_succ_of_lt hk, by rw [hstep, h1], h2, ?_⟩
        intro t h5 h6
        rcases Nat.lt_succ_iff_lt_or_eq.mp h6 with h7 | h7
        · exact h3 t h5 h7
        · subst h7; exact h

theorem get_trap_spec (c : qdbp_ctx) (a : Nat) :
    (get_trap c a = -1 ∧ ∀ t, t < QDBP_NUM_TRAPS → ¬ hits c t a) ∨
    (∃ k, k < QDBP_NUM_TRAPS ∧ get_trap c a = (k : Int) ∧ hits c k a ∧
      ∀ t, k < t → t < QDBP_NUM_TRAPS → ¬ hits c t a) :=
  get_trap_loop_spec c a QDBP_NUM_TRAPS

theorem get_range_spec (c : qdbp_ctx) (a : Nat) :
    (get_range c a = -1 ∧
      ∀ p, p < QDBP_NUM_TRAPS → ¬ (live_range c p ∧ (c.range p).page = a)) ∨
    (∃ k, k < QDBP_NUM_TRAPS ∧ get_range c a = (k : Int) ∧ live_range c k ∧
      (c.range k).page = a ∧
      ∀ p, k < p → p < QDBP_NUM_TRAPS → ¬ (live_range c p ∧ (c.range p).page = a)) :=
  get_range_loop_spec c a QDBP_NUM_TRAPS

/-- For a trap whose bytes lie inside the address space, the test of `get_trap` is membership
of the address in the bytes of the trap. -/
theorem hits_iff_contains (c : qdbp_ctx) (t a : Nat) (hpos : 0 < (c.trap t).len)
    (hsp : in_space c t) : hits c t a ↔ contains_byte c t a := by
  unfold in_space at hsp
  have hB := ptr_add_exact (c.trap t).add (c.trap t).len
    (by have := Int.natCast_nonneg (c.trap t).add; omega) hsp
  unfold hits contains_byte
  constructor
  · rintro ⟨_, h2, h3⟩
    refine ⟨by exact_mod_cast h2, ?_⟩
    rw [← hB]
    exact_mod_cast h3
  · rintro ⟨h2, h3⟩
    refine ⟨by omega, by exact_mod_cast h2, ?_⟩
    rw [← hB] at h3
    exact_mod_cast h3

theorem get_trap_loop_congr (c c1 : qdbp_ctx) (h : c1.trap = c.trap) (a n : Nat) :
    get_trap_loop c1 a n = get_trap_loop c a n := by
  induction n with
  | zero => rfl
  | succ n ih => simp only [get_trap_loop, h, ih]

theorem get_trap_congr (c c1 : qdbp_ctx) (h : c1.trap = c.trap) (a : Nat) :
    get_trap c1 a = get_trap c a :=
  get_trap_loop_congr c c1 h a QDBP_NUM_TRAPS

/-! ## The fault handler -/

/-- The ways out of `segv_handler`. -/
theorem segv_handler_outcome (s : Proc) (f : Nat) :
    ((∀ p, p < QDBP_NUM_TRAPS →
        ¬ (live_range s.ctx p ∧ (s.ctx.range p).page = align_page s.ctx f)) ∧
      segv_handler s f =
        Handled.exited 1 { s with ctx := { s.ctx with range_num := -1 } } []) ∨
    (∃ kp, kp < QDBP_NUM_TRAPS ∧ live_range s.ctx kp ∧
      (s.ctx.range kp).page = align_page s.ctx f ∧
      (∀ p, kp < p → p < QDBP_NUM_TRAPS →
        ¬ (live_range s.ctx p ∧ (s.ctx.range p).page = align_page s.ctx f)) ∧
      ((s.mapped (align_page s.ctx f) = true ∧
          segv_handler s f = Handled.returned
            (mprotect { s with ctx := { s.ctx with
              range_num := (kp : Int), trap_num := get_trap s.ctx f } } (align_page s.ctx f)
              Prot.read_write) []) ∨
        (¬ s.mapped (align_page s.ctx f) = true ∧
          segv_handler s f = Handled.exited 1
            { s with ctx := { s.ctx with
              range_num := (kp : Int), trap_num := get_trap s.ctx f } } []))) := by
  rcases get_range_spec s.ctx (align_page s.ctx f) with ⟨h1, h2⟩ | ⟨kp, hkp, h1, h2, h3, h4⟩
  · left
    refine ⟨h2, ?_⟩
    simp [segv_handler, h1]
  · right
    refine ⟨kp, hkp, h2, h3, h4, ?_⟩
    have hn : ¬ ((kp : Int) < 0) := by
      have := Int.natCast_nonneg kp
      omega
    have hg : get_trap { s.ctx with range_num := (kp : Int) } f = get_trap s.ctx f :=
      get_trap_congr s.ctx _ rfl f
    by_cases hm : s.mapped (align_page s.ctx f) = true
    · left
      refine ⟨hm, ?_⟩
      simp only [segv_handler, h1, hn, if_false, hg, unlock_page, hm, if_true]
    · right
      refine ⟨hm, ?_⟩
      simp only [segv_handler, h1, hn, if_false, hg, unlock_page, hm]
      rfl

/-- In a consistent state a fault on the page of the live range `p` makes `segv_handler`
return. -/
theorem segv_handler_live (s : Proc) (hinv : Inv s) (f : Nat) (p : Nat)
    (hp : p < QDBP_NUM_TRAPS) (hl : live_range s.ctx p)
    (hpage : (s.ctx.range p).page = align_page s.ctx f) :
    segv_handler s f = Handled.returned
      (mprotect { s with ctx := { s.ctx with
        range_num := (p : Int), trap_num := get_trap s.ctx f } } (align_page s.ctx f)
        Prot.read_write) [] := by
  rcases segv_handler_outcome s f with ⟨hnone, _⟩ | ⟨kp, hkp, hl2, hpage2, _, h1⟩
  · exact absurd ⟨hl, hpage⟩ (hnone p hp)
  · have hpk : kp = p := hinv.uniq kp p hkp hp hl2 hl (by rw [hpage, hpage2])
    subst hpk
    rcases h1 with ⟨_, h1⟩ | ⟨hm, _⟩
    · exact h1
    · have := hinv.mp kp hkp hl2
      rw [hpage2] at this
      exact absurd this hm

/-! ## A fault and its notification -/

theorem cb_inv_step (s : Proc) (hinv : Inv s) (hcbs : CbInv s) (c : Call) (r : Int) (s1 : Proc)
    (hstep : step s c = Res.ret (r, s1)) : CbInv s1 := by
  intro t ht hl
  cases c with
  | set_trap addr len cb arg =>
    have hstep' : qdbp_set_trap s addr len cb arg = Res.ret (r, s1) := hstep
    by_cases hr : r < 0
    · rw [set_trap_failed_state s addr len cb arg r s1 hstep' hr] at hl ⊢
      rw [ensure_init_trap]
      exact hcbs t ht ((ensure_init_live_trap s t).mp hl)
    · obtain ⟨hv, _, k, kp, _, _, _, _, _, htrap, _⟩ :=
        set_trap_success_shape s hinv addr len cb arg r s1 hstep' (by omega)
      obtain ⟨_, _, _, hcb, _⟩ := valid_args_pos _ addr len cb hv
      unfold live_trap at hl
      rw [htrap] at hl ⊢
      by_cases e : t = k
      · subst e
        simpa using hcb
      · rw [Function.update_noteq e] at hl ⊢
        rw [ensure_init_trap] at hl ⊢
        exact hcbs t ht hl
  | del_trap id =>
    have hstep' : qdbp_del_trap s id = Res.ret (r, s1) := hstep
    rcases del_trap_outcome s id with ⟨_, h1⟩ | ⟨k, hk, hid, hlive, _⟩
    · rw [h1] at hstep'
      cases hstep'
      exact hcbs t ht hl
    · subst hid
      obtain ⟨kp, s2, _, _, _, _, hres, htrap, _⟩ := del_trap_success_shape s hinv k hk hlive
      rw [hres] at hstep'
      cases hstep'
      unfold live_trap at hl
      rw [htrap] at hl ⊢
      by_cases e : t = k
      · subst e
        simp at hl
      · rw [Function.update_noteq e] at hl ⊢
        exact hcbs t ht hl

theorem cb_inv_initial (pagesize : Int) (mapped : Nat → Bool) :
    CbInv (initial pagesize mapped) := by
  intro t _ hl
  exact absurd rfl hl

theorem relock_unlocked (s : Proc) (a : Nat) (tn rn : Int) (h : s.prot a = Prot.read_only) :
    mprotect { mprotect { s with ctx := { s.ctx with range_num := rn, trap_num := tn } } a
        Prot.read_write
      with ctx := { s.ctx with trap_num := -1, range_num := -1 } } a Prot.read_only =
      clear_fault s := by
  have e : Function.update (Function.update s.prot a Prot.read_write) a Prot.read_only =
      s.prot := by
    rw [Function.update_idem, ← h, Function.update_eq_self]
  simp only [mprotect, clear_fault, e]

/-- The fault handler followed by the notify handler, in a consistent state with no fault in
flight, when the page of the fault address has a live range: the callback of the trap found by
`get_trap` is the only one invoked, and the state is the one before the fault with the fault
state cleared. -/
theorem fault_notify_outcome (s : Proc) (hinv : Inv s) (hcbs : CbInv s) (f : Nat)
    (hpage : ∃ p, p < QDBP_NUM_TRAPS ∧ live_range s.ctx p ∧
      (s.ctx.range p).page = align_page s.ctx f) :
    (∃ k, k < QDBP_NUM_TRAPS ∧ hits s.ctx k f ∧
      (∀ t, k < t → t < QDBP_NUM_TRAPS → ¬ hits s.ctx t f) ∧
      fault_notify s f =
        Handled.returned (clear_fault s) [((s.ctx.trap k).cb, (s.ctx.trap k).arg)]) ∨
    ((∀ t, t < QDBP_NUM_TRAPS → ¬ hits s.ctx t f) ∧
      fault_notify s f = Handled.returned (clear_fault s) []) := by
  obtain ⟨kp, hkp, hl2, hpage2⟩ := hpage
  have h1 := segv_handler_live s hinv f kp hkp hl2 hpage2
  have hro : s.prot (align_page s.ctx f) = Prot.read_only :=
    (hinv.prot _).mpr ⟨kp, hkp, hl2, hpage2⟩
  have hmp : s.mapped (align_page s.ctx f) = true := by
    rw [← hpage2]
    exact hinv.mp kp hkp hl2
  have hb : in_bounds (kp : Int) := ⟨Int.natCast_nonneg kp, by exact_mod_cast hkp⟩
  have hn : ¬ ((kp : Int) < 0) := by
    have := Int.natCast_nonneg kp
    omega
  rcases get_trap_spec s.ctx f with ⟨g1, g2⟩ | ⟨k, hk, g1, g2, g3⟩
  · right
    refine ⟨g2, ?_⟩
    have ht : trap_handler (mprotect { s with ctx := { s.ctx with
        range_num := (kp : Int), trap_num := get_trap s.ctx f } } (align_page s.ctx f)
        Prot.read_write) = Handled.returned (clear_fault s) [] := by
      rw [g1]
      have hneg : ¬ ((-1 : Int) ≥ 0) := by decide
      simp only [trap_handler, mprotect, hn, if_false, relock, hb, if_true, hneg, lock_page,
        Int.toNat_ofNat, hpage2, hmp]
      congr 1
      exact relock_unlocked s (align_page s.ctx f) (-1) (kp : Int) hro
    simp only [fault_notify, h1, ht, List.append_nil]
  · left
    refine ⟨k, hk, g2, g3, ?_⟩
    have hlk : live_trap s.ctx k := g2.1
    have hcb := hcbs k hk hlk
    have hbk : in_bounds (k : Int) := ⟨Int.natCast_nonneg k, by exact_mod_cast hk⟩
    have hk0 : (k : Int) ≥ 0 := Int.natCast_nonneg k
    have ht : trap_handler (mprotect { s with ctx := { s.ctx with
        range_num := (kp : Int), trap_num := get_trap s.ctx f } } (align_page s.ctx f)
        Prot.read_write) =
        Handled.returned (clear_fault s) [((s.ctx.trap k).cb, (s.ctx.trap k).arg)] := by
      rw [g1]
      simp only [trap_handler, mprotect, hn, if_false, relock, hb, if_true, hk0, hbk, lock_page,
        Int.toNat_ofNat, hcb, ne_eq, not_false_eq_true, and_self, hpage2, hmp]
      congr 1
      exact relock_unlocked s (align_page s.ctx f) (k : Int) (kp : Int) hro
    simp only [fault_notify, h1, ht, List.nil_append]

/-- A serviced fault leaves the state as it was, with the fault state cleared. -/
theorem fault_notify_returned_eq (s : Proc) (hinv : Inv s) (hcbs : CbInv s) (f : Nat)
    (s1 : Proc) (calls : List (Nat × Nat))
    (h : fault_notify s f = Handled.returned s1 calls) : s1 = clear_fault s := by
  by_cases hpage : ∃ p, p < QDBP_NUM_TRAPS ∧ live_range s.ctx p ∧
      (s.ctx.range p).page = align_page s.ctx f
  · rcases fault_notify_outcome s hinv hcbs f hpage with ⟨_, _, _, _, h1⟩ | ⟨_, h1⟩
    · rw [h1] at h
      cases h
      rfl
    · rw [h1] at h
      cases h
      rfl
  · rcases segv_handler_outcome s f with ⟨_, h1⟩ | ⟨kp, hkp, hl, hpg, _⟩
    · simp only [fault_notify, h1] at h
      cases h
    · exact absurd ⟨kp, hkp, hl, hpg⟩ hpage

theorem inv_clear_fault (s : Proc) (h : Inv s) : Inv (clear_fault s) :=
  { len_pos := h.len_pos
    pg := h.pg
    idx := h.idx
    uniq := h.uniq
    cnt := h.cnt
    prot := h.prot
    mp := h.mp }

theorem pair_inv_clear_fault (s : Proc) (h : PairInv s) : PairInv (clear_fault s) :=
  pair_inv_congr s (clear_fault s) rfl h

theorem cb_inv_clear_fault (s : Proc) (h : CbInv s) : CbInv (clear_fault s) := h

/-- The table invariant, the pairwise separation of the live traps and the non-null callbacks
hold in every running state. -/
theorem running_invs (s : Proc) (h : Running s) : Inv s ∧ PairInv s ∧ CbInv s := by
  induction h with
  | init pagesize mapped =>
    refine ⟨inv_initial pagesize mapped, ?_, cb_inv_initial pagesize mapped⟩
    intro t u _ _ _ hl
    exact absurd rfl hl
  | @call s0 s1 r c _ hstep ih =>
    obtain ⟨hinv, hpair, hcbs⟩ := ih
    refine ⟨inv_step _ hinv c _ _ hstep, ?_, cb_inv_step _ hinv hcbs c _ _ hstep⟩
    cases c with
    | set_trap addr len cb arg => exact pair_inv_set_trap _ hinv hpair addr len cb arg _ _ hstep
    | del_trap id => exact pair_inv_del_trap _ hinv hpair id _ _ hstep
  | @fault s0 s1 calls f _ hf ih =>
    obtain ⟨hinv, hpair, hcbs⟩ := ih
    rw [fault_notify_returned_eq s0 hinv hcbs f s1 calls hf]
    exact ⟨inv_clear_fault s0 hinv, pair_inv_clear_fault s0 hpair, cb_inv_clear_fault s0 hcbs⟩

theorem running_inv (s : Proc) (h : Running s) : Inv s := (running_invs s h).1

theorem running_of_reachable (s : Proc) (h : Reachable s) : Running s := by
  induction h with
  | init pagesize mapped => exact Running.init pagesize mapped
  | step c _ hstep ih => exact Running.call c ih hstep

theorem reachable_same_page_traps : Reachable same_page_traps :=
  Reachable.step (Call.set_trap 65544 4 2 0) reachable_one_trap (by rfl)

theorem running_same_page_traps : Running same_page_traps :=
  running_of_reachable _ reachable_same_page_traps

theorem same_page_traps_fault :
    fault_notify same_page_traps 65537 = Handled.returned after_fault [(1, 0)] := by
  rfl

theorem running_after_fault : Running after_fault :=
  Running.fault 65537 running_same_page_traps same_page_traps_fault

/-- Claim C19: in every state the process reaches by `qdbp_set_trap` and `qdbp_del_trap` calls
and serviced faults, and for every fault address `f`, `segv_handler` terminates the process
with `exit(1)` if and only if no live range has `page == align_page(f)`; otherwise it returns
without a callback, `range_num` is the index of that range, `trap_num` is the index of the live
trap that contains `f` or `-1` when there is none, the page is read-write, no other page
changes and the two tables are unchanged. -/
theorem segv_handler_result (s : Proc) (hr : Running s) (f : Nat) :
    ((∃ s1 calls, segv_handler s f = Handled.exited 1 s1 calls) ↔
      ¬ ∃ p, p < QDBP_NUM_TRAPS ∧ live_range s.ctx p ∧
        (s.ctx.range p).page = align_page s.ctx f) ∧
    (∀ p, p < QDBP_NUM_TRAPS → live_range s.ctx p →
      (s.ctx.range p).page = align_page s.ctx f →
      ∃ s1, segv_handler s f = Handled.returned s1 [] ∧ s1.ctx.range_num = (p : Int) ∧
        ((∃ t, t < QDBP_NUM_TRAPS ∧ s1.ctx.trap_num = (t : Int) ∧ hits s.ctx t f) ∨
          (s1.ctx.trap_num = -1 ∧ ∀ t, t < QDBP_NUM_TRAPS → ¬ hits s.ctx t f)) ∧
        ((∀ t, t < QDBP_NUM_TRAPS → live_trap s.ctx t → in_space s.ctx t) →
          ((∃ t, t < QDBP_NUM_TRAPS ∧ s1.ctx.trap_num = (t : Int) ∧ live_trap s.ctx t ∧
              contains_byte s.ctx t f) ∨
            (s1.ctx.trap_num = -1 ∧
              ∀ t, t < QDBP_NUM_TRAPS → live_trap s.ctx t → ¬ contains_byte s.ctx t f))) ∧
        s1.prot (align_page s.ctx f) = Prot.read_write ∧
        (∀ a, a ≠ align_page s.ctx f → s1.prot a = s.prot a) ∧
        s1.ctx.trap = s.ctx.trap ∧ s1.ctx.range = s.ctx.range) := by
  have hinv := running_inv s hr
  constructor
  · constructor
    · rintro ⟨s1, calls, h⟩ ⟨p, hp, hl, hpage⟩
      rw [segv_handler_live s hinv f p hp hl hpage] at h
      cases h
    · intro hno
      rcases segv_handler_outcome s f with ⟨_, h1⟩ | ⟨kp, hkp, hl, hpage, _, _⟩
      · exact ⟨_, _, h1⟩
      · exact absurd ⟨kp, hkp, hl, hpage⟩ hno
  · intro p hp hl hpage
    have h1 := segv_handler_live s hinv f p hp hl hpage
    refine ⟨_, h1, by simp [mprotect], ?_, ?_, by simp [mprotect], ?_,
      by simp [mprotect], by simp [mprotect]⟩
    · rcases get_trap_spec s.ctx f with ⟨g1, g2⟩ | ⟨k, hk, g1, g2, _⟩
      · right
        exact ⟨by simp [mprotect, g1], g2⟩
      · left
        exact ⟨k, hk, by simp [mprotect, g1], g2⟩
    · intro hsp
      rcases get_trap_spec s.ctx f with ⟨g1, g2⟩ | ⟨k, hk, g1, g2, _⟩
      · right
        refine ⟨by simp [mprotect, g1], ?_⟩
        intro t ht hlt hc
        exact g2 t ht ((hits_iff_contains s.ctx t f (hinv.len_pos t ht hlt) (hsp t ht hlt)).mpr hc)
      · left
        have hlk : live_trap s.ctx k := g2.1
        exact ⟨k, hk, by simp [mprotect, g1], hlk,
          (hits_iff_contains s.ctx k f (hinv.len_pos k hk hlk) (hsp k hk hlk)).mp g2⟩
    · intro a ha
      simp [mprotect, Function.update_noteq ha]

theorem segv_handler_result_witness :
    Running after_fault ∧
    ((∃ s1 calls, segv_handler after_fault 73728 = Handled.exited 1 s1 calls) ↔
      ¬ ∃ p, p < QDBP_NUM_TRAPS ∧ live_range after_fault.ctx p ∧
        (after_fault.ctx.range p).page = align_page after_fault.ctx 73728) ∧
    ∃ s1, segv_handler after_fault 65545 = Handled.returned s1 [] ∧
      s1.ctx.range_num = ((7 : Nat) : Int) ∧
      s1.prot (align_page after_fault.ctx 65545) = Prot.read_write :=
  have h := segv_handler_result after_fault running_after_fault
  ⟨running_after_fault, (h 73728).1,
    match (h 65545).2 7 (by decide) (by decide!) (by decide!) with
    | ⟨s1, h1, h2, _, _, h3, _⟩ => ⟨s1, h1, h2, h3⟩⟩

/-- Claim C11: in a state the process reaches by `qdbp_set_trap` and `qdbp_del_trap` calls and
serviced faults (no fault in flight), for a fault address `f` whose page has a live range,
`segv_handler` followed by `trap_handler` invokes exactly one callback, `cb(arg)` of the one
live trap whose bytes contain `f`, when there is such a trap, and no callback when `f` lies
outside the bytes of every live trap; afterwards the page is read-only, the tables are
unchanged and the fault state is cleared. The traps are taken to lie inside the address
space. -/
theorem fault_fires_one_callback (s : Proc) (hr : Running s) (f : Nat)
    (hpage : ∃ p, p < QDBP_NUM_TRAPS ∧ live_range s.ctx p ∧
      (s.ctx.range p).page = align_page s.ctx f)
    (hsp : ∀ t, t < QDBP_NUM_TRAPS → live_trap s.ctx t → in_space s.ctx t) :
    (∀ t, t < QDBP_NUM_TRAPS → live_trap s.ctx t → contains_byte s.ctx t f →
      fault_notify s f =
        Handled.returned (clear_fault s) [((s.ctx.trap t).cb, (s.ctx.trap t).arg)]) ∧
    ((∀ t, t < QDBP_NUM_TRAPS → live_trap s.ctx t → ¬ contains_byte s.ctx t f) →
      fault_notify s f = Handled.returned (clear_fault s) []) ∧
    (∀ t u, t < QDBP_NUM_TRAPS → u < QDBP_NUM_TRAPS → live_trap s.ctx t → live_trap s.ctx u →
      contains_byte s.ctx t f → contains_byte s.ctx u f → t = u) ∧
    (clear_fault s).prot (align_page s.ctx f) = Prot.read_only ∧
    (clear_fault s).prot = s.prot ∧
    (clear_fault s).ctx.trap = s.ctx.trap ∧ (clear_fault s).ctx.range = s.ctx.range ∧
    (clear_fault s).ctx.trap_num = -1 ∧ (clear_fault s).ctx.range_num = -1 ∧
    Running (clear_fault s) := by
  obtain ⟨hinv, hpair, hcbs⟩ := running_invs s hr
  have huniq : ∀ t u, t < QDBP_NUM_TRAPS → u < QDBP_NUM_TRAPS → live_trap s.ctx t →
      live_trap s.ctx u → contains_byte s.ctx t f → contains_byte s.ctx u f → t = u := by
    intro t u ht hu hlt hlu hct hcu
    by_contra hne
    have h := hpair t u ht hu hne hlt hlu (hsp t ht hlt) (hsp u hu hlu)
    unfold ranges_apart at h
    unfold contains_byte at hct hcu
    apply h
    constructor <;> omega
  have hro : s.prot (align_page s.ctx f) = Prot.read_only := by
    obtain ⟨p, hp, hl, hpg⟩ := hpage
    exact (hinv.prot _).mpr ⟨p, hp, hl, hpg⟩
  have hrun : Running (clear_fault s) := by
    rcases fault_notify_outcome s hinv hcbs f hpage with ⟨_, _, _, _, hres⟩ | ⟨_, hres⟩
    · exact Running.fault f hr hres
    · exact Running.fault f hr hres
  refine ⟨?_, ?_, huniq, hro, rfl, rfl, rfl, rfl, rfl, hrun⟩
  · intro t ht hlt hct
    rcases fault_notify_outcome s hinv hcbs f hpage with ⟨k, hk, hhit, _, hres⟩ | ⟨hno, _⟩
    · have hlk : live_trap s.ctx k := hhit.1
      have hck := (hits_iff_contains s.ctx k f (hinv.len_pos k hk hlk) (hsp k hk hlk)).mp hhit
      have e : t = k := huniq t k ht hk hlt hlk hct hck
      rw [e]
      exact hres
    · exact absurd
        ((hits_iff_contains s.ctx t f (hinv.len_pos t ht hlt) (hsp t ht hlt)).mpr hct) (hno t ht)
  · intro hnone
    rcases fault_notify_outcome s hinv hcbs f hpage with ⟨k, hk, hhit, _, _⟩ | ⟨_, hres⟩
    · have hlk : live_trap s.ctx k := hhit.1
      exact absurd
        ((hits_iff_contains s.ctx k f (hinv.len_pos k hk hlk) (hsp k hk hlk)).mp hhit)
        (hnone k hk hlk)
    · exact hres

theorem fault_fires_one_callback_witness :
    (Running same_page_traps ∧
      (∃ p, p < QDBP_NUM_TRAPS ∧ live_range same_page_traps.ctx p ∧
        (same_page_traps.ctx.range p).page = align_page same_page_traps.ctx 65545) ∧
      (∀ t, t < QDBP_NUM_TRAPS → live_trap same_page_traps.ctx t →
        in_space same_page_traps.ctx t)) ∧
    fault_notify same_page_traps 65545 =
      Handled.returned (clear_fault same_page_traps) [(2, 0)] ∧
    Running (clear_fault same_page_traps) ∧
    fault_notify (clear_fault same_page_traps) 65537 =
      Handled.returned (clear_fault (clear_fault same_page_traps)) [(1, 0)] ∧
    fault_notify (clear_fault same_page_traps) 69000 =
      Handled.returned (clear_fault (clear_fault same_page_traps)) [] :=
  have hsp : ∀ t, t < QDBP_NUM_TRAPS → live_trap same_page_traps.ctx t →
      in_space same_page_traps.ctx t := by decide
  have h1 := fault_fires_one_callback same_page_traps running_same_page_traps 65545
    ⟨7, by decide, by decide, by decide⟩ hsp
  have hrun : Running (clear_fault same_page_traps) := h1.2.2.2.2.2.2.2.2.2
  ⟨⟨running_same_page_traps, ⟨7, by decide, by decide, by decide⟩, hsp⟩,
    h1.1 6 (by decide) (by decide) (by decide), hrun,
    (fault_fires_one_callback (clear_fault same_page_traps) hrun 65537
      ⟨7, by decide, by decide, by decide⟩ hsp).1 7 (by decide) (by decide) (by decide),
    (fault_fires_one_callback (clear_fault same_page_traps) hrun 69000
      ⟨7, by decide, by decide, by decide⟩ hsp).2.1 (by decide)⟩

/-! ## Deleting a trap -/

/-- Claim C7: in every state `qdbp_del_trap(id)` returns `-EINVAL` if and only if `id < 0`,
`id >= capacity` or slot `id` is not live; otherwise a call that returns returns `0` and slot
`id` is no longer live, so that a second `qdbp_del_trap(id)` right after returns `-EINVAL`; and
the call does return when the two tables are consistent, as they are in every state the process
reaches, after serviced faults too. -/
theorem del_trap_result (s : Proc) (id : Int) :
    (ret_code (qdbp_del_trap s id) = some (-EINVAL) ↔
      (id < 0 ∨ (QDBP_NUM_TRAPS : Int) ≤ id ∨ ¬ live_trap s.ctx id.toNat)) ∧
    (∀ r s1, qdbp_del_trap s id = Res.ret (r, s1) →
      ¬ (id < 0 ∨ (QDBP_NUM_TRAPS : Int) ≤ id ∨ ¬ live_trap s.ctx id.toNat) →
      r = 0 ∧ ¬ live_trap s1.ctx id.toNat ∧
        ret_code (qdbp_del_trap s1 id) = some (-EINVAL)) ∧
    (Inv s → ¬ (id < 0 ∨ (QDBP_NUM_TRAPS : Int) ≤ id ∨ ¬ live_trap s.ctx id.toNat) →
      ∃ s1, qdbp_del_trap s id = Res.ret (0, s1) ∧ ¬ live_trap s1.ctx id.toNat ∧
        ret_code (qdbp_del_trap s1 id) = some (-EINVAL)) := by
  have hagain : ∀ s1 : Proc, ¬ live_trap s1.ctx id.toNat →
      ret_code (qdbp_del_trap s1 id) = some (-EINVAL) := by
    intro s1 hdead
    rcases del_trap_outcome s1 id with ⟨_, h3⟩ | ⟨k, _, hid, hl, _⟩
    · rw [h3]
      rfl
    · exfalso
      apply hdead
      rw [hid]
      simpa using hl
  have hret : ∀ r s1, qdbp_del_trap s id = Res.ret (r, s1) →
      ¬ (id < 0 ∨ (QDBP_NUM_TRAPS : Int) ≤ id ∨ ¬ live_trap s.ctx id.toNat) →
      r = 0 ∧ ¬ live_trap s1.ctx id.toNat := by
    intro r s1 h hn
    rcases del_trap_outcome s id with ⟨hc, _⟩ | ⟨k, hk, hid, hl, h1⟩
    · exact absurd hc hn
    · rcases h1 with (⟨_, h1⟩ | ⟨_, _, h1⟩) | ⟨s2, _, h1⟩
      · rw [h1] at h
        cases h
      · rw [h1] at h
        cases h
      · rw [h1] at h
        cases h
        refine ⟨rfl, ?_⟩
        rw [hid]
        unfold live_trap
        simp [del_trap]
  refine ⟨?_, ?_, ?_⟩
  · constructor
    · intro h
      by_contra hn
      rcases del_trap_outcome s id with ⟨hc, _⟩ | ⟨k, hk, hid, hl, h1⟩
      · exact hn hc
      · rcases h1 with (⟨_, h1⟩ | ⟨_, _, h1⟩) | ⟨s2, _, h1⟩
        · rw [h1] at h
          cases h
        · rw [h1] at h
          cases h
        · rw [h1] at h
          simp [ret_code, EINVAL] at h
    · intro h
      rcases del_trap_outcome s id with ⟨_, h3⟩ | ⟨k, hk, hid, hl, _⟩
      · rw [h3]
        rfl
      · exfalso
        rcases h with h | h | h
        · have := Int.natCast_nonneg k
          omega
        · have : (k : Int) < (QDBP_NUM_TRAPS : Int) := by exact_mod_cast hk
          omega
        · apply h
          rw [hid]
          simpa using hl
  · intro r s1 h hn
    obtain ⟨h0, hdead⟩ := hret r s1 h hn
    exact ⟨h0, hdead, hagain s1 hdead⟩
  · intro hinv hn
    have hn2 := hn
    push_neg at hn2
    obtain ⟨h0, h1, h2⟩ := hn2
    have hk : (id.toNat : Int) = id := Int.toNat_of_nonneg h0
    have hlt : id.toNat < QDBP_NUM_TRAPS := by omega
    obtain ⟨kp, s1, _, _, _, _, hres, _⟩ :=
      del_trap_success_shape s hinv id.toNat hlt h2
    rw [hk] at hres
    have hdead := (hret 0 s1 hres hn).2
    exact ⟨s1, hres, hdead, hagain s1 hdead⟩

theorem del_trap_result_witness :
    (Running after_fault ∧ Inv after_fault ∧
      ¬ ((7 : Int) < 0 ∨ (QDBP_NUM_TRAPS : Int) ≤ 7 ∨
        ¬ live_trap after_fault.ctx (7 : Int).toNat)) ∧
    ∃ s1, qdbp_del_trap after_fault 7 = Res.ret (0, s1) ∧ ¬ live_trap s1.ctx (7 : Int).toNat ∧
      ret_code (qdbp_del_trap s1 7) = some (-EINVAL) :=
  have hl : ¬ ((7 : Int) < 0 ∨ (QDBP_NUM_TRAPS : Int) ≤ 7 ∨
      ¬ live_trap after_fault.ctx (7 : Int).toNat) := by decide!
  ⟨⟨running_after_fault, running_inv after_fault running_after_fault, hl⟩,
    (del_trap_result after_fault 7).2.2 (running_inv after_fault running_after_fault) hl⟩

/-! ## A deleted trap stays silent -/

theorem get_trap_live (c : qdbp_ctx) (a : Nat) (k : Nat) (h : get_trap c a = (k : Int)) :
    k < QDBP_NUM_TRAPS ∧ live_trap c k := by
  rcases get_trap_spec c a with ⟨g1, _⟩ | ⟨j, hj, g1, g2, _⟩
  · rw [g1] at h
    have := Int.natCast_nonneg k
    omega
  · rw [g1] at h
    have e : j = k := by exact_mod_cast h
    subst e
    exact ⟨hj, g2.1⟩

theorem dead_slot_step (s : Proc) (c : Call) (r : Int) (s1 : Proc) (k : Nat)
    (hstep : step s c = Res.ret (r, s1)) (hdead : ¬ live_trap s.ctx k)
    (hret : is_set_trap c = true → r ≠ (k : Int)) : ¬ live_trap s1.ctx k := by
  cases c with
  | set_trap addr len cb arg =>
    have hstep' : qdbp_set_trap s addr len cb arg = Res.ret (r, s1) := hstep
    have hne : r ≠ (k : Int) := hret rfl
    rcases set_trap_outcome s addr len cb arg with ⟨_, h1⟩ | ⟨_, _, h1⟩ | ⟨_, _, _, h1⟩ |
      ⟨_, _, j, _, _, _, h1⟩
    · rw [h1] at hstep'
      cases hstep'
      exact fun hl => hdead ((ensure_init_live_trap s k).mp hl)
    · rw [h1] at hstep'
      cases hstep'
      exact fun hl => hdead ((ensure_init_live_trap s k).mp hl)
    · rw [h1] at hstep'
      cases hstep'
      exact fun hl => hdead ((ensure_init_live_trap s k).mp hl)
    · rcases h1 with (⟨_, h1⟩ | ⟨_, _, h1⟩) | ⟨p, s2, hnr, h1⟩
      · rw [h1] at hstep'
        cases hstep'
      · rw [h1] at hstep'
        cases hstep'
      · rw [h1] at hstep'
        cases hstep'
        have hjk : j ≠ k := fun e => hne (by rw [e])
        have h3 := (new_range_trap _ s2 _ p hnr).1
        unfold live_trap at hdead ⊢
        simp only
        rw [Function.update_noteq (Ne.symm hjk), h3, ensure_init_trap]
        exact hdead
  | del_trap id =>
    have hstep' : qdbp_del_trap s id = Res.ret (r, s1) := hstep
    rcases del_trap_outcome s id with ⟨_, h1⟩ | ⟨j, _, _, _, h1⟩
    · rw [h1] at hstep'
      cases hstep'
      exact hdead
    · rcases h1 with (⟨_, h1⟩ | ⟨_, _, h1⟩) | ⟨s2, hs2, h1⟩
      · rw [h1] at hstep'
        cases hstep'
      · rw [h1] at hstep'
        cases hstep'
      · rw [h1] at hstep'
        cases hstep'
        have h3 := (del_range_trap s s2 _ hs2).1
        unfold live_trap at hdead ⊢
        simp only [del_trap]
        by_cases e : k = j
        · subst e
          simp
        · rw [Function.update_noteq e, h3]
          exact hdead

theorem dead_slot_run (calls : List Call) :
    ∀ (s : Proc) (rs : List Int) (s1 : Proc) (k : Nat), run_calls s calls = some (rs, s1) →
      ¬ live_trap s.ctx k → never_returned (k : Int) calls rs → ¬ live_trap s1.ctx k := by
  induction calls with
  | nil =>
    intro s rs s1 k h hdead _
    simp only [run_calls, Option.some.injEq, Prod.mk.injEq] at h
    rw [← h.2]
    exact hdead
  | cons c cs ih =>
    intro s rs s1 k h hdead hnever
    obtain ⟨r, s2, rs2, hst, hrun, rfl⟩ := run_calls_cons s c cs rs s1 h
    unfold never_returned at hnever
    have hd2 : ¬ live_trap s2.ctx k :=
      dead_slot_step s c r s2 k hst hdead
        (fun hc => hnever (c, r) (by simp [List.zip_cons_cons]) hc)
    apply ih s2 rs2 s1 k hrun hd2
    intro p hp hc
    exact hnever p (by simp only [List.zip_cons_cons, List.mem_cons]; exact Or.inr hp) hc

/-- When `trap_handler` returns, a fault was recorded, and the callbacks it invoked are none
when `trap_num` is negative, else the callback of slot `trap_num`. -/
theorem trap_handler_returned (s s3 : Proc) (cbs : List (Nat × Nat))
    (h : trap_handler s = Handled.returned s3 cbs) :
    in_bounds s.ctx.range_num ∧
    s3 = mprotect (clear_fault s) (s.ctx.range s.ctx.range_num.toNat).page Prot.read_only ∧
    ((s.ctx.trap_num < 0 ∧ cbs = []) ∨
      (∃ k, k < QDBP_NUM_TRAPS ∧ s.ctx.trap_num = (k : Int) ∧ (s.ctx.trap k).cb ≠ 0 ∧
        cbs = [((s.ctx.trap k).cb, (s.ctx.trap k).arg)])) := by
  unfold trap_handler at h
  simp only at h
  by_cases hp : s.ctx.range_num < 0
  · rw [if_pos hp] at h
    cases h
  · rw [if_neg hp] at h
    by_cases ht : s.ctx.trap_num ≥ 0
    · rw [if_pos ht] at h
      by_cases hc : in_bounds s.ctx.trap_num ∧ (s.ctx.trap s.ctx.trap_num.toNat).cb ≠ 0
      · rw [if_pos hc] at h
        unfold relock at h
        by_cases hb : in_bounds s.ctx.range_num
        · rw [if_pos hb] at h
          by_cases hm : s.mapped (s.ctx.range s.ctx.range_num.toNat).page = true
          · simp only [lock_page, hm, if_true, Handled.returned.injEq] at h
            refine ⟨hb, h.1.symm, Or.inr ⟨s.ctx.trap_num.toNat, ?_, ?_, hc.2, h.2.symm⟩⟩
            · have := hc.1.2
              omega
            · exact (Int.toNat_of_nonneg ht).symm
          · simp [lock_page, hm] at h
        · rw [if_neg hb] at h
          cases h
      · rw [if_neg hc] at h
        cases h
    · rw [if_neg ht] at h
      unfold relock at h
      by_cases hb : in_bounds s.ctx.range_num
      · rw [if_pos hb] at h
        by_cases hm : s.mapped (s.ctx.range s.ctx.range_num.toNat).page = true
        · simp only [lock_page, hm, if_true, Handled.returned.injEq] at h
          exact ⟨hb, h.1.symm, Or.inl ⟨by omega, h.2.symm⟩⟩
        · simp [lock_page, hm] at h
      · rw [if_neg hb] at h
        cases h

theorem fault_notify_returned (s s3 : Proc) (f : Nat) (cbs : List (Nat × Nat))
    (h : fault_notify s f = Handled.returned s3 cbs) :
    ∃ s1, segv_handler s f = Handled.returned s1 [] ∧
      trap_handler s1 = Handled.returned s3 cbs := by
  rcases segv_handler_outcome s f with ⟨_, h1⟩ | ⟨kp, _, _, _, _, ⟨_, h1⟩ | ⟨_, h1⟩⟩
  · simp only [fault_notify, h1] at h
    cases h
  · refine ⟨_, h1, ?_⟩
    simp only [fault_notify, h1] at h
    generalize trap_handler _ = x at h ⊢
    cases x with
    | returned s2 c2 =>
      simp only [List.nil_append] at h
      exact h
    | exited st s2 c2 => cases h
    | undefined => cases h
  · simp only [fault_notify, h1] at h
    cases h

/-- Claim C12: after `qdbp_del_trap(id)` has returned `0`, and as long as no later
`qdbp_set_trap` returns `id`, slot `id` is not live, `get_trap` returns `id` for no address,
the fault handler never records `id` in `trap_num`, and a fault followed by its notification
invokes either no callback or the callback of a live slot other than `id`. -/
theorem deleted_trap_never_fires (s : Proc) (id : Int) (s1 : Proc)
    (h : qdbp_del_trap s id = Res.ret (0, s1)) :
    ∀ calls rs s2, run_calls s1 calls = some (rs, s2) → never_returned id calls rs →
      ¬ live_trap s2.ctx id.toNat ∧ (∀ f, get_trap s2.ctx f ≠ id) ∧
      (∀ f s3 cbs, segv_handler s2 f = Handled.returned s3 cbs →
        s3.ctx.trap_num ≠ id ∧ cbs = []) ∧
      (∀ f s3 cbs, fault_notify s2 f = Handled.returned s3 cbs →
        cbs = [] ∨ ∃ k, k < QDBP_NUM_TRAPS ∧ (k : Int) ≠ id ∧ live_trap s2.ctx k ∧
          cbs = [((s2.ctx.trap k).cb, (s2.ctx.trap k).arg)]) := by
  intro calls rs s2 hrun hnever
  have hid : ∃ j, j < QDBP_NUM_TRAPS ∧ id = (j : Int) ∧ ¬ live_trap s1.ctx j := by
    rcases del_trap_outcome s id with ⟨_, h1⟩ | ⟨j, hj, hid, _, h1⟩
    · rw [h1] at h
      cases h
    · rcases h1 with (⟨_, h1⟩ | ⟨_, _, h1⟩) | ⟨s0, _, h1⟩
      · rw [h1] at h
        cases h
      · rw [h1] at h
        cases h
      · rw [h1] at h
        cases h
        refine ⟨j, hj, hid, ?_⟩
        unfold live_trap
        simp [del_trap]
  obtain ⟨j, hj, rfl, hdead1⟩ := hid
  have hdead : ¬ live_trap s2.ctx j := dead_slot_run calls s1 rs s2 j hrun hdead1 hnever
  have hget : ∀ f, get_trap s2.ctx f ≠ (j : Int) :=
    fun f e => hdead (get_trap_live s2.ctx f j e).2
  refine ⟨by simpa using hdead, hget, ?_, ?_⟩
  · intro f s3 cbs hs
    rcases segv_handler_outcome s2 f with ⟨_, h1⟩ | ⟨kp, _, _, _, _, ⟨_, h1⟩ | ⟨_, h1⟩⟩
    · rw [h1] at hs
      cases hs
    · rw [h1] at hs
      cases hs
      exact ⟨by simpa [mprotect] using hget f, rfl⟩
    · rw [h1] at hs
      cases hs
  · intro f s3 cbs hs
    obtain ⟨s4, hsegv, htrap⟩ := fault_notify_returned s2 s3 f cbs hs
    obtain ⟨_, _, hcb⟩ := trap_handler_returned s4 s3 cbs htrap
    rcases segv_handler_outcome s2 f with ⟨_, h1⟩ | ⟨kp, _, _, _, _, ⟨_, h1⟩ | ⟨_, h1⟩⟩
    · rw [h1] at hsegv
      cases hsegv
    · rw [h1] at hsegv
      cases hsegv
      rcases hcb with ⟨_, hc⟩ | ⟨k, hk, hnum, _, hc⟩
      · exact Or.inl hc
      · right
        have hg : get_trap s2.ctx f = (k : Int) := by
          simpa [mprotect] using hnum
        have hkj : (k : Int) ≠ (j : Int) := fun e => hget f (by rw [hg, e])
        refine ⟨k, hk, hkj, (get_trap_live s2.ctx f k hg).2, ?_⟩
        simpa [mprotect] using hc
    · rw [h1] at hsegv
      cases hsegv

theorem deleted_trap_never_fires_witness :
    qdbp_del_trap same_page_traps 6 =
      Res.ret (0, state_after same_page_traps (qdbp_del_trap same_page_traps 6)) ∧
    ∀ f, get_trap (state_after same_page_traps (qdbp_del_trap same_page_traps 6)).ctx f ≠ 6 :=
  ⟨by rfl, (deleted_trap_never_fires same_page_traps 6 _ (by rfl) [] [] _ (by rfl)
    (by intro p hp; cases hp)).2.1⟩

/-! ## Which slot is taken -/

/-- What a successful `qdbp_set_trap` returns: the greatest index of a free trap slot. -/
theorem set_trap_greatest_free (s : Proc) (addr : Nat) (len : Int) (cb arg : Nat) (r : Int)
    (s1 : Proc) (h : qdbp_set_trap s addr len cb arg = Res.ret (r, s1)) (hr : 0 ≤ r) :
    ∃ k, k < QDBP_NUM_TRAPS ∧ r = (k : Int) ∧ ¬ live_trap s.ctx k ∧
      (∀ t, k < t → t < QDBP_NUM_TRAPS → live_trap s.ctx t) ∧
      ∃ p s2, new_range (ensure_init s) (align_page (ensure_init s).ctx addr) = Res.ret (p, s2) ∧
        s1 = { s2 with ctx := { s2.ctx with
          trap := Function.update s2.ctx.trap k ⟨cb, arg, addr, len, p⟩ } } := by
  rcases set_trap_outcome s addr len cb arg with ⟨_, h1⟩ | ⟨_, _, h1⟩ | ⟨_, _, _, h1⟩ |
    ⟨_, _, k, hk, hfree, hmax, h1⟩
  · rw [h1] at h
    cases h
    simp [EINVAL] at hr
  · rw [h1] at h
    cases h
    simp [EBUSY] at hr
  · rw [h1] at h
    cases h
    simp [ENOSPC] at hr
  · rcases h1 with (⟨_, h1⟩ | ⟨_, _, h1⟩) | ⟨p, s2, hnr, h1⟩
    · rw [h1] at h
      cases h
    · rw [h1] at h
      cases h
    · rw [h1] at h
      cases h
      exact ⟨k, hk, rfl, fun hl => hfree ((ensure_init_live_trap s k).mpr hl),
        fun t h2 h3 => (ensure_init_live_trap s t).mp (hmax t h2 h3), p, s2, hnr, rfl⟩

theorem greatest_free_unique (P Q : Nat → Prop) (n k j : Nat) (hPQ : ∀ t, t < n → (P t ↔ Q t))
    (hk : k < n) (hj : j < n) (hk1 : ¬ P k) (hk2 : ∀ t, k < t → t < n → P t)
    (hj1 : ¬ Q j) (hj2 : ∀ t, j < t → t < n → Q t) : k = j := by
  rcases Nat.lt_trichotomy k j with h | h | h
  · exact absurd ((hPQ j hj).mp (hk2 j h hj)) hj1
  · exact h
  · exact absurd (hj2 k h hk) (fun hq => hk1 ((hPQ k hk).mpr hq))

/-- Claim C13 as stated fails: in a fresh process, whose table has no live trap, the first
`qdbp_set_trap` succeeds and returns the id 7, not 0. -/
theorem first_trap_id_counterexample :
    (∀ t, t < QDBP_NUM_TRAPS → ¬ live_trap (initial 4096 user_pages).ctx t) ∧
    ret_code (qdbp_set_trap (initial 4096 user_pages) 65536 4 1 0) = some 7 ∧
    ret_code (qdbp_set_trap (initial 4096 user_pages) 65536 4 1 0) ≠ some 0 := by
  refine ⟨?_, by rfl, by decide⟩
  intro t _ hl
  exact hl rfl

/-- Claim C13, amended: starting from a table with no live trap, a successful `qdbp_set_trap`
returns the id `QDBP_NUM_TRAPS - 1` (7 by default), the last slot. -/
theorem first_trap_id (s : Proc) (addr : Nat) (len : Int) (cb arg : Nat) (r : Int) (s1 : Proc)
    (hempty : ∀ t, t < QDBP_NUM_TRAPS → ¬ live_trap s.ctx t)
    (h : qdbp_set_trap s addr len cb arg = Res.ret (r, s1)) (hr : 0 ≤ r) :
    r = (QDBP_NUM_TRAPS : Int) - 1 := by
  obtain ⟨k, hk, hrk, _, hmax, _⟩ := set_trap_greatest_free s addr len cb arg r s1 h hr
  have : k = QDBP_NUM_TRAPS - 1 := by
    by_contra hne
    have h1 : k < QDBP_NUM_TRAPS - 1 := by omega
    exact hempty (QDBP_NUM_TRAPS - 1) (by omega) (hmax (QDBP_NUM_TRAPS - 1) h1 (by omega))
  rw [hrk, this]
  have : 1 ≤ QDBP_NUM_TRAPS := by omega
  push_cast [Nat.cast_sub this]
  rfl

theorem first_trap_id_witness :
    ((∀ t, t < QDBP_NUM_TRAPS → ¬ live_trap (initial 4096 user_pages).ctx t) ∧
      qdbp_set_trap (initial 4096 user_pages) 65536 4 1 0 = Res.ret (7, one_trap) ∧ (0 : Int) ≤ 7) ∧
    (7 : Int) = (QDBP_NUM_TRAPS : Int) - 1 :=
  ⟨⟨fun _ _ hl => hl rfl, by rfl, by decide⟩,
    first_trap_id (initial 4096 user_pages) 65536 4 1 0 7 one_trap (fun _ _ hl => hl rfl) (by rfl)
      (by decide)⟩

theorem reachable_slot6_only : Reachable slot6_only :=
  Reachable.step (Call.del_trap 7) reachable_two_traps (by rfl)

/-- Claim C14 as stated fails: in the reachable state `slot6_only` (slot 6 live, slot 7 free),
`qdbp_del_trap(6)` returns `0` and the `qdbp_set_trap` that follows succeeds and returns 7,
not the id 6 that was just freed. -/
theorem reuse_last_freed_counterexample :
    Reachable slot6_only ∧
    ret_code (qdbp_del_trap slot6_only 6) = some 0 ∧
    ret_code (qdbp_set_trap (state_after slot6_only (qdbp_del_trap slot6_only 6)) 65536 4 1 0)
      = some 7 ∧
    ret_code (qdbp_set_trap (state_after slot6_only (qdbp_del_trap slot6_only 6)) 65536 4 1 0)
      ≠ some 6 :=
  ⟨reachable_slot6_only, by rfl, by rfl, by decide⟩

/-- Claim C14, amended: slot reuse is highest-index-first. If `qdbp_del_trap(k)` returns `0` and
the `qdbp_set_trap` that follows succeeds, that call returns the greatest index of a free slot,
which is at least `k`, and is `k` exactly when every slot above `k` was live. -/
theorem reuse_after_delete (s : Proc) (k : Int) (s1 : Proc) (addr : Nat) (len : Int)
    (cb arg : Nat) (r : Int) (s2 : Proc) (hdel : qdbp_del_trap s k = Res.ret (0, s1))
    (hset : qdbp_set_trap s1 addr len cb arg = Res.ret (r, s2)) (hr : 0 ≤ r) :
    k ≤ r ∧ r < (QDBP_NUM_TRAPS : Int) ∧ ¬ live_trap s1.ctx r.toNat ∧
    (∀ t : Nat, r < (t : Int) → t < QDBP_NUM_TRAPS → live_trap s1.ctx t) ∧
    (r = k ↔ ∀ t : Nat, k < (t : Int) → t < QDBP_NUM_TRAPS → live_trap s.ctx t) := by
  obtain ⟨i, hi, rfl, hfree, hmax, _⟩ := set_trap_greatest_free s1 addr len cb arg r s2 hset hr
  have hk : ∃ j, j < QDBP_NUM_TRAPS ∧ k = (j : Int) ∧
      ∀ t, live_trap s1.ctx t ↔ t ≠ j ∧ live_trap s.ctx t := by
    rcases del_trap_outcome s k with ⟨_, h1⟩ | ⟨j, hj, hid, _, h1⟩
    · rw [h1] at hdel
      cases hdel
    · rcases h1 with (⟨_, h1⟩ | ⟨_, _, h1⟩) | ⟨s0, hs0, h1⟩
      · rw [h1] at hdel
        cases hdel
      · rw [h1] at hdel
        cases hdel
      · rw [h1] at hdel
        cases hdel
        refine ⟨j, hj, hid, ?_⟩
        intro t
        have h3 := (del_range_trap s s0 _ hs0).1
        unfold live_trap
        simp only [del_trap]
        by_cases e : t = j
        · subst e
          simp
        · rw [Function.update_noteq e, h3]
          simp [e]
  obtain ⟨j, hj, rfl, hlive⟩ := hk
  have hjfree : ¬ live_trap s1.ctx j := fun hl => ((hlive j).mp hl).1 rfl
  have hji : j ≤ i := by
    by_contra hlt
    exact hjfree (hmax j (by omega) hj)
  refine ⟨by exact_mod_cast hji, by exact_mod_cast hi, by simpa using hfree, ?_, ?_⟩
  · intro t h1 h2
    exact hmax t (by exact_mod_cast h1) h2
  · constructor
    · intro e t h1 h2
      have hij : i = j := by exact_mod_cast e
      have h3 : j < t := by exact_mod_cast h1
      exact ((hlive t).mp (hmax t (by omega) h2)).2
    · intro hall
      have : i = j := by
        by_contra hne
        have h1 : j < i := by omega
        exact hfree ((hlive i).mpr ⟨by omega, hall i (by exact_mod_cast h1) hi⟩)
      rw [this]

theorem reuse_after_delete_witness :
    (qdbp_del_trap slot6_only 6 =
        Res.ret (0, state_after slot6_only (qdbp_del_trap slot6_only 6)) ∧
      qdbp_set_trap (state_after slot6_only (qdbp_del_trap slot6_only 6)) 65536 4 1 0 =
        Res.ret (7, state_after (state_after slot6_only (qdbp_del_trap slot6_only 6))
          (qdbp_set_trap (state_after slot6_only (qdbp_del_trap slot6_only 6)) 65536 4 1 0)) ∧
      (0 : Int) ≤ 7) ∧
    ((7 : Int) = 6 ↔ ∀ t : Nat, (6 : Int) < (t : Int) → t < QDBP_NUM_TRAPS →
      live_trap slot6_only.ctx t) :=
  ⟨⟨by rfl, by rfl, by decide⟩,
    (reuse_after_delete slot6_only 6 _ 65536 4 1 0 7 _ (by rfl) (by rfl) (by decide)).2.2.2.2⟩

/-- Claim C15: a successful `qdbp_set_trap` returns the greatest index in `0 .. capacity - 1`
whose trap slot was free before the call; when no live range has the page of `addr`, the new
range sits at the greatest index whose range slot was free; and two tables with the same
liveness pattern give the same trap index and, when both need a new range, the same range
index. -/
theorem slot_allocation_policy (s : Proc) (addr : Nat) (len : Int) (cb arg : Nat) (r : Int)
    (s1 : Proc) (h : qdbp_set_trap s addr len cb arg = Res.ret (r, s1)) (hr : 0 ≤ r) :
    (r < (QDBP_NUM_TRAPS : Int) ∧ ¬ live_trap s.ctx r.toNat ∧
      ∀ t : Nat, r < (t : Int) → t < QDBP_NUM_TRAPS → live_trap s.ctx t) ∧
    ((∀ p, p < QDBP_NUM_TRAPS →
        ¬ (live_range s.ctx p ∧ (s.ctx.range p).page = align_page (ensure_init s).ctx addr)) →
      ∃ kp, kp < QDBP_NUM_TRAPS ∧ (s1.ctx.trap r.toNat).range_idx = (kp : Int) ∧
        ¬ live_range s.ctx kp ∧ (∀ p, kp < p → p < QDBP_NUM_TRAPS → live_range s.ctx p) ∧
        (s1.ctx.range kp).page = align_page (ensure_init s).ctx addr ∧
        (s1.ctx.range kp).count = 1) ∧
    (∀ s' addr' len' cb' arg' r' s1',
      qdbp_set_trap s' addr' len' cb' arg' = Res.ret (r', s1') → 0 ≤ r' →
      (∀ t, t < QDBP_NUM_TRAPS → (live_trap s.ctx t ↔ live_trap s'.ctx t)) →
      r' = r ∧
      ((∀ p, p < QDBP_NUM_TRAPS → (live_range s.ctx p ↔ live_range s'.ctx p)) →
        (∀ p, p < QDBP_NUM_TRAPS → ¬ (live_range s.ctx p ∧
          (s.ctx.range p).page = align_page (ensure_init s).ctx addr)) →
        (∀ p, p < QDBP_NUM_TRAPS → ¬ (live_range s'.ctx p ∧
          (s'.ctx.range p).page = align_page (ensure_init s').ctx addr')) →
        (s1'.ctx.trap r'.toNat).range_idx = (s1.ctx.trap r.toNat).range_idx)) := by
  have hnew : ∀ (s : Proc) (addr : Nat) (len : Int) (cb arg : Nat) (r : Int) (s1 : Proc),
      qdbp_set_trap s addr len cb arg = Res.ret (r, s1) → 0 ≤ r →
      (∀ p, p < QDBP_NUM_TRAPS →
        ¬ (live_range s.ctx p ∧ (s.ctx.range p).page = align_page (ensure_init s).ctx addr)) →
      ∃ kp, kp < QDBP_NUM_TRAPS ∧ (s1.ctx.trap r.toNat).range_idx = (kp : Int) ∧
        ¬ live_range s.ctx kp ∧ (∀ p, kp < p → p < QDBP_NUM_TRAPS → live_range s.ctx p) ∧
        (s1.ctx.range kp).page = align_page (ensure_init s).ctx addr ∧
        (s1.ctx.range kp).count = 1 := by
    intro s addr len cb arg r s1 h hr hnone
    obtain ⟨k, _, rfl, _, _, p, s2, hnr, rfl⟩ :=
      set_trap_greatest_free s addr len cb arg r s1 h hr
    rcases new_range_outcome (ensure_init s) (align_page (ensure_init s).ctx addr) with
      ⟨kp, hkp, hl, hpage, _, _⟩ |
      ⟨_, ⟨kp, hkp, hdead, hgt, _, ⟨_, h2⟩ | ⟨_, h2⟩⟩ | ⟨_, h2⟩⟩
    · exfalso
      apply hnone kp hkp
      refine ⟨(ensure_init_live_range s kp).mp hl, ?_⟩
      rw [← ensure_init_range]
      exact hpage
    · rw [h2] at hnr
      cases hnr
      refine ⟨kp, hkp, by simp, fun hl => hdead ((ensure_init_live_range s kp).mpr hl),
        fun q h3 h4 => (ensure_init_live_range s q).mp (hgt q h3 h4), ?_, ?_⟩
      · simp [set_range_count, mprotect, set_range_page]
      · simp [set_range_count, mprotect, set_range_page]
    · rw [h2] at hnr
      cases hnr
    · rw [h2] at hnr
      cases hnr
  obtain ⟨k, hk, hrk, hfree, hmax, _⟩ := set_trap_greatest_free s addr len cb arg r s1 h hr
  refine ⟨⟨?_, ?_, ?_⟩, hnew s addr len cb arg r s1 h hr, ?_⟩
  · rw [hrk]
    exact_mod_cast hk
  · rw [hrk]
    simpa using hfree
  · intro t h1 h2
    rw [hrk] at h1
    exact hmax t (by exact_mod_cast h1) h2
  · intro s' addr' len' cb' arg' r' s1' h' hr' hsame
    obtain ⟨k', hk', hrk', hfree', hmax', _⟩ :=
      set_trap_greatest_free s' addr' len' cb' arg' r' s1' h' hr'
    have hkk : k = k' := greatest_free_unique (fun t => live_trap s.ctx t)
      (fun t => live_trap s'.ctx t) QDBP_NUM_TRAPS k k' hsame hk hk' hfree hmax hfree' hmax'
    refine ⟨by rw [hrk, hrk', hkk], ?_⟩
    intro hsame_r hnone hnone'
    obtain ⟨kp, hkp, hidx, hd, hg, _⟩ := hnew s addr len cb arg r s1 h hr hnone
    obtain ⟨kp', hkp', hidx', hd', hg', _⟩ := hnew s' addr' len' cb' arg' r' s1' h' hr' hnone'
    have : kp = kp' := greatest_free_unique (fun t => live_range s.ctx t)
      (fun t => live_range s'.ctx t) QDBP_NUM_TRAPS kp kp' hsame_r hkp hkp' hd hg hd' hg'
    rw [hidx, hidx', this]

theorem slot_allocation_policy_witness :
    (qdbp_set_trap one_trap 73728 4 1 0 = Res.ret (6, two_traps) ∧ (0 : Int) ≤ 6) ∧
    ((6 : Int) < (QDBP_NUM_TRAPS : Int) ∧ ¬ live_trap one_trap.ctx (6 : Int).toNat ∧
      ∀ t : Nat, (6 : Int) < (t : Int) → t < QDBP_NUM_TRAPS → live_trap one_trap.ctx t) :=
  ⟨⟨by rfl, by decide⟩,
    (slot_allocation_policy one_trap 73728 4 1 0 6 two_traps (by rfl) (by decide)).1⟩

/-! ## The range table never overflows -/

theorem live_ranges_le_live_traps (s : Proc) (hinv : Inv s) :
    live_ranges s.ctx ≤ live_traps s.ctx := by
  rw [live_traps_eq_sum s hinv]
  unfold live_ranges
  rw [Finset.card_filter]
  apply Finset.sum_le_sum
  intro p hp
  simp only [Finset.mem_range] at hp
  by_cases hl : live_range s.ctx p
  · rw [if_pos hl]
    have h2 := hl
    unfold live_range at h2
    rw [hinv.cnt p hp] at h2
    have : trap_refs s.ctx p ≠ 0 := by exact_mod_cast h2
    omega
  · rw [if_neg hl]
    exact Nat.zero_le _

/-- From a consistent state every call of `qdbp_set_trap` is defined: `new_range` never writes
outside the range table. The call returns when `mprotect` succeeds on the page of `addr`. -/
theorem set_trap_defined (s : Proc) (hinv : Inv s) (addr : Nat) (len : Int) (cb arg : Nat) :
    qdbp_set_trap s addr len cb arg ≠ Res.undef ∧
    (s.mapped (align_page (ensure_init s).ctx addr) = true →
      ∃ r s1, qdbp_set_trap s addr len cb arg = Res.ret (r, s1)) := by
  have hinv0 := inv_ensure_init s hinv
  rcases set_trap_outcome s addr len cb arg with ⟨_, h1⟩ | ⟨_, _, h1⟩ | ⟨_, _, _, h1⟩ |
    ⟨hv, ho, k, hk, hfree, _, h1⟩
  · exact ⟨(by rw [h1]; exact fun h => nomatch h), fun _ => ⟨_, _, h1⟩⟩
  · exact ⟨(by rw [h1]; exact fun h => nomatch h), fun _ => ⟨_, _, h1⟩⟩
  · exact ⟨(by rw [h1]; exact fun h => nomatch h), fun _ => ⟨_, _, h1⟩⟩
  · constructor
    · rcases h1 with (⟨hu, _⟩ | ⟨_, _, h1⟩) | ⟨_, _, _, h1⟩
      · exact absurd hu (new_range_defined (ensure_init s) hinv0 _ k hk hfree)
      · rw [h1]
        exact fun h => nomatch h
      · rw [h1]
        exact fun h => nomatch h
    · intro hm
      obtain ⟨j, s1, _, h2⟩ := set_trap_progress s hinv addr len cb arg hv ho
        ⟨k, hk, fun hl => hfree ((ensure_init_live_trap s k).mpr hl)⟩ hm
      exact ⟨_, _, h2⟩

/-- Claim C20: in every reachable state there are no more live ranges than live traps; so when
`qdbp_set_trap` is past its no-space check and `new_range` finds no range for the page,
`get_free_range` returns an index of the table, not `-1`, and every call of `qdbp_set_trap`
is defined (nothing is written at `range[-1]`) and returns when `mprotect` succeeds on the
page of `addr`. -/
theorem free_range_found (s : Proc) (hr : Reachable s) :
    live_ranges s.ctx ≤ live_traps s.ctx ∧
    (0 ≤ get_free_trap (ensure_init s).ctx →
      0 ≤ get_free_range (ensure_init s).ctx ∧
      get_free_range (ensure_init s).ctx < (QDBP_NUM_TRAPS : Int) ∧
      ¬ live_range s.ctx (get_free_range (ensure_init s).ctx).toNat) ∧
    (∀ addr len cb arg, qdbp_set_trap s addr len cb arg ≠ Res.undef ∧
      (s.mapped (align_page (ensure_init s).ctx addr) = true →
        ∃ r s1, qdbp_set_trap s addr len cb arg = Res.ret (r, s1))) := by
  have hinv := reachable_inv s hr
  have hinv0 := inv_ensure_init s hinv
  refine ⟨live_ranges_le_live_traps s hinv, ?_, set_trap_defined s hinv⟩
  intro hfree
  rcases get_free_trap_spec (ensure_init s).ctx with ⟨h1, _⟩ | ⟨k, hk, _, hkfree, _⟩
  · rw [h1] at hfree
    exact absurd hfree (by decide)
  · rcases get_free_range_loop_spec (ensure_init s).ctx QDBP_NUM_TRAPS with
      ⟨_, hall⟩ | ⟨p, hp, f1, f2, _⟩
    · exfalso
      obtain ⟨p, hp, hdead⟩ := free_range_exists (ensure_init s) hinv0 k hk hkfree
      exact hdead (hall p hp)
    · have hf : get_free_range (ensure_init s).ctx = (p : Int) := f1
      rw [hf]
      refine ⟨Int.natCast_nonneg p, by exact_mod_cast hp, ?_⟩
      simp only [Int.toNat_ofNat]
      exact fun hl => f2 ((ensure_init_live_range s p).mpr hl)

theorem free_range_found_witness :
    (Reachable two_traps ∧ 0 ≤ get_free_trap (ensure_init two_traps).ctx) ∧
    (0 ≤ get_free_range (ensure_init two_traps).ctx ∧
      get_free_range (ensure_init two_traps).ctx < (QDBP_NUM_TRAPS : Int) ∧
      ¬ live_range two_traps.ctx (get_free_range (ensure_init two_traps).ctx).toNat) :=
  ⟨⟨reachable_two_traps, by decide⟩,
    (free_range_found two_traps reachable_two_traps).2.1 (by decide)⟩

/-! ## A notification without a fault -/

/-- With the sentinel `-1` in `range_num`, `trap_handler` terminates the process with
`exit(1)`, invokes no callback and leaves the page protections alone. This is the state after
every run of `trap_handler` that returned. -/
theorem trap_handler_unexpected (s : Proc) (h : s.ctx.range_num < 0) :
    trap_handler s = Handled.exited 1 (clear_fault s) [] := by
  unfold trap_handler
  simp only
  rw [if_pos h]
  rfl

theorem trap_handler_twice (s s1 : Proc) (calls : List (Nat × Nat))
    (h : trap_handler s = Handled.returned s1 calls) :
    trap_handler s1 = Handled.exited 1 (clear_fault s1) [] ∧ (clear_fault s1).prot = s1.prot := by
  obtain ⟨_, hs1, _⟩ := trap_handler_returned s s1 calls h
  refine ⟨trap_handler_unexpected s1 ?_, rfl⟩
  rw [hs1]
  simp [mprotect, clear_fault]

/-- Claim C17 fails on the code. The fault state starts as zero, not as the sentinel `-1`:
right after the first `qdbp_set_trap` (state `one_trap`: handlers installed, no fault yet)
`range_num` and `trap_num` are `0`, so `trap_handler` does not take its `exit(1)` branch; it
calls through the null `cb` of the unused slot 0. With slot 0 live (`full_table`) it invokes
the callback of slot 0; the process ends only afterwards, with the `exit(1)` of `lock_page`,
because `mprotect` fails on the page `0` of the unused range slot 0. -/
theorem unexpected_notify_not_caught :
    Reachable one_trap ∧ one_trap.handlers = true ∧
    one_trap.ctx.range_num = 0 ∧ one_trap.ctx.trap_num = 0 ∧
    exit_status (trap_handler one_trap) = none ∧
    calls_of (trap_handler one_trap) = none ∧
    full_table.ctx.range_num = 0 ∧ full_table.ctx.trap_num = 0 ∧
    calls_of (trap_handler full_table) = some [(1, 0)] ∧
    exit_status (trap_handler full_table) = some 1 ∧
    (full_table.ctx.range 0).page = 0 ∧ full_table.mapped 0 = false := by
  refine ⟨reachable_one_trap, by rfl, by rfl, by rfl, by decide, by decide, by decide!,
    by decide!, by decide!, by decide!, by decide!, by decide!⟩

/-! ## The driver -/

/-- Claim C16: in `wait_segv`, for every stop signal other than `SIGSEGV`, the driver continues
the tracee injecting that signal and stays in `wait_segv`; in `wait_trap`, for every stop
signal, it continues the tracee injecting that signal and stays in `wait_trap` unless the
signal is `SIGUSR1`, in which case it moves to `wait_segv`. -/
theorem driver_forwards_signals (inst sig rip : Nat) :
    (sig ≠ SIGSEGV →
      driver_turn ⟨state.wait_segv, inst⟩ sig rip =
        Turn.next [Action.ptrace_cont sig] ⟨state.wait_segv, inst⟩) ∧
    (sig ≠ SIGUSR1 →
      driver_turn ⟨state.wait_trap, inst⟩ sig rip =
        Turn.next [Action.ptrace_cont sig] ⟨state.wait_trap, inst⟩) ∧
    driver_turn ⟨state.wait_trap, inst⟩ SIGUSR1 rip =
      Turn.next [Action.ptrace_cont SIGUSR1] ⟨state.wait_segv, inst⟩ := by
  refine ⟨?_, ?_, ?_⟩
  · intro h
    simp [driver_turn, h]
  · intro h
    simp [driver_turn, h]
  · simp [driver_turn]

theorem driver_forwards_signals_witness :
    ((12 : Nat) ≠ SIGSEGV ∧ (12 : Nat) ≠ SIGUSR1) ∧
    driver_turn ⟨state.wait_segv, 4198400⟩ 12 0 =
      Turn.next [Action.ptrace_cont 12] ⟨state.wait_segv, 4198400⟩ ∧
    driver_turn ⟨state.wait_trap, 4198400⟩ 12 0 =
      Turn.next [Action.ptrace_cont 12] ⟨state.wait_trap, 4198400⟩ :=
  ⟨⟨by decide, by decide⟩,
    (driver_forwards_signals 4198400 12 0).1 (by decide),
    (driver_forwards_signals 4198400 12 0).2.1 (by decide)⟩

/-- Claim C18 as stated fails: in `single_step` with the saved PC 4198400, a trace-stop at which
the sampled PC is 4198400 again moves the driver to `signal_trap`, and a trace-stop at which
the sampled PC is 4198404 leaves it in `single_step`. -/
theorem single_step_counterexample :
    driver_turn ⟨state.single_step, 4198400⟩ SIGTRAP 4198400 =
      Turn.next [Action.ptrace_getregs, Action.ptrace_singlestep 0]
        ⟨state.signal_trap, 4198400⟩ ∧
    driver_turn ⟨state.single_step, 4198400⟩ SIGTRAP 4198404 =
      Turn.next [Action.ptrace_getregs, Action.ptrace_singlestep 0]
        ⟨state.single_step, 4198400⟩ := by
  decide

/-- Claim C18, amended: in `single_step`, on a trace-stop, the driver samples the program
counter and single-steps with no injected signal; the next state is `signal_trap` if the
sampled PC equals the PC saved in `wait_segv` (the handler has returned to the faulting
instruction, which this step executes) and remains `single_step` if it differs. The saved PC
is the one sampled at the `SIGSEGV` stop. -/
theorem single_step_transition (inst rip : Nat) :
    driver_turn ⟨state.wait_segv, inst⟩ SIGSEGV rip =
      Turn.next [Action.ptrace_getregs, Action.ptrace_singlestep SIGSEGV]
        ⟨state.single_step, rip⟩ ∧
    (rip = inst →
      driver_turn ⟨state.single_step, inst⟩ SIGTRAP rip =
        Turn.next [Action.ptrace_getregs, Action.ptrace_singlestep 0]
          ⟨state.signal_trap, inst⟩) ∧
    (rip ≠ inst →
      driver_turn ⟨state.single_step, inst⟩ SIGTRAP rip =
        Turn.next [Action.ptrace_getregs, Action.ptrace_singlestep 0]
          ⟨state.single_step, inst⟩) := by
  refine ⟨?_, ?_, ?_⟩
  · simp [driver_turn]
  · intro h
    simp [driver_turn, h]
  · intro h
    have h' : ¬ inst = rip := fun e => h e.symm
    simp [driver_turn, h']

theorem single_step_transition_witness :
    ((4198400 : Nat) = 4198400 ∧ (4198404 : Nat) ≠ 4198400) ∧
    driver_turn ⟨state.single_step, 4198400⟩ SIGTRAP 4198400 =
      Turn.next [Action.ptrace_getregs, Action.ptrace_singlestep 0]
        ⟨state.signal_trap, 4198400⟩ ∧
    driver_turn ⟨state.single_step, 4198400⟩ SIGTRAP 4198404 =
      Turn.next [Action.ptrace_getregs, Action.ptrace_singlestep 0]
        ⟨state.single_step, 4198400⟩ :=
  ⟨⟨rfl, by decide⟩, (single_step_transition 4198400 4198400).2.1 rfl,
    (single_step_transition 4198400 4198404).2.2 (by decide)⟩

end Qdbp
